import Mathlib

/-!
Verification development for the todo-bridge converter (CSV / Markdown todo
lists to a task-management JSON document).  The Python sources under
src/todo_converter are shallowly embedded: strings are lists of characters,
the uuid-based id generator is a fresh-name counter, wall-clock timestamps
are an explicit parameter, and IEEE-754 double arithmetic (used by the
duration parser via Python float) is modelled exactly by round-to-nearest-even
on 53-bit significands with overflow to infinity.  Time-zone dependent
date conversions are modelled in UTC.
-/

namespace TodoConv

/-! ## Character and string utilities (Python semantics, ASCII fragment) -/

/-- Whitespace per Python str.strip and regex \s (ASCII part). -/
def pyIsSpace (c : Char) : Bool :=
  c = ' ' || c = '\t' || c = '\n' || c = '\x0d' || c = '\x0b' || c = '\x0c'

def pyIsDigit (c : Char) : Bool := '0' ≤ c && c ≤ '9'

def isAsciiLower (c : Char) : Bool := 'a' ≤ c && c ≤ 'z'

def isAsciiUpper (c : Char) : Bool := 'A' ≤ c && c ≤ 'Z'

def isAsciiAlpha (c : Char) : Bool := isAsciiLower c || isAsciiUpper c

/-- Word character for the regex \w (ASCII fragment of Python on str). -/
def pyIsWord (c : Char) : Bool := isAsciiAlpha c || pyIsDigit c || c = '_'

def pyToLower (c : Char) : Char :=
  if isAsciiUpper c then Char.ofNat (c.toNat + 32) else c

def digitVal (c : Char) : Nat := c.toNat - '0'.toNat

def lstripL (cs : List Char) : List Char := cs.dropWhile (pyIsSpace ·)

def rstripL (cs : List Char) : List Char :=
  ((cs.reverse).dropWhile (pyIsSpace ·)).reverse

def stripL (cs : List Char) : List Char := rstripL (lstripL cs)

def lowerL (cs : List Char) : List Char := cs.map pyToLower

def pyStrip (s : String) : String := ⟨stripL s.data⟩

def pyRstrip (s : String) : String := ⟨rstripL s.data⟩

def pyLower (s : String) : String := ⟨lowerL s.data⟩

/-- Numeric value of a digit list (most significant first). -/
def digitsVal (ds : List Char) : Nat := ds.foldl (fun a c => 10 * a + digitVal c) 0

/-- Join a list of character lists with a separator list. -/
def joinSep (sep : List Char) : List (List Char) → List Char
  | [] => []
  | [x] => x
  | x :: xs => x ++ sep ++ joinSep sep xs

/-- Split a character list at newline characters (Python str.split of "\n"). -/
def splitNl (cs : List Char) : List (List Char) :=
  match cs with
  | [] => [[]]
  | c :: rest =>
    let r := splitNl rest
    if c = '\n' then [] :: r
    else match r with
         | [] => [[c]]
         | x :: xs => (c :: x) :: xs

theorem dropWhile_len_le (p : Char → Bool) (l : List Char) :
    (l.dropWhile p).length ≤ l.length :=
  (l.dropWhile_suffix p).length_le

/-- Collapse whitespace runs to single spaces (the converter's clean-text
helper, re.sub of a whitespace run by one space); the flag records whether
the previous character was part of a run already emitted. -/
def collapseGo (prevSpace : Bool) : List Char → List Char
  | [] => []
  | c :: rest =>
    if pyIsSpace c then
      if prevSpace then collapseGo true rest else ' ' :: collapseGo true rest
    else c :: collapseGo false rest

def collapseWs (cs : List Char) : List Char := collapseGo false cs

def clean_text (s : String) : String := ⟨stripL (collapseWs s.data)⟩

/-! ## Model of Python binary64 floating point

Only what the converter exercises: conversion of a decimal literal to the
nearest double (round to nearest, ties to even), multiplication by a natural
constant, truncation to int.  Overflow produces an infinity, whose truncation
is Python OverflowError; truncating a nan is ValueError. -/

inductive PyErr where
  | valueError
  | overflowError
deriving DecidableEq, Repr

/-- A Python float: nan, signed infinity, or a finite value sign * m * 2^e. -/
inductive Fl where
  | nan
  | inf (sign : Bool)
  | fin (sign : Bool) (m : Nat) (e : Int)
deriving DecidableEq, Repr

/-- While a/b is at least 2^53, double b and raise the exponent. -/
def scaleUp : Nat → Nat → Nat → Int → Nat × Nat × Int
  | 0, a, b, e => (a, b, e)
  | f + 1, a, b, e => if 2 ^ 53 * b ≤ a then scaleUp f a (2 * b) (e + 1) else (a, b, e)

/-- While a/b is below 2^52, double a and lower the exponent. -/
def scaleDn : Nat → Nat → Nat → Int → Nat × Nat × Int
  | 0, a, b, e => (a, b, e)
  | f + 1, a, b, e => if a < 2 ^ 52 * b then scaleDn f (2 * a) b (e - 1) else (a, b, e)

/-- Round the positive rational a/b to a 53-bit significand and exponent,
nearest value, ties to even. -/
def roundMant (a b : Nat) : Nat × Int :=
  let s := scaleUp 4200 a b 0
  let t := scaleDn 4200 s.1 s.2.1 s.2.2
  let m0 := t.1 / t.2.1
  let r := t.1 % t.2.1
  let m :=
    if 2 * r < t.2.1 then m0
    else if t.2.1 < 2 * r then m0 + 1
    else if m0 % 2 = 0 then m0 else m0 + 1
  if m = 2 ^ 53 then (2 ^ 52, t.2.2 + 1) else (m, t.2.2)

/-- Nearest double to sign * a/b (b positive), with overflow to infinity.
Subnormal underflow is outside the range the program exercises. -/
def mkFin (sign : Bool) (a b : Nat) : Fl :=
  if a = 0 then Fl.fin sign 0 0
  else
    let me := roundMant a b
    if 971 < me.2 then Fl.inf sign else Fl.fin sign me.1 me.2

/-- Python int() of a float: truncation toward zero; nan raises ValueError
and an infinity raises OverflowError. -/
def pyIntOfFl : Fl → Except PyErr Int
  | Fl.nan => .error .valueError
  | Fl.inf _ => .error .overflowError
  | Fl.fin sign m e =>
    let n : Nat := if 0 ≤ e then m * 2 ^ e.toNat else m / 2 ^ (-e).toNat
    .ok (if sign then -(n : Int) else (n : Int))

/-- Product of a float with a nonnegative integer constant, correctly rounded. -/
def flMulNat (x : Fl) (c : Nat) : Fl :=
  match x with
  | Fl.nan => Fl.nan
  | Fl.inf s => if c = 0 then Fl.nan else Fl.inf s
  | Fl.fin s m e =>
    let p := m * c
    if p = 0 then Fl.fin s 0 0
    else if 0 ≤ e then mkFin s (p * 2 ^ e.toNat) 1
    else mkFin s p (2 ^ (-e).toNat)

/-- Nearest double to the decimal sign * n / 10^k. -/
def flOfDec (sign : Bool) (n k : Nat) : Fl :=
  if n = 0 then Fl.fin sign 0 0 else mkFin sign n (10 ^ k)

/-! ## Python float literal parsing (decimal fragment)

Models float(s) on the grammar the converter can feed it: optional
whitespace and sign, then inf / infinity / nan (case-insensitive) or a
decimal literal digits [. digits] [e sign digits].  Digit-group underscores
are outside the model. -/

def takeDigits (cs : List Char) : List Char × List Char :=
  (cs.takeWhile (pyIsDigit ·), cs.dropWhile (pyIsDigit ·))

/-- Parse significand and exponent of a decimal literal; none if malformed. -/
def parseDecLit (cs : List Char) : Option (Nat × Nat × Int) :=
  let ip := takeDigits cs
  match ip.2 with
  | '.' :: rest =>
    let fp := takeDigits rest
    if ip.1 = [] ∧ fp.1 = [] then none
    else
      match fp.2 with
      | [] => some (digitsVal (ip.1 ++ fp.1), fp.1.length, 0)
      | e :: erest =>
        if e = 'e' ∨ e = 'E' then
          match erest with
          | '+' :: ds =>
              if (takeDigits ds).2 = [] ∧ (takeDigits ds).1 ≠ [] then
                some (digitsVal (ip.1 ++ fp.1), fp.1.length, (digitsVal (takeDigits ds).1 : Int))
              else none
          | '-' :: ds =>
              if (takeDigits ds).2 = [] ∧ (takeDigits ds).1 ≠ [] then
                some (digitsVal (ip.1 ++ fp.1), fp.1.length, -(digitsVal (takeDigits ds).1 : Int))
              else none
          | ds =>
              if (takeDigits ds).2 = [] ∧ (takeDigits ds).1 ≠ [] then
                some (digitsVal (ip.1 ++ fp.1), fp.1.length, (digitsVal (takeDigits ds).1 : Int))
              else none
        else none
  | [] =>
    if ip.1 = [] then none else some (digitsVal ip.1, 0, 0)
  | e :: erest =>
    if ip.1 ≠ [] ∧ (e = 'e' ∨ e = 'E') then
      match erest with
      | '+' :: ds =>
          if (takeDigits ds).2 = [] ∧ (takeDigits ds).1 ≠ [] then
            some (digitsVal ip.1, 0, (digitsVal (takeDigits ds).1 : Int))
          else none
      | '-' :: ds =>
          if (takeDigits ds).2 = [] ∧ (takeDigits ds).1 ≠ [] then
            some (digitsVal ip.1, 0, -(digitsVal (takeDigits ds).1 : Int))
          else none
      | ds =>
          if (takeDigits ds).2 = [] ∧ (takeDigits ds).1 ≠ [] then
            some (digitsVal ip.1, 0, (digitsVal (takeDigits ds).1 : Int))
          else none
    else none

/-- Structural floor-log-ten estimate (fuel-based, kernel-reducible). -/
def log10Est : Nat → Nat → Nat
  | 0, _ => 0
  | f + 1, n => if n < 10 then 0 else log10Est f (n / 10) + 1

/-- Decimal value sign * n/10^k * 10^exp as a float, guarding the scaling
fuel with a base-ten magnitude estimate. -/
def flOfSciDec (sign : Bool) (n k : Nat) (exp : Int) : Fl :=
  if n = 0 then Fl.fin sign 0 0
  else
    let e10 : Int := exp - (k : Int) + (log10Est n n : Int)
    if 310 < e10 then Fl.inf sign
    else if e10 < -340 then Fl.fin sign 0 0
    else
      let e' : Int := exp - (k : Int)
      if 0 ≤ e' then mkFin sign (n * 10 ^ e'.toNat) 1
      else mkFin sign n (10 ^ (-e').toNat)

/-- Python float(s) on the modelled grammar. -/
def pyFloatLit (s : String) : Option Fl :=
  let cs := stripL s.data
  let signed : Bool × List Char :=
    match cs with
    | '-' :: rest => (true, rest)
    | '+' :: rest => (false, rest)
    | rest => (false, rest)
  let body := lowerL signed.2
  if body = "inf".data ∨ body = "infinity".data then some (Fl.inf signed.1)
  else if body = "nan".data then some Fl.nan
  else
    match parseDecLit signed.2 with
    | some v => some (flOfSciDec signed.1 v.1 v.2.1 v.2.2)
    | none => none

/-! ## Duration parsing (base converter's time-estimate field extractor)

Mirrors the regex searches of the source: a number token is maximal digits,
an optional dot, then maximal digits, and matches when followed by optional
whitespace and the unit letter.  The input is already lowercased there. -/

/-- Attempt the number-then-unit pattern at the head of cs; on success
return digit value, count of fraction digits and whether any digits at all
were present (the regex needs at least one leading digit). -/
def numUnitAt (u : Char) (cs : List Char) : Option (Nat × Nat) :=
  let d1 := takeDigits cs
  if d1.1 = [] then none
  else
    let afterDot :=
      match d1.2 with
      | '.' :: rest => takeDigits rest
      | rest => ([], rest)
    let tail := afterDot.2.dropWhile (pyIsSpace ·)
    match tail with
    | c :: _ => if c = u then some (digitsVal (d1.1 ++ afterDot.1), afterDot.1.length) else none
    | [] => none

/-- Leftmost match of the number-then-unit pattern (re.search). -/
def searchNumUnit (u : Char) : List Char → Option (Nat × Nat)
  | [] => none
  | c :: rest =>
    match numUnitAt u (c :: rest) with
    | some v => some v
    | none => searchNumUnit u rest

/-- Time estimate string to milliseconds, with Python float arithmetic.
An overflowing hour/minute figure raises uncaught; in the unitless branch
only ValueError is caught (so an inf figure raises OverflowError). -/
def parse_time_estimate (s : String) : Except PyErr Int :=
  if stripL s.data = [] then .ok 0
  else
    let t := lowerL (stripL s.data)
    let hoursM := searchNumUnit 'h' t
    let minutesM := searchNumUnit 'm' t
    match hoursM, minutesM with
    | none, none =>
      match pyFloatLit ⟨t⟩ with
      | none => .ok 0
      | some fl =>
        match pyIntOfFl (flMulNat fl 60000) with
        | .ok v => .ok v
        | .error .valueError => .ok 0
        | .error .overflowError => .error .overflowError
    | some h, none => pyIntOfFl (flMulNat (flOfDec false h.1 h.2) 3600000)
    | none, some m => pyIntOfFl (flMulNat (flOfDec false m.1 m.2) 60000)
    | some h, some m => do
      let hv ← pyIntOfFl (flMulNat (flOfDec false h.1 h.2) 3600000)
      let mv ← pyIntOfFl (flMulNat (flOfDec false m.1 m.2) 60000)
      .ok (hv + mv)

/-! ## Dates: strptime (the six and eight formats used), strftime, epoch -/

inductive FTok where
  | yr
  | mon
  | day
  | hr
  | minu
  | sec
  | lit (c : Char)
deriving DecidableEq, Repr

/-- Month per the CPython strptime pattern 1[0-2]|0[1-9]|[1-9]. -/
def matchMonth : List Char → Option (Nat × List Char)
  | c1 :: c2 :: rest =>
    if c1 = '1' ∧ '0' ≤ c2 ∧ c2 ≤ '2' then some (10 + digitVal c2, rest)
    else if c1 = '0' ∧ '1' ≤ c2 ∧ c2 ≤ '9' then some (digitVal c2, rest)
    else if '1' ≤ c1 ∧ c1 ≤ '9' then some (digitVal c1, c2 :: rest)
    else none
  | [c1] => if '1' ≤ c1 ∧ c1 ≤ '9' then some (digitVal c1, []) else none
  | [] => none

/-- Day per 3[01]|[12]\d|0[1-9]|[1-9]. -/
def matchDay : List Char → Option (Nat × List Char)
  | c1 :: c2 :: rest =>
    if c1 = '3' ∧ '0' ≤ c2 ∧ c2 ≤ '1' then some (30 + digitVal c2, rest)
    else if ('1' ≤ c1 ∧ c1 ≤ '2') ∧ pyIsDigit c2 then some (10 * digitVal c1 + digitVal c2, rest)
    else if c1 = '0' ∧ '1' ≤ c2 ∧ c2 ≤ '9' then some (digitVal c2, rest)
    else if '1' ≤ c1 ∧ c1 ≤ '9' then some (digitVal c1, c2 :: rest)
    else none
  | [c1] => if '1' ≤ c1 ∧ c1 ≤ '9' then some (digitVal c1, []) else none
  | [] => none

/-- Hour per 2[0-3]|[0-1]\d|\d. -/
def matchHour : List Char → Option (Nat × List Char)
  | c1 :: c2 :: rest =>
    if c1 = '2' ∧ '0' ≤ c2 ∧ c2 ≤ '3' then some (20 + digitVal c2, rest)
    else if ('0' ≤ c1 ∧ c1 ≤ '1') ∧ pyIsDigit c2 then some (10 * digitVal c1 + digitVal c2, rest)
    else if pyIsDigit c1 then some (digitVal c1, c2 :: rest)
    else none
  | [c1] => if pyIsDigit c1 then some (digitVal c1, []) else none
  | [] => none

/-- Minute or second per [0-5]\d|\d. -/
def matchMinSec : List Char → Option (Nat × List Char)
  | c1 :: c2 :: rest =>
    if ('0' ≤ c1 ∧ c1 ≤ '5') ∧ pyIsDigit c2 then some (10 * digitVal c1 + digitVal c2, rest)
    else if pyIsDigit c1 then some (digitVal c1, c2 :: rest)
    else none
  | [c1] => if pyIsDigit c1 then some (digitVal c1, []) else none
  | [] => none

/-- Year per \d\d\d\d (exactly four digits). -/
def matchYear : List Char → Option (Nat × List Char)
  | c1 :: c2 :: c3 :: c4 :: rest =>
    if pyIsDigit c1 ∧ pyIsDigit c2 ∧ pyIsDigit c3 ∧ pyIsDigit c4 then
      some (digitsVal [c1, c2, c3, c4], rest)
    else none
  | _ => none

def isLeap (y : Nat) : Bool := (y % 4 = 0 && y % 100 ≠ 0) || y % 400 = 0

def daysInMonth (y m : Nat) : Nat :=
  if m = 2 then (if isLeap y then 29 else 28)
  else if m = 4 ∨ m = 6 ∨ m = 9 ∨ m = 11 then 30
  else 31

structure DateTimeVal where
  y : Nat
  mo : Nat
  d : Nat
  h : Nat
  mi : Nat
  s : Nat
deriving DecidableEq, Repr

/-- Run one strptime directive. -/
def runFTok (t : FTok) (v : DateTimeVal) (cs : List Char) :
    Option (DateTimeVal × List Char) :=
  match t with
  | .yr => (matchYear cs).map fun p => ({ v with y := p.1 }, p.2)
  | .mon => (matchMonth cs).map fun p => ({ v with mo := p.1 }, p.2)
  | .day => (matchDay cs).map fun p => ({ v with d := p.1 }, p.2)
  | .hr => (matchHour cs).map fun p => ({ v with h := p.1 }, p.2)
  | .minu => (matchMinSec cs).map fun p => ({ v with mi := p.1 }, p.2)
  | .sec => (matchMinSec cs).map fun p => ({ v with s := p.1 }, p.2)
  | .lit c => match cs with
              | c' :: rest => if c' = c then some (v, rest) else none
              | [] => none

def runFmt : List FTok → DateTimeVal → List Char → Option (DateTimeVal × List Char)
  | [], v, cs => some (v, cs)
  | t :: ts, v, cs => (runFTok t v cs).bind fun p => runFmt ts p.1 p.2

/-- Whole-string strptime for one format: full consumption plus datetime
constructor validation (year at least 1, day fits the month). -/
def pyStrptime (fmt : List FTok) (cs : List Char) : Option DateTimeVal :=
  match runFmt fmt ⟨1900, 1, 1, 0, 0, 0⟩ cs with
  | some (v, []) =>
    if 1 ≤ v.y ∧ 1 ≤ v.mo ∧ v.mo ≤ 12 ∧ 1 ≤ v.d ∧ v.d ≤ daysInMonth v.y v.mo then
      some v
    else none
  | _ => none

def fmtYmd : List FTok := [.yr, .lit '-', .mon, .lit '-', .day]

def fmtMdy : List FTok := [.mon, .lit '/', .day, .lit '/', .yr]

def fmtDmy : List FTok := [.day, .lit '/', .mon, .lit '/', .yr]

def fmtHms : List FTok := [.lit ' ', .hr, .lit ':', .minu, .lit ':', .sec]

def pad2 (n : Nat) : List Char := if n < 10 then '0' :: (Nat.toDigits 10 n) else Nat.toDigits 10 n

def pad4 (n : Nat) : List Char :=
  let ds := Nat.toDigits 10 n
  List.replicate (4 - ds.length) '0' ++ ds

/-- strftime of the %Y-%m-%d directive. -/
def fmtDate (y m d : Nat) : String := ⟨pad4 y ++ '-' :: pad2 m ++ '-' :: pad2 d⟩

/-- Shared date-string normalizer of the base converter: try the six
formats in order and re-render the first hit as YYYY-MM-DD. -/
def parse_date (s : String) : Option String :=
  if stripL s.data = [] then none
  else
    let cs := stripL s.data
    let fmts := [fmtYmd, fmtMdy, fmtDmy, fmtYmd ++ fmtHms, fmtMdy ++ fmtHms, fmtDmy ++ fmtHms]
    (fmts.firstM (fun f => pyStrptime f cs)).map fun v => fmtDate v.y v.mo v.d

/-- Days from the civil epoch 1970-01-01 (Gregorian, proleptic). -/
def civilToDays (y m d : Nat) : Int :=
  let y' : Int := if m ≤ 2 then (y : Int) - 1 else (y : Int)
  let era : Int := y'.fdiv 400
  let yoe : Int := y' - era * 400
  let mp : Int := if 2 < m then (m : Int) - 3 else (m : Int) + 9
  let doy : Int := (153 * mp + 2).fdiv 5 + (d : Int) - 1
  let doe : Int := yoe * 365 + yoe.fdiv 4 - yoe.fdiv 100 + doy
  era * 146097 + doe - 719468

/-- Civil date from days since the epoch. -/
def daysToCivil (z0 : Int) : Nat × Nat × Nat :=
  let z := z0 + 719468
  let era := z.fdiv 146097
  let doe := z - era * 146097
  let yoe := (doe - doe.fdiv 1460 + doe.fdiv 36524 - doe.fdiv 146096).fdiv 365
  let y := yoe + era * 400
  let doy := doe - (365 * yoe + yoe.fdiv 4 - yoe.fdiv 100)
  let mp := (5 * doy + 2).fdiv 153
  let d := doy - (153 * mp + 2).fdiv 5 + 1
  let m := if mp < 10 then mp + 3 else mp - 9
  (((if m ≤ 2 then y + 1 else y)).toNat, m.toNat, d.toNat)

/-- Epoch milliseconds of a date-time (UTC model of the local-time call). -/
def epochMs (v : DateTimeVal) : Int :=
  (civilToDays v.y v.mo v.d * 86400 + (v.h : Int) * 3600 + (v.mi : Int) * 60 + (v.s : Int)) * 1000

/-- Date string of an epoch-milliseconds timestamp, the
fromtimestamp-strftime composition (UTC model). -/
def dateStrOfMs (ms : Int) : String :=
  let c := daysToCivil ((ms.fdiv 1000).fdiv 86400)
  fmtDate c.1 c.2.1 c.2.2

/-- Date-with-time parser of the markdown converter: eight formats, first
hit wins, result in epoch milliseconds. -/
def parse_date_with_time (s : String) : Option Int :=
  let cs := s.data
  let fmts : List (List FTok) :=
    [ [.yr, .lit '-', .mon, .lit '-', .day, .lit 'T', .hr, .lit ':', .minu]
    , [.yr, .lit '-', .mon, .lit '-', .day, .lit ' ', .hr, .lit ':', .minu]
    , [.mon, .lit '/', .day, .lit '/', .yr, .lit ' ', .hr, .lit ':', .minu]
    , [.mon, .lit '-', .day, .lit '-', .yr, .lit ' ', .hr, .lit ':', .minu]
    , [.day, .lit '/', .mon, .lit '/', .yr, .lit ' ', .hr, .lit ':', .minu]
    , [.day, .lit '-', .mon, .lit '-', .yr, .lit ' ', .hr, .lit ':', .minu]
    , [.yr, .lit '-', .mon, .lit '-', .day, .lit 'T', .hr, .lit ':', .minu, .lit ':', .sec]
    , [.yr, .lit '-', .mon, .lit '-', .day, .lit ' ', .hr, .lit ':', .minu, .lit ':', .sec] ]
  (fmts.firstM (fun f => pyStrptime f cs)).map epochMs

/-! ## Generic regex-pass combinators

A matcher inspects the head of the text and reports consumed length, a
payload and replacement text.  scanRep is the shared shape of re.findall,
re.sub and re.finditer passes: scan left to right, non-overlapping. -/

def scanRepF (m : List Char → Option (Nat × α × List Char)) :
    Nat → List Char → List α × List Char
  | _, [] => ([], [])
  | 0, cs => ([], cs)
  | f + 1, c :: rest =>
    match m (c :: rest) with
    | some (k, a, rep) =>
      let r := scanRepF m f ((c :: rest).drop (max k 1))
      (a :: r.1, rep ++ r.2)
    | none =>
      let r := scanRepF m f rest
      (r.1, c :: r.2)

def scanRep (m : List Char → Option (Nat × α × List Char)) (cs : List Char) :
    List α × List Char :=
  scanRepF m cs.length cs

theorem scanRepF_fuel_aux (m : List Char → Option (Nat × α × List Char)) :
    ∀ n f g cs, cs.length = n → n ≤ f → n ≤ g →
      scanRepF m f cs = scanRepF m g cs := by
  intro n
  induction n using Nat.strong_induction_on with
  | _ n ih =>
    intro f g cs hn hf hg
    cases cs with
    | nil => cases f <;> cases g <;> rfl
    | cons c rest =>
      subst hn
      simp only [List.length_cons] at hf hg
      obtain ⟨f', rfl⟩ : ∃ f', f = f' + 1 := ⟨f - 1, by omega⟩
      obtain ⟨g', rfl⟩ : ∃ g', g = g' + 1 := ⟨g - 1, by omega⟩
      cases hm : m (c :: rest) with
      | none =>
        simp only [scanRepF, hm]
        rw [ih rest.length (by simp) f' g' rest rfl (by omega) (by omega)]
      | some v =>
        obtain ⟨k, a, rep⟩ := v
        have hd : ((c :: rest).drop (max k 1)).length ≤ rest.length := by
          simp only [List.length_drop, List.length_cons]
          omega
        simp only [scanRepF, hm]
        rw [ih ((c :: rest).drop (max k 1)).length (by simp only [List.length_cons]; omega)
          f' g' _ rfl (by omega) (by omega)]

theorem scanRepF_fuel (m : List Char → Option (Nat × α × List Char))
    (f : Nat) (cs : List Char) (h : cs.length ≤ f) :
    scanRepF m f cs = scanRep m cs :=
  scanRepF_fuel_aux m cs.length f cs.length cs rfl h le_rfl

theorem scanRep_cons_none (m : List Char → Option (Nat × α × List Char))
    (c : Char) (rest : List Char) (h : m (c :: rest) = none) :
    scanRep m (c :: rest) = ((scanRep m rest).1, c :: (scanRep m rest).2) := by
  show scanRepF m (c :: rest).length (c :: rest) = _
  simp only [List.length_cons, scanRepF, h]
  rfl

theorem scanRep_cons_some (m : List Char → Option (Nat × α × List Char))
    (c : Char) (rest : List Char) (k : Nat) (a : α) (rep : List Char)
    (h : m (c :: rest) = some (k, a, rep)) :
    scanRep m (c :: rest) =
      (a :: (scanRep m ((c :: rest).drop (max k 1))).1,
       rep ++ (scanRep m ((c :: rest).drop (max k 1))).2) := by
  have hd : ((c :: rest).drop (max k 1)).length ≤ rest.length := by
    simp only [List.length_drop, List.length_cons]
    omega
  show scanRepF m (c :: rest).length (c :: rest) = _
  simp only [List.length_cons, scanRepF, h]
  rw [scanRepF_fuel m rest.length _ hd]

/-- Leftmost match only (re.search). -/
def searchFirst (m : List Char → Option α) : List Char → Option α
  | [] => none
  | c :: rest =>
    match m (c :: rest) with
    | some a => some a
    | none => searchFirst m rest

/-- Python str.replace of a nonempty needle by nothing (fueled). -/
def removeAllLitF (needle : List Char) : Nat → List Char → List Char
  | _, [] => []
  | 0, cs => cs
  | f + 1, c :: rest =>
    if needle ≠ [] ∧ needle.isPrefixOf (c :: rest) then
      removeAllLitF needle f ((c :: rest).drop needle.length)
    else c :: removeAllLitF needle f rest

def removeAllLit (needle : List Char) (cs : List Char) : List Char :=
  removeAllLitF needle cs.length cs

/-- Case-insensitive literal keyword at the head. -/
def kwAt (kw : List Char) (cs : List Char) : Option (List Char) :=
  if kw.isPrefixOf (lowerL (cs.take kw.length)) ∧ kw.length ≤ cs.length then
    some (cs.drop kw.length)
  else none

/-! ## Inline metadata parser stages -/

/-- Interior of a candidate parenthesized time estimate: does it contain a
digit run followed by optional whitespace and an hour/minute letter
(case-insensitive)?  Mirrors the containment subpattern of the time regex. -/
def segHasTimeF : Nat → List Char → Bool
  | _, [] => false
  | 0, _ => false
  | f + 1, c :: rest =>
    if pyIsDigit c then
      let after := rest.dropWhile (pyIsDigit ·)
      let atUnit := after.dropWhile (pyIsSpace ·)
      match atUnit with
      | u :: _ =>
        if pyToLower u = 'h' ∨ pyToLower u = 'm' then true
        else segHasTimeF f after
      | [] => segHasTimeF f after
    else segHasTimeF f rest

def segHasTime (cs : List Char) : Bool := segHasTimeF cs.length cs

/-- One parenthesized time-estimate group at the head: an opening paren,
interior free of closing parens that passes segHasTime, a closing paren. -/
def timeParenAt (cs : List Char) : Option (Nat × List Char × List Char) :=
  match cs with
  | '(' :: rest =>
    let seg := rest.takeWhile (· ≠ ')')
    if seg.length < rest.length ∧ segHasTime seg then
      some (seg.length + 2, seg, [])
    else none
  | _ => none

def pyIsWordHy (c : Char) : Bool := pyIsWord c || c = '-'

/-- One hashtag at the head (word characters or hyphens after #). -/
def tagAt (cs : List Char) : Option (Nat × List Char × List Char) :=
  match cs with
  | '#' :: rest =>
    let w := rest.takeWhile (pyIsWordHy ·)
    if w = [] then none else some (w.length + 1, w, [])
  | _ => none

/-- Exactly n digits. -/
def exactDigits (n : Nat) (cs : List Char) : Option (List Char × List Char) :=
  let t := cs.take n
  if t.length = n ∧ t.all (pyIsDigit ·) then some (t, cs.drop n) else none

/-- A YYYY-MM-DD digit shape (no value checks, pure regex). -/
def dateShapeAt (cs : List Char) : Option (List Char × List Char) := do
  let (y, r1) ← exactDigits 4 cs
  match r1 with
  | '-' :: r2 => do
    let (mo, r3) ← exactDigits 2 r2
    match r3 with
    | '-' :: r4 => do
      let (d, r5) ← exactDigits 2 r4
      return (y ++ '-' :: mo ++ '-' :: d, r5)
    | _ => none
  | _ => none

/-- The number part of the spent-annotation regex: digits with an optional
dot-digits fraction. -/
def numDotAt (cs : List Char) : Option (List Char × List Char) :=
  let d1 := takeDigits cs
  if d1.1 = [] then none
  else
    match d1.2 with
    | '.' :: r =>
      let d2 := takeDigits r
      if d2.1 = [] then some (d1.1, d1.2)
      else some (d1.1 ++ '.' :: d2.1, d2.2)
    | r => some (d1.1, r)

/-- First spent-pattern pass matcher: at-keyword, colon, number, optional
whitespace, single hour/minute letter, optional at-date suffix. -/
def spent1At (cs : List Char) : Option (Nat × (List Char × Char × Option (List Char)) × List Char) :=
  match cs with
  | '@' :: rest => do
    let afterKw ←
      match kwAt "worked:".data rest with
      | some r => some r
      | none =>
        match kwAt "spent:".data rest with
        | some r => some r
        | none => kwAt "logged:".data rest
    let (num, r1) ← numDotAt afterKw
    let r2 := r1.dropWhile (pyIsSpace ·)
    match r2 with
    | u :: r3 =>
      if pyToLower u = 'h' ∨ pyToLower u = 'm' then
        match r3 with
        | '@' :: r4 =>
          match dateShapeAt r4 with
          | some (dt, _) =>
            some (cs.length - r4.length + dt.length, (num, u, some dt), [])
          | none => some (cs.length - r3.length, (num, u, none), [])
        | _ => some (cs.length - r3.length, (num, u, none), [])
      else none
    | [] => none
  | _ => none

/-- Consume the constructed number subpattern: a regex dot in the captured
text is a wildcard, other characters are case-insensitive literals. -/
def eatNumPat : List Char → List Char → Option (List Char)
  | [], s => some s
  | p :: ps, c :: s2 =>
    if p = '.' ∨ pyToLower c = pyToLower p then eatNumPat ps s2 else none
  | _ :: _, [] => none

/-- Matcher for the removal regex the first spent pass constructs from its
captures: the keyword alternation, the number text with a regex-dot
wildcard per dot character, whitespace, the unit letter, and the date
literal when present (all case-insensitive). -/
def spent1RemAt (num : List Char) (u : Char) (dt : Option (List Char)) (cs : List Char) :
    Option (Nat × Unit × List Char) :=
  match cs with
  | '@' :: rest => do
    let afterKw ←
      match kwAt "worked:".data rest with
      | some r => some r
      | none =>
        match kwAt "spent:".data rest with
        | some r => some r
        | none => kwAt "logged:".data rest
    let r1 ← eatNumPat num afterKw
    let r2 := r1.dropWhile (pyIsSpace ·)
    match r2 with
    | c :: r3 =>
      if pyToLower c = pyToLower u then
        match dt with
        | none => some (cs.length - r3.length, (), [])
        | some d =>
          match r3 with
          | '@' :: r4 =>
            if d.isPrefixOf r4 then some (cs.length - r4.length + d.length, (), [])
            else none
          | _ => none
      else none
    | [] => none
  | _ => none

/-! ## Due-date pattern matchers (the ordered list of six) -/

/-- One or two digits followed by a slash-or-dash separator (with the
two-then-one backtracking of the d{1,2} quantifier). -/
def d12Sep (cs : List Char) : Option (List Char × List Char) :=
  match cs with
  | c1 :: c2 :: s :: rest =>
    if pyIsDigit c1 ∧ pyIsDigit c2 ∧ (s = '/' ∨ s = '-') then some ([c1, c2, s], rest)
    else if pyIsDigit c1 ∧ (c2 = '/' ∨ c2 = '-') then some ([c1, c2], s :: rest)
    else none
  | [c1, c2] =>
    if pyIsDigit c1 ∧ (c2 = '/' ∨ c2 = '-') then some ([c1, c2], []) else none
  | _ => none

/-- Up to four trailing year digits, at least two (the d{2,4} quantifier,
greedy, nothing after it forces backtracking). -/
def year24 (cs : List Char) : Option (List Char × List Char) :=
  let run := cs.takeWhile (pyIsDigit ·)
  let t := run.take 4
  if 2 ≤ t.length then some (t, cs.drop t.length) else none

/-- Clock shape H{1,2}:MM, two-digit hour tried first, minutes exactly
two digits. -/
def hmShape : List Char → Option (List Char × List Char)
  | c1 :: ':' :: c3 :: c4 :: rest =>
    if pyIsDigit c1 ∧ pyIsDigit c3 ∧ pyIsDigit c4 then some ([c1, ':', c3, c4], rest)
    else none
  | c1 :: c2 :: ':' :: c3 :: c4 :: rest =>
    if pyIsDigit c1 ∧ pyIsDigit c2 ∧ pyIsDigit c3 ∧ pyIsDigit c4 then
      some ([c1, c2, ':', c3, c4], rest)
    else none
  | _ => none

/-- The optional clock suffix of the slashed date shapes:
whitespace then H{1,2}:MM. -/
def clockOpt (cs : List Char) : List Char × List Char :=
  let ws := cs.takeWhile (pyIsSpace ·)
  let r := cs.dropWhile (pyIsSpace ·)
  if ws = [] then ([], cs)
  else
    match hmShape r with
    | some (ck, rest) => (ws ++ ck, rest)
    | none => ([], cs)

/-- Slashed or dashed date value: d{1,2} sep d{1,2} sep d{2,4} with the
optional clock suffix. -/
def slashDateAt (cs : List Char) : Option (List Char × List Char) := do
  let (p1, r1) ← d12Sep cs
  let (p2, r2) ← d12Sep r1
  let (y, r3) ← year24 r2
  let (ck, r4) := clockOpt r3
  return (p1 ++ p2 ++ y ++ ck, r4)

/-- ISO date value: YYYY-MM-DD with optional THH:MM. -/
def isoDateAt (cs : List Char) : Option (List Char × List Char) := do
  let (d, r) ← dateShapeAt cs
  match r with
  | 'T' :: c1 :: c2 :: ':' :: c3 :: c4 :: rest =>
    if pyIsDigit c1 ∧ pyIsDigit c2 ∧ pyIsDigit c3 ∧ pyIsDigit c4 then
      some (d ++ 'T' :: [c1, c2, ':', c3, c4], rest)
    else some (d, r)
  | _ => some (d, r)

/-- Pattern 1, at-due-colon then nonspace. -/
def due1At (cs : List Char) : Option (Nat × List Char × List Char) :=
  match cs with
  | '@' :: rest => do
    let r1 ← kwAt "due:".data rest
    let v := r1.takeWhile (fun c => !pyIsSpace c)
    if v = [] then none else some (5 + v.length, v, [])
  | _ => none

/-- Pattern 2, at then ISO date value. -/
def due2At (cs : List Char) : Option (Nat × List Char × List Char) :=
  match cs with
  | '@' :: rest =>
    (isoDateAt rest).map fun p => (1 + p.1.length, p.1, [])
  | _ => none

/-- Pattern 3, at then slashed date value. -/
def due3At (cs : List Char) : Option (Nat × List Char × List Char) :=
  match cs with
  | '@' :: rest =>
    (slashDateAt rest).map fun p => (1 + p.1.length, p.1, [])
  | _ => none

/-- Pattern 4, the word due and colon, optional whitespace, then nonspace. -/
def due4At (cs : List Char) : Option (Nat × List Char × List Char) := do
  let r1 ← kwAt "due:".data cs
  let ws := r1.takeWhile (pyIsSpace ·)
  let r2 := r1.dropWhile (pyIsSpace ·)
  let v := r2.takeWhile (fun c => !pyIsSpace c)
  if v = [] then none else some (4 + ws.length + v.length, v, [])

/-- Pattern 5, the word due, optional whitespace, then ISO date value. -/
def due5At (cs : List Char) : Option (Nat × List Char × List Char) := do
  let r1 ← kwAt "due".data cs
  let ws := r1.takeWhile (pyIsSpace ·)
  let r2 := r1.dropWhile (pyIsSpace ·)
  let (v, _) ← isoDateAt r2
  return (3 + ws.length + v.length, v, [])

/-- Pattern 6, the word due, optional whitespace, then slashed date value. -/
def due6At (cs : List Char) : Option (Nat × List Char × List Char) := do
  let r1 ← kwAt "due".data cs
  let ws := r1.takeWhile (pyIsSpace ·)
  let r2 := r1.dropWhile (pyIsSpace ·)
  let (v, _) ← slashDateAt r2
  return (3 + ws.length + v.length, v, [])

/-! ## Attachment matchers -/

/-- One attachment occurrence: at-keyword-colon, nonspace path, optional
quoted title.  Payload: path, optional title, and the whole matched text
(group 0, used for the str.replace removal). -/
def attachAt (kw : List Char) (cs : List Char) : Option (Nat × (List Char × Option (List Char) × List Char) × List Char) :=
  match cs with
  | '@' :: rest => do
    let r1 ← kwAt (kw ++ [':']) rest
    let path := r1.takeWhile (fun c => !pyIsSpace c)
    if path = [] then none
    else
      let r2 := r1.drop path.length
      let ws := r2.takeWhile (pyIsSpace ·)
      let r3 := r2.dropWhile (pyIsSpace ·)
      let consumed := 1 + kw.length + 1 + path.length
      match r3 with
      | '"' :: r4 =>
        let ttl := r4.takeWhile (· ≠ '"')
        if ws ≠ [] ∧ ttl ≠ [] ∧ ttl.length < r4.length then
          let g0 := cs.take (consumed + ws.length + ttl.length + 2)
          some (consumed + ws.length + ttl.length + 2, (path, some ttl, g0), [])
        else
          some (consumed, (path, none, cs.take consumed), [])
      | _ => some (consumed, (path, none, cs.take consumed), [])
  | _ => none

/-! ## Second spent-pattern pass matchers -/

/-- Dated form: at-keyword-colon, a run free of whitespace and at signs,
an at sign, a YYYY-MM-DD shape. -/
def spent2DatedAt (kw : List Char) (cs : List Char) : Option (List Char × List Char) :=
  match cs with
  | '@' :: rest => do
    let r1 ← kwAt (kw ++ [':']) rest
    let v := r1.takeWhile (fun c => !pyIsSpace c && c ≠ '@')
    if v = [] then none
    else
      match r1.drop v.length with
      | '@' :: r2 => (dateShapeAt r2).map fun p => (v, p.1)
      | _ => none
  | _ => none

/-- The negative-lookahead body: from here, can nonspace characters reach
an at sign followed by a date shape? -/
def hasAtDate : (cs : List Char) → Bool
  | [] => false
  | c :: rest =>
    (c = '@' ∧ (dateShapeAt rest).isSome) ||
    (!pyIsSpace c && hasAtDate rest)

/-- Undated form with the negative lookahead. -/
def spent2PlainAt (kw : List Char) (cs : List Char) : Option (List Char) :=
  match cs with
  | '@' :: rest => do
    let r1 ← kwAt (kw ++ [':']) rest
    let v := r1.takeWhile (fun c => !pyIsSpace c && c ≠ '@')
    if v = [] then none
    else if hasAtDate (r1.drop v.length) then none
    else some v
  | _ => none

/-- Removal matchers for the six second-pass patterns, as scanRep matchers. -/
def spent2DatedRem (kw : List Char) (cs : List Char) : Option (Nat × Unit × List Char) :=
  (spent2DatedAt kw cs).map fun p =>
    (1 + kw.length + 1 + p.1.length + 1 + p.2.length, (), [])

def spent2PlainRem (kw : List Char) (cs : List Char) : Option (Nat × Unit × List Char) :=
  (spent2PlainAt kw cs).map fun v => (1 + kw.length + 1 + v.length, (), [])

/-! ## Bold-emphasis matcher -/

/-- Double star, at least one non-star, double star; replaced by the inner
text, inner text collected. -/
def boldAt (cs : List Char) : Option (Nat × List Char × List Char) :=
  match cs with
  | '*' :: '*' :: rest =>
    let inner := rest.takeWhile (· ≠ '*')
    if inner = [] then none
    else
      match rest.drop inner.length with
      | '*' :: '*' :: _ => some (inner.length + 4, inner, inner)
      | _ => none
  | _ => none

/-! ## The inline metadata parser -/

structure AttachInfo where
  atype : String
  path : String
  title : Option String
deriving DecidableEq, Repr

structure TaskInfo where
  title : String
  notes : String
  due_date : Option String
  due_with_time : Option Int
  time_estimate : Int
  tags : List String
  attachments : List AttachInfo
  time_spent : Option Int
  time_spent_date : Option String
deriving DecidableEq, Repr

/-- Sum the parenthesized estimates, propagating uncaught overflow. -/
def sumEstimates (segs : List (List Char)) : Except PyErr Int :=
  segs.foldlM (fun a s => (parse_time_estimate ⟨s⟩).map (a + ·)) 0

/-- First spent-pass match loop: first match whose figure parses positive. -/
def spent1Loop :
    List (List Char × Char × Option (List Char)) →
    Except PyErr (Option (Int × List Char × Char × Option (List Char)))
  | [] => .ok none
  | (num, u, dt) :: rest => do
    let ms ← parse_time_estimate ⟨num ++ [u]⟩
    if 0 < ms then .ok (some (ms, num, u, dt)) else spent1Loop rest

/-- Leading segment of the due value used for the day field: before the
first T when one is present, else the first whitespace-split token. -/
def dueDayOfValue (v : List Char) : List Char :=
  if 'T' ∈ v then v.takeWhile (· ≠ 'T') else v.takeWhile (fun c => !pyIsSpace c)

/-- Outcome of the ordered due-pattern loop: the updates and new content. -/
def dueStage (content : List Char) :
    Option String × Option Int × List Char :=
  let pats := [due1At, due2At, due3At, due4At, due5At, due6At]
  match pats.firstM (fun m => (searchFirst (fun cs => (m cs).map (·.2.1)) content).map (m, ·)) with
  | none => (none, none, content)
  | some (m, v) =>
    let content' := (scanRep m content).2
    if 'T' ∈ v ∨ ':' ∈ v then
      match parse_date_with_time ⟨v⟩ with
      | some t => (some ⟨dueDayOfValue v⟩, some t, content')
      | none => (none, none, content')
    else
      match parse_date ⟨v⟩ with
      | some d => (some d, none, content')
      | none => (none, none, content')

/-- One attachment kind: find every occurrence in the current content, then
remove each whole match by str.replace. -/
def attachKind (kw : List Char) (atype : String) (content : List Char) :
    List AttachInfo × List Char :=
  let found := (scanRep (attachAt kw) content).1
  let infos := found.map fun p => AttachInfo.mk atype ⟨p.1⟩ (p.2.1.map (⟨·⟩))
  let content' := found.foldl (fun c p => removeAllLit p.2.2 c) content
  (infos, content')

/-- Outcome of the ordered second spent-pattern loop. -/
def spent2Stage (content : List Char) :
    Except PyErr (Option (Int × Option String) × List Char) :=
  let dated : List (List Char) := ["spent".data, "logged".data, "worked".data]
  match dated.firstM (fun kw => (searchFirst (spent2DatedAt kw) content).map (kw, ·)) with
  | some (kw, v, dt) => do
    let ms ← parse_time_estimate ⟨v⟩
    let content' := (scanRep (spent2DatedRem kw) content).2
    if 0 < ms then .ok (some (ms, some ⟨dt⟩), content')
    else .ok (none, content')
  | none =>
    match dated.firstM (fun kw => (searchFirst (spent2PlainAt kw) content).map (kw, ·)) with
    | some (kw, v) => do
      let ms ← parse_time_estimate ⟨v⟩
      let content' := (scanRep (spent2PlainRem kw) content).2
      if 0 < ms then .ok (some (ms, none), content')
      else .ok (none, content')
    | none => .ok (none, content)

/-- The markdown converter's task-content parser: ordered, mutually
destructive extraction passes over one string. -/
def parse_task_content (content0 : String) : Except PyErr TaskInfo := do
  let tp := scanRep timeParenAt content0.data
  let est ← sumEstimates tp.1
  let c1 := tp.2
  let tg := scanRep tagAt c1
  let tags := tg.1.map fun w => (⟨w⟩ : String)
  let c2 := tg.2
  let sp1 ← spent1Loop (scanRep spent1At c2).1
  let afterSp1 : Option Int × Option String × List Char :=
    match sp1 with
    | some (ms, num, u, dt) =>
      (some ms, dt.map (⟨·⟩), (scanRep (spent1RemAt num u dt) c2).2)
    | none => (none, none, c2)
  let c3 := afterSp1.2.2
  let due := dueStage c3
  let c4 := due.2.2
  let al := attachKind "link".data "LINK" c4
  let af := attachKind "file".data "FILE" al.2
  let ai := attachKind "img".data "IMG" af.2
  let c5 := ai.2
  let sp2 ← spent2Stage c5
  let c6 := sp2.2
  let bd := scanRep boldAt c6
  let notes := if bd.1 = [] then "" else
    (⟨joinSep ['\n'] (bd.1.map fun t => '*' :: '*' :: t ++ ['*', '*'])⟩ : String)
  let c7 := bd.2
  let tspent : Option Int :=
    match sp2.1 with
    | some (ms, _) => some ms
    | none => afterSp1.1
  let tsdate : Option String :=
    match sp2.1 with
    | some (_, dt) => dt
    | none => afterSp1.2.1
  return { title := clean_text ⟨c7⟩
           notes := notes
           due_date := due.1
           due_with_time := due.2.1
           time_estimate := est
           tags := tags
           attachments := al.1 ++ af.1 ++ ai.1
           time_spent := tspent
           time_spent_date := tsdate }

/-! ## Entity model and converter state

The uuid generator is modelled as a fresh-number counter shared by tasks,
projects, tags and attachments; wall-clock creation times are the converter
state's now parameter. -/

structure Attachment where
  id : Nat
  atype : String
  path : String
  title : Option String
deriving DecidableEq, Repr

structure Task where
  id : Nat
  title : String
  notes : Option String
  timeEstimate : Int
  timeSpent : Int
  isDone : Bool
  projectId : Option Nat
  tagIds : List Nat
  parentId : Option Nat
  created : Int
  subTaskIds : List Nat
  timeSpentOnDay : List (String × Int)
  doneOn : Option Int
  attachments : List Attachment
  dueWithTime : Option Int
  dueDay : Option String
  modified : Option Int
deriving DecidableEq, Repr

structure Project where
  id : Nat
  title : String
  taskIds : List Nat
  icon : Option String
deriving DecidableEq, Repr

structure Tag where
  id : Nat
  title : String
  taskIds : List Nat
deriving DecidableEq, Repr

structure St where
  tasks : List Task
  projects : List (String × Project)
  tags : List Tag
  currentProjectName : Option String
  taskStack : List (Nat × Nat)
  nextId : Nat
  now : Int
deriving DecidableEq, Repr

def genId (st : St) : Nat × St := (st.nextId, { st with nextId := st.nextId + 1 })

def genIds : Nat → St → List Nat × St
  | 0, st => ([], st)
  | n + 1, st =>
    let (i, st') := genId st
    let (is, st'') := genIds n st'
    (i :: is, st'')

/-- Converter initialization: the default Imported Tasks project. -/
def initSt (now : Int) : St :=
  let st0 : St := ⟨[], [], [], none, [], 0, now⟩
  let (i, st1) := genId st0
  { st1 with projects := [("Imported Tasks", ⟨i, "Imported Tasks", [], some "📥"⟩)] }

/-- Python or on an optional string (None and the empty string are falsy). -/
def pyOrStr (v : Option String) (dflt : String) : String :=
  match v with
  | some s => if s = "" then dflt else s
  | none => dflt

/-- Python or on an optional millisecond value (zero is falsy). -/
def pyOrMs (v : Option Int) (dflt : Int) : Int :=
  match v with
  | some t => if t = 0 then dflt else t
  | none => dflt

/-- Truthiness of an optional notes string. -/
def notesTruthy (v : Option String) : Bool :=
  match v with
  | some s => s ≠ ""
  | none => false

def get_or_create_project (name : String) (st : St) : Project × St :=
  let name' := if pyStrip name = "" then "Imported Tasks" else name
  match st.projects.find? (fun p => p.1 = name') with
  | some p => (p.2, st)
  | none =>
    let (i, st') := genId st
    let proj : Project := ⟨i, name', [], some "📁"⟩
    (proj, { st' with projects := st'.projects ++ [(name', proj)] })

def get_or_create_tag (name : String) (st : St) : Option Tag × St :=
  if name = "" then (none, st)
  else
    match st.tags.find? (fun t => t.title = name) with
    | some t => (some t, st)
    | none =>
      let (i, st') := genId st
      let tag : Tag := ⟨i, name, []⟩
      (some tag, { st' with tags := st'.tags ++ [tag] })

/-- Merge bold-derived notes with the indentation-partitioned notes block. -/
def merge_notes (contentNotes : String) (indented : Option String) : Option String :=
  let parts :=
    (if pyStrip contentNotes ≠ "" then [pyStrip contentNotes] else []) ++
    (match indented with
     | some s => if pyStrip s ≠ "" then [pyRstrip s] else []
     | none => [])
  if parts = [] then none else some ⟨joinSep "\n\n".data (parts.map (·.data))⟩

/-- Update the tasks collection at an id (object mutation in the source). -/
def updTask (tasks : List Task) (tid : Nat) (f : Task → Task) : List Task :=
  tasks.map fun t => if t.id = tid then f t else t

/-- Completion-time roll-in for a done task with a nonzero estimate. -/
def add_time_spent_for_completed_task (task : Task) : Task :=
  if !task.isDone || task.timeEstimate = 0 then task
  else
    let completion := pyOrMs task.doneOn task.created
    let date := dateStrOfMs completion
    { task with timeSpent := task.timeEstimate
                timeSpentOnDay := [(date, task.timeEstimate)] }

/-- Explicit spent-annotation handling (overrides automatic completion). -/
def handle_explicit_time_spent (task : Task) (info : TaskInfo) (now : Int) : Task :=
  match info.time_spent with
  | some ts =>
    if 0 < ts then
      let date :=
        match info.time_spent_date with
        | some d => if d = "" then dateStrOfMs now else d
        | none => dateStrOfMs now
      { task with timeSpent := ts, timeSpentOnDay := [(date, ts)] }
    else task
  | none => task

/-- Mutual linking of parent and child plus tag inheritance. -/
def establish_parent_child_relationship (parent child : Task) : Task × Task :=
  let child' := { child with
    parentId := some parent.id
    tagIds := if child.tagIds = [] then parent.tagIds else child.tagIds }
  let parent' := { parent with subTaskIds := parent.subTaskIds ++ [child'.id] }
  (parent', child')

/-- Indentation-stack hierarchy handling for directly parsed task lines. -/
def handle_task_hierarchy (st : St) (indentLevel : Nat) (task : Task) : St × Task :=
  let stack := st.taskStack.dropWhile (fun p => indentLevel ≤ p.1)
  match stack with
  | (_, pid) :: _ =>
    match st.tasks.find? (fun t => t.id = pid) with
    | some parent =>
      let pc := establish_parent_child_relationship parent task
      let st' := { st with
        tasks := updTask st.tasks pid (fun _ => pc.1)
        taskStack := (indentLevel, pc.2.id) :: stack }
      (st', pc.2)
    | none =>
      ({ st with taskStack := (indentLevel, task.id) :: stack }, task)
  | [] =>
    ({ st with taskStack := (indentLevel, task.id) :: stack }, task)

/-- Checkbox completion test of the unified creation method. -/
def checkboxDone (checkbox : Option String) : Bool :=
  match checkbox with
  | some cb => pyLower (pyStrip cb) = "[x]"
  | none => false

/-- One step of the tag loop of the unified creation method. -/
def addTagStep (acc : Task × St) (name : String) : Task × St :=
  let (tagOpt, st') := get_or_create_tag name acc.2
  match tagOpt with
  | some tag => ({ acc.1 with tagIds := acc.1.tagIds ++ [tag.id] }, st')
  | none => (acc.1, st')

/-- The fresh task record of the unified creation method. -/
def mkBaseTask (info : TaskInfo) (notes checkbox : Option String) (tid : Nat)
    (now : Int) : Task :=
  { id := tid
    title := info.title
    notes := merge_notes info.notes notes
    timeEstimate := info.time_estimate
    timeSpent := 0
    isDone := checkboxDone checkbox
    projectId := none
    tagIds := []
    parentId := none
    created := now
    subTaskIds := []
    timeSpentOnDay := []
    doneOn := none
    attachments := []
    dueWithTime := info.due_with_time
    dueDay := info.due_date
    modified := none }

/-- Completion handling of the unified creation method. -/
def finishDone (isDone : Bool) (task1 : Task) : Task :=
  if isDone then
    let t := { task1 with doneOn := some task1.created }
    if t.timeSpentOnDay = [] then add_time_spent_for_completed_task t else t
  else task1

/-- Attachment materialization of the unified creation method. -/
def withAttachments (attIds : List Nat) (info : TaskInfo) (task2 : Task) : Task :=
  { task2 with
    attachments := (attIds.zip info.attachments).map fun p =>
      ⟨p.1, p.2.atype, p.2.path, p.2.title⟩ }

/-- Project assignment (skipped on the subtask path). -/
def assignProject (parentTaskId : Option Nat) (task3 : Task) (st2 : St) :
    Task × St :=
  if parentTaskId = none then
    let pname := pyOrStr st2.currentProjectName "Imported Tasks"
    let (proj, st') := get_or_create_project pname st2
    ({ task3 with projectId := some proj.id }, st')
  else (task3, st2)

/-- Parent linking or indentation hierarchy handling, at the end of the
unified creation method. -/
def attachToParent (parentTaskId : Option Nat) (indentLevel : Nat) (st4 : St)
    (task5 : Task) : St × Task :=
  match parentTaskId with
  | some pid =>
    match st4.tasks.find? (fun t => t.id = pid) with
    | some parent =>
      let pc := establish_parent_child_relationship parent task5
      ({ st4 with tasks := updTask st4.tasks pid (fun _ => pc.1) }, pc.2)
    | none => (st4, task5)
  | none =>
    if 0 < indentLevel then
      let r := handle_task_hierarchy st4 indentLevel task5
      (r.1, r.2)
    else
      (st4, task5)

/-- The unified task creation method.  Does not append the created task to
the collection; callers do.  A parent id routes the subtask path (project
assignment skipped, link establishment done here against the collection). -/
def create_task (content : String) (checkbox : Option String) (notes : Option String)
    (parentTaskId : Option Nat) (indentLevel : Nat) (st : St) :
    Except PyErr (St × Task) := do
  let info ← parse_task_content content
  let (attIds, st1) := genIds info.attachments.length st
  let (tid, st2) := genId st1
  let task1 := handle_explicit_time_spent
    (mkBaseTask info notes checkbox tid st2.now) info st2.now
  let task2 := finishDone (checkboxDone checkbox) task1
  let task3 := withAttachments attIds info task2
  let (task4, st3) := assignProject parentTaskId task3 st2
  let (task5, st4) := info.tags.foldl addTagStep (task4, st3)
  return attachToParent parentTaskId indentLevel st4 task5

/-! ## Markdown line classification

Hand-translations of the task-line regexes with their backtracking
behavior.  The optional-checkbox pattern degrades in three ways when the
content group would be empty: the trailing whitespace backtracks to leave a
single character, or the checkbox group un-matches. -/

/-- The bullet alternation: one of dash, star, plus, or digits then a dot. -/
def bulletAt (cs : List Char) : Option (List Char) :=
  match cs with
  | '-' :: rest => some rest
  | '*' :: rest => some rest
  | '+' :: rest => some rest
  | _ =>
    let ds := takeDigits cs
    if ds.1 ≠ [] then
      match ds.2 with
      | '.' :: rest => some rest
      | _ => none
    else none

def isCheckChar (c : Char) : Bool := c = ' ' || c = 'x' || c = 'X'

/-- Tail of the optional-checkbox task pattern after the bullet:
whitespace, an optional checkbox group, whitespace, then a nonempty rest. -/
def tailTaskOpt (rest2 : List Char) : Option (Option (List Char) × List Char) :=
  let r1 := rest2.dropWhile (pyIsSpace ·)
  let noCb : Option (Option (List Char) × List Char) :=
    if r1 ≠ [] then some (none, r1)
    else
      match rest2.getLast? with
      | some l => some (none, [l])
      | none => none
  match r1 with
  | '[' :: c :: ']' :: r2 =>
    if isCheckChar c then
      let r3 := r2.dropWhile (pyIsSpace ·)
      if r3 ≠ [] then some (some ['[', c, ']'], r3)
      else
        match r2.getLast? with
        | some l => some (some ['[', c, ']'], [l])
        | none => noCb
    else noCb
  | _ => noCb

/-- Tail of a required-checkbox pattern variant. -/
def tailTaskReq (rest2 : List Char) : Option (List Char × List Char) :=
  let r1 := rest2.dropWhile (pyIsSpace ·)
  match r1 with
  | '[' :: c :: ']' :: r2 =>
    if isCheckChar c then
      let r3 := r2.dropWhile (pyIsSpace ·)
      if r3 ≠ [] then some (['[', c, ']'], r3)
      else
        match r2.getLast? with
        | some l => some (['[', c, ']'], [l])
        | none => none
    else none
  | _ => none

/-- The bulleted task-line pattern with optional checkbox: groups
(indent, checkbox, content). -/
def taskLineMatch (cs : List Char) : Option (List Char × Option (List Char) × List Char) :=
  let ws := cs.takeWhile (pyIsSpace ·)
  let rest := cs.dropWhile (pyIsSpace ·)
  (bulletAt rest).bind fun rest2 =>
    (tailTaskOpt rest2).map fun p => (ws, p.1, p.2)

/-- The bare checkbox line pattern: groups (indent, checkbox, content). -/
def bareLineMatch (cs : List Char) : Option (List Char × List Char × List Char) :=
  let ws := cs.takeWhile (pyIsSpace ·)
  let rest := cs.dropWhile (pyIsSpace ·)
  match rest with
  | '[' :: c :: ']' :: r2 =>
    if isCheckChar c then
      let r3 := r2.dropWhile (pyIsSpace ·)
      if r3 ≠ [] then some (ws, ['[', c, ']'], r3)
      else
        match r2.getLast? with
        | some l => some (ws, ['[', c, ']'], [l])
        | none => none
    else none
  | _ => none

/-- Bulleted pattern first, bare pattern second, as every call site does. -/
def matchTaskLine (cs : List Char) : Option (List Char × Option (List Char) × List Char) :=
  match taskLineMatch cs with
  | some r => some r
  | none => (bareLineMatch cs).map fun p => (p.1, some p.2.1, p.2.2)

/-- The required-checkbox variants used by the notes promotion pass. -/
def matchTaskLineCB (cs : List Char) : Option (List Char × List Char × List Char) :=
  let ws := cs.takeWhile (pyIsSpace ·)
  let rest := cs.dropWhile (pyIsSpace ·)
  match (bulletAt rest).bind tailTaskReq with
  | some p => some (ws, p.1, p.2)
  | none => bareLineMatch cs

/-- Header pattern: one to six hashes, whitespace, nonempty text. -/
def matchHeader (cs : List Char) : Option (List Char) :=
  let hs := cs.takeWhile (· = '#')
  if 1 ≤ hs.length ∧ hs.length ≤ 6 then
    let rest := cs.drop hs.length
    let ws := rest.takeWhile (pyIsSpace ·)
    let t := rest.dropWhile (pyIsSpace ·)
    if ws = [] then none
    else if t ≠ [] then some t
    else if 2 ≤ ws.length then some [ws.getLast!]
    else none
  else none

/-- Slashed date without clock (header date extraction). -/
def headerDateAt (cs : List Char) : Option (List Char) := do
  let (p1, r1) ← d12Sep cs
  let (p2, r2) ← d12Sep r1
  let (y, _) ← year24 r2
  return p1 ++ p2 ++ y

/-! ## First markdown pass: indented content collected as notes -/

inductive Rec where
  | task (line : String) (notes : String)
  | regular (line : String)
deriving DecidableEq, Repr

structure CollectAcc where
  out : List Rec
  curLine : Option String
  curNotes : List String
deriving Repr

def flushCur (a : CollectAcc) : List Rec :=
  match a.curLine with
  | some l =>
    a.out ++ [Rec.task l (if a.curNotes = [] then "" else
      ⟨stripL (joinSep ['\n'] (a.curNotes.map (·.data)))⟩)]
  | none => a.out

def collectStep (a : CollectAcc) (line : String) : CollectAcc :=
  let stripped := pyRstrip line
  match matchHeader stripped.data with
  | some _ =>
    { out := flushCur a ++ [Rec.regular stripped], curLine := none, curNotes := [] }
  | none =>
    match matchTaskLine stripped.data with
    | some (indent, _, _) =>
      if indent = [] then
        { out := flushCur a, curLine := some stripped, curNotes := [] }
      else
        match a.curLine with
        | some _ => { a with curNotes := a.curNotes ++ [stripped] }
        | none => { a with out := a.out ++ [Rec.regular stripped] }
    | none =>
      match a.curLine with
      | some _ => { a with curNotes := a.curNotes ++ [stripped] }
      | none => { a with out := a.out ++ [Rec.regular stripped] }

/-- The collect-indented-content pass over raw lines. -/
def collect_indented_content_as_notes (lines : List String) : List Rec :=
  flushCur (lines.foldl collectStep ⟨[], none, []⟩)

/-! ## Second markdown pass: record processing -/

def handle_header (st : St) (text : List Char) : St :=
  let pname := clean_text ⟨stripL text⟩
  let pname' :=
    match searchFirst headerDateAt pname.data with
    | some d => "Tasks for " ++ (⟨d⟩ : String)
    | none => pname
  { st with currentProjectName := some pname', taskStack := [] }

/-- Task-record handler: the discarded duplicate content parse, then the
unified creation, then the append. -/
def handle_task_item_with_notes (st : St) (checkbox : Option (List Char))
    (content : List Char) (notes : String) : Except PyErr St := do
  let _ ← parse_task_content ⟨content⟩
  let (st1, task) ← create_task ⟨content⟩ (checkbox.map (⟨·⟩)) (some notes) none 0 st
  return { st1 with tasks := st1.tasks ++ [task] }

def parse_markdown_line_with_notes (st : St) (line : String) (notes : String) :
    Except PyErr St :=
  match matchTaskLine line.data with
  | some (_, cb, content) => handle_task_item_with_notes st cb content notes
  | none => .ok st

def handle_task_item (st : St) (indent : List Char) (checkbox : Option (List Char))
    (content : List Char) : Except PyErr St := do
  let (st1, task) ← create_task ⟨content⟩ (checkbox.map (⟨·⟩)) none none indent.length st
  return { st1 with tasks := st1.tasks ++ [task] }

def parse_markdown_line (st : St) (line : String) : Except PyErr St :=
  if pyStrip line = "" then .ok st
  else
    match matchHeader line.data with
    | some t => .ok (handle_header st t)
    | none =>
      match matchTaskLine line.data with
      | some (indent, cb, content) => handle_task_item st indent cb content
      | none => .ok st

/-- One record under the per-line warning catch: an error leaves the state
as it stood when the exception escaped (no mutation precedes the raise). -/
def stage2Step (st : St) (r : Rec) : St :=
  match r with
  | Rec.task line notes =>
    match parse_markdown_line_with_notes st line notes with
    | .ok st' => st'
    | .error _ => st
  | Rec.regular line =>
    match parse_markdown_line st line with
    | .ok st' => st'
    | .error _ => st

/-- Both markdown passes, before subtask promotion and aggregation. -/
def mdStage12 (now : Int) (lines : List String) : St :=
  (collect_indented_content_as_notes lines).foldl stage2Step (initSt now)

/-! ## Notes promotion pass -/

/-- Group the lines of a notes block into first-level subtask blocks
(a checkbox item indented at most two spaces starts a block; lines between
blocks before the first block are dropped by this scan). -/
def splitBlocks (ls : List String) : List (List String) :=
  let step := fun (a : List (List String) × Option (List String)) (line : String) =>
    match matchTaskLineCB line.data with
    | some (indent, _, _) =>
      if indent.length ≤ 2 then
        match a.2 with
        | some cur => (a.1 ++ [cur], some [line])
        | none => (a.1, some [line])
      else
        match a.2 with
        | some cur => (a.1, some (cur ++ [line]))
        | none => a
    | none =>
      match a.2 with
      | some cur => (a.1, some (cur ++ [line]))
      | none => a
  let r := ls.foldl step ([], none)
  match r.2 with
  | some cur => r.1 ++ [cur]
  | none => r.1

/-- Dedent one level: two spaces, else one space, else unchanged. -/
def dedentLine (s : String) : String :=
  match s.data with
  | ' ' :: ' ' :: rest => ⟨rest⟩
  | ' ' :: rest => ⟨rest⟩
  | _ => s

/-- Create one subtask from a block of lines within a parent's notes. -/
def create_subtask_from_lines (lines : List String) (parentId : Nat) (st : St) :
    Except PyErr (St × Option Task) := do
  match lines with
  | [] => return (st, none)
  | first :: rest =>
    match matchTaskLineCB first.data with
    | some (_, cb, content) =>
      let nested : Option String :=
        if rest = [] then none
        else some (pyRstrip ⟨joinSep ['\n'] ((rest.map dedentLine).map (·.data))⟩)
      let (st', sub) ← create_task ⟨content⟩ (some ⟨cb⟩) nested (some parentId) 0 st
      return (st', some sub)
    | none => return (st, none)

/-- Deep-indentation test of the notes cleanup (four spaces, a tab, or
three leading whitespace characters). -/
def isDeepIndent (s : String) : Bool :=
  "    ".data.isPrefixOf s.data || "\t".data.isPrefixOf s.data ||
    (3 ≤ s.data.length && (s.data.take 3).all (pyIsSpace ·))

def isBlankStr (s : String) : Bool := pyStrip s = ""

/-- Skip the indented continuation of a removed first-level block; returns
the lines the scan decides to keep and the remainder where the outer loop
resumes. -/
def skipBlock : List String → List String × List String
  | [] => ([], [])
  | next :: rest =>
    if isBlankStr next then
      if rest.dropWhile isBlankStr = [] then ([], next :: rest)
      else
        match rest.dropWhile isBlankStr with
        | nne :: _ =>
          if isDeepIndent nne then skipBlock rest
          else ([next], rest)
        | [] => ([], next :: rest)
    else if isDeepIndent next then skipBlock rest
    else ([], next :: rest)

theorem skipBlock_rem_le (ls : List String) : (skipBlock ls).2.length ≤ ls.length := by
  induction ls with
  | nil => simp [skipBlock]
  | cons next rest ih =>
    simp only [skipBlock]
    by_cases hb : isBlankStr next = true
    · simp only [hb, if_true]
      by_cases hd : rest.dropWhile isBlankStr = []
      · simp [hd]
      · cases hnn : rest.dropWhile isBlankStr with
        | nil => simp [hnn]
        | cons nne tl =>
          simp only [hnn, hd, if_false]
          by_cases hdi : isDeepIndent nne = true
          · simp only [hdi, if_true]
            exact le_trans ih (Nat.le_succ _)
          · simp [hdi]
    · simp only [hb, if_false]
      by_cases hdi : isDeepIndent next = true
      · simp only [hdi, if_true]
        exact le_trans ih (Nat.le_succ _)
      · simp [hdi]

/-- Line-removal loop of the notes cleanup (fueled). -/
def cleanLoopF : Nat → List String → List String
  | _, [] => []
  | 0, ls => ls
  | f + 1, line :: rest =>
    match matchTaskLineCB line.data with
    | some (indent, _, _) =>
      if indent.length ≤ 2 then
        let kr := skipBlock rest
        kr.1 ++ cleanLoopF f kr.2
      else line :: cleanLoopF f rest
    | none => line :: cleanLoopF f rest

def cleanLoop (ls : List String) : List String := cleanLoopF ls.length ls

/-- Matcher for the blank-run collapse regex: at a newline, a whitespace
run containing at least three newlines, replaced by two newlines; the
match extends to just after the last newline of the run. -/
def blankRunAt (cs : List Char) : Option (Nat × Unit × List Char) :=
  match cs with
  | '\n' :: _ =>
    let w := cs.takeWhile (pyIsSpace ·)
    let k := w.count '\n'
    if 3 ≤ k then
      let consumed := (w.length - (w.reverse.takeWhile (· ≠ '\n')).length)
      some (consumed, (), ['\n', '\n'])
    else none
  | _ => none

/-- The notes cleanup after promotion: remove promoted first-level blocks,
collapse three-plus blank-line runs, strip; empty becomes the None notes. -/
def clean_processed_notes (s : String) : Option String :=
  if s = "" then none
  else
    let ls := (splitNl s.data).map fun l => (⟨l⟩ : String)
    let cleaned := cleanLoop ls
    let joined := joinSep ['\n'] (cleaned.map (·.data))
    let collapsed := (scanRep blankRunAt joined).2
    let out := stripL collapsed
    if out = [] then none else some ⟨out⟩

/-- One snapshot entry of the promotion pass: re-parse a task's notes,
append any created subtasks, then rewrite the notes. -/
def processOneTask (st : St) (tid : Nat) : Except PyErr St := do
  match st.tasks.find? (fun t => t.id = tid) with
  | none => return st
  | some t =>
    if notesTruthy t.notes then
      let s := t.notes.getD ""
      let blocks := splitBlocks ((splitNl s.data).map fun l => (⟨l⟩ : String))
      let r ← blocks.foldlM
        (fun (acc : St × List Task) b => do
          let (st', sub) ← create_subtask_from_lines b tid acc.1
          match sub with
          | some x => return (st', acc.2 ++ [x])
          | none => return (st', acc.2))
        (st, [])
      if r.2 ≠ [] then
        let st' := { r.1 with tasks := r.1.tasks ++ r.2 }
        let rewr := fun (tk : Task) => { tk with notes := clean_processed_notes s }
        return { st' with tasks := updTask st'.tasks tid rewr }
      else
        return r.1
    else
      return st

/-- The promotion pass over a snapshot of the current task list. -/
def process_notes_for_subtasks (st : St) : Except PyErr St :=
  (st.tasks.map (·.id)).foldlM processOneTask st

/-! ## Aggregation pass -/

/-- Python-dict merge of per-day spent maps: accumulate at an existing key,
append new keys in encounter order. -/
def mergeDay (acc : List (String × Int)) (entry : String × Int) : List (String × Int) :=
  if acc.any (fun p => p.1 = entry.1) then
    acc.map fun p => if p.1 = entry.1 then (p.1, p.2 + entry.2) else p
  else acc ++ [entry]

/-- Recompute one parent from its direct children in the current list. -/
def calcStep (tasks : List Task) (pid : Nat) : List Task :=
  match tasks.find? (fun t => t.id = pid) with
  | none => tasks
  | some parent =>
    let children := tasks.filter (fun t => parent.subTaskIds.contains t.id)
    if children = [] then tasks
    else
      let est := (children.map (·.timeEstimate)).sum
      let spent := (children.map (·.timeSpent)).sum
      let byDay := (children.flatMap (·.timeSpentOnDay)).foldl mergeDay []
      let allDone := children.all (·.isDone)
      let upd := fun (p : Task) =>
        let p1 := { p with timeEstimate := est, timeSpent := spent, timeSpentOnDay := byDay }
        if allDone ∧ !p1.isDone then
          let latest := ((children.filterMap (·.doneOn)).foldl max p1.created)
          { p1 with isDone := true, doneOn := some latest }
        else p1
      updTask tasks pid upd

/-- The aggregation pass: parents (tasks with a nonempty subtask list) are
selected up front, then each is recomputed in order against the live list. -/
def calculate_parent_task_times (tasks : List Task) : List Task :=
  ((tasks.filter (fun t => t.subTaskIds ≠ [])).map (·.id)).foldl calcStep tasks

/-- Full markdown parse: both line passes, the promotion pass, then one
aggregation pass. -/
def mdParse (now : Int) (lines : List String) : Except PyErr St := do
  let st ← process_notes_for_subtasks (mdStage12 now lines)
  return { st with tasks := calculate_parent_task_times st.tasks }

/-! ## CSV converter -/

def Row : Type := List (String × String)

def rowGet (row : Row) (key : String) : String :=
  match List.find? (fun p => p.1 = key) row with
  | some p => p.2
  | none => ""

/-- Python str.split at a separator character, then strip, dropping empties
(the comprehensions for tags and subtasks). -/
def splitStripNonempty (sep : Char) (s : String) : List String :=
  (((s.data.splitOn sep).map fun p => pyStrip ⟨p⟩).filter fun t => t ≠ "")

/-- CSV date cell to epoch milliseconds: the shared normalizer then a
strict re-parse of its output at midnight (UTC model). -/
def csvDateMs (s : String) : Option Int :=
  (parse_date s).bind fun d => (pyStrptime fmtYmd d.data).map epochMs

/-- Model of datetime.fromisoformat on the shapes the converter meets:
a date, optionally with a clock joined by T or a space (fractional seconds,
offsets and the Z replacement are outside the model). -/
def fromIsoMs (s : String) : Option Int :=
  let fmts : List (List FTok) :=
    [ fmtYmd
    , [.yr, .lit '-', .mon, .lit '-', .day, .lit 'T', .hr, .lit ':', .minu]
    , [.yr, .lit '-', .mon, .lit '-', .day, .lit ' ', .hr, .lit ':', .minu]
    , [.yr, .lit '-', .mon, .lit '-', .day, .lit 'T', .hr, .lit ':', .minu, .lit ':', .sec]
    , [.yr, .lit '-', .mon, .lit '-', .day, .lit ' ', .hr, .lit ':', .minu, .lit ':', .sec] ]
  (fmts.firstM (fun f => pyStrptime f s.data)).map epochMs

def isDoneCell (s : String) : Bool :=
  let v := pyLower (pyStrip s)
  v = "true" || v = "1" || v = "yes" || v = "completed" || v = "done"

/-- One CSV row to (at most) one task plus its subtask siblings; a blank
title skips the row silently. -/
def parse_csv_row (row : Row) (st : St) : Except PyErr (St × Option Task) := do
  let title := pyStrip (rowGet row "title")
  if title = "" then return (st, none)
  else
    let (tid, st1) := genId st
    let notes := pyStrip (rowGet row "notes")
    let task0 : Task :=
      { id := tid
        title := title
        notes := if notes = "" then none else some notes
        timeEstimate := 0
        timeSpent := 0
        isDone := isDoneCell (rowGet row "isDone")
        projectId := none
        tagIds := []
        parentId := none
        created := st1.now
        subTaskIds := []
        timeSpentOnDay := []
        doneOn := none
        attachments := []
        dueWithTime := none
        dueDay := none
        modified := none }
    let estStr := pyStrip (rowGet row "timeEstimate")
    let task1 ←
      if estStr ≠ "" then do
        let est ← parse_time_estimate estStr
        pure { task0 with timeEstimate := est }
      else pure task0
    let task2 :=
      match (if pyStrip (rowGet row "created") ≠ "" then
               csvDateMs (pyStrip (rowGet row "created")) else none) with
      | some ms => { task1 with created := ms }
      | none => task1
    let task3 :=
      match (if pyStrip (rowGet row "modified") ≠ "" then
               csvDateMs (pyStrip (rowGet row "modified")) else none) with
      | some ms => { task2 with modified := some ms }
      | none => task2
    let task4 :=
      if task3.isDone ∧ task3.doneOn = none then { task3 with doneOn := some task3.created }
      else task3
    let task5 :=
      match (if pyStrip (rowGet row "dueDay") ≠ "" then
               parse_date (pyStrip (rowGet row "dueDay")) else none) with
      | some d => { task4 with dueDay := some d }
      | none => task4
    let dwt := pyStrip (rowGet row "dueWithTime")
    let task6 :=
      if dwt ≠ "" then
        match fromIsoMs dwt with
        | some ms => { task5 with dueWithTime := some ms }
        | none =>
          match csvDateMs dwt with
          | some ms => { task5 with dueWithTime := some ms }
          | none => task5
      else task5
    let pname := pyStrip (rowGet row "project")
    let (proj, st2) :=
      if pname ≠ "" then get_or_create_project pname st1
      else get_or_create_project "Imported Tasks" st1
    let task7 := { task6 with projectId := some proj.id }
    let (task8, st3) := (splitStripNonempty ',' (pyStrip (rowGet row "tags"))).foldl
      (fun (acc : Task × St) name =>
        let (tagOpt, st') := get_or_create_tag name acc.2
        match tagOpt with
        | some tag => ({ acc.1 with tagIds := acc.1.tagIds ++ [tag.id] }, st')
        | none => (acc.1, st'))
      (task7, st2)
    let r := (splitStripNonempty '|' (pyStrip (rowGet row "subtasks"))).foldl
      (fun (acc : Task × St) subTitle =>
        let (sid, st') := genId acc.2
        let sub : Task :=
          { id := sid
            title := subTitle
            notes := none
            timeEstimate := 0
            timeSpent := 0
            isDone := false
            projectId := acc.1.projectId
            tagIds := acc.1.tagIds
            parentId := some acc.1.id
            created := st'.now
            subTaskIds := []
            timeSpentOnDay := []
            doneOn := none
            attachments := []
            dueWithTime := none
            dueDay := none
            modified := none }
        ({ acc.1 with subTaskIds := acc.1.subTaskIds ++ [sid] },
         { st' with tasks := st'.tasks ++ [sub] }))
      (task8, st3)
    return (r.2, some r.1)

/-- One iteration of the CSV parse loop: append the produced task, or
record a warning with the row number when the row parse raises. -/
def csvStep (acc : St × List Nat × Nat) (row : Row) : St × List Nat × Nat :=
  match parse_csv_row row acc.1 with
  | .ok (st', some t) => ({ st' with tasks := st'.tasks ++ [t] }, acc.2.1, acc.2.2 + 1)
  | .ok (st', none) => (st', acc.2.1, acc.2.2 + 1)
  | .error _ => (acc.1, acc.2.1 ++ [acc.2.2], acc.2.2 + 1)

/-- The CSV parse loop: rows numbered from two, one warning per raising
row, the returned task appended when present. -/
def csvParse (now : Int) (rows : List Row) : St × List Nat :=
  let r := rows.foldl csvStep (initSt now, [], 2)
  (r.1, r.2.1)

/-! ## Merge engine

Prior-document entities carry a title, a task-id list, and an opaque
remainder field for the keys the merge never touches.  Prior task entities
are full task records (the documents this program itself produces). -/

structure PEnt where
  title : String
  taskIds : List Nat
  rest : Nat
deriving DecidableEq, Repr

structure PriorDoc where
  taskEntities : List (Nat × Task)
  projEntities : List (Nat × PEnt)
  tagEntities : List (Nat × PEnt)
deriving DecidableEq, Repr

structure MergedDoc where
  taskIds : List Nat
  taskEntities : List (Nat × Task)
  projIds : List Nat
  projEntities : List (Nat × PEnt)
  tagIds : List Nat
  tagEntities : List (Nat × PEnt)
  lastUpdate : Int
  timestamp : Int
deriving DecidableEq, Repr

/-- Python dict update: replace in place, append fresh keys in order. -/
def pyDictUpdate (base upd : List (Nat × α)) : List (Nat × α) :=
  (base.map fun p =>
    match upd.find? (fun q => q.1 = p.1) with
    | some q => (p.1, q.2)
    | none => p) ++
  upd.filter fun q => !(base.any fun p => p.1 = q.1)

/-- Python dict item assignment. -/
def pyDictSet (base : List (Nat × α)) (k : Nat) (v : α) : List (Nat × α) :=
  if base.any (fun p => p.1 = k) then
    base.map fun p => if p.1 = k then (k, v) else p
  else base ++ [(k, v)]

def projToEnt (p : Project) : PEnt := ⟨p.title, p.taskIds, 0⟩

def tagToEnt (t : Tag) : PEnt := ⟨t.title, t.taskIds, 0⟩

/-- Link every task into its project's and tags' taskIds lists. -/
def prepare_for_merge (st : St) : St :=
  let st1 := st.tasks.foldl
    (fun (acc : St) task =>
      match task.projectId with
      | some pid =>
        { acc with projects := acc.projects.map fun p =>
            if p.2.id = pid ∧ !p.2.taskIds.contains task.id then
              (p.1, { p.2 with taskIds := p.2.taskIds ++ [task.id] })
            else p }
      | none => acc)
    st
  st.tasks.foldl
    (fun (acc : St) task =>
      task.tagIds.foldl
        (fun (acc2 : St) tagId =>
          { acc2 with tags := acc2.tags.map fun t =>
              if t.id = tagId ∧ !t.taskIds.contains task.id then
                { t with taskIds := t.taskIds ++ [task.id] }
              else t })
        acc)
    st1

def reassign_tasks_to_existing_project (st : St) (oldId newId : Nat) : St :=
  { st with tasks := st.tasks.map fun t =>
      if t.projectId = some oldId then { t with projectId := some newId } else t }

def reassign_tasks_to_existing_tag (st : St) (oldId newId : Nat) : St :=
  { st with tasks := st.tasks.map fun t =>
      if t.tagIds.contains oldId then
        { t with tagIds := t.tagIds.map fun tid => if tid = oldId then newId else tid }
      else t }

/-- Last-wins title index over prior entities (a dict comprehension). -/
def titleIndex (ents : List (Nat × PEnt)) (title : String) : Option Nat :=
  ents.foldl (fun acc e => if e.2.title = title then some e.1 else acc) none

/-- One iteration of the project de-duplication loop: on a title match,
fold the ids of tasks still referencing the new project into the existing
entry, then rewrite their foreign keys; otherwise store the new entry. -/
def projStep (prior : PriorDoc) (acc : List (Nat × PEnt) × St) (newp : Nat × PEnt) :
    List (Nat × PEnt) × St :=
  match titleIndex prior.projEntities newp.2.title with
  | some exId =>
    let merged' :=
      if acc.1.any (fun p => p.1 = exId) then
        acc.2.tasks.foldl
          (fun (m : List (Nat × PEnt)) task =>
            if task.projectId = some newp.1 then
              m.map fun p =>
                if p.1 = exId ∧ !p.2.taskIds.contains task.id then
                  (p.1, { p.2 with taskIds := p.2.taskIds ++ [task.id] })
                else p
            else m)
          acc.1
      else acc.1
    (merged', reassign_tasks_to_existing_project acc.2 newp.1 exId)
  | none => (pyDictSet acc.1 newp.1 newp.2, acc.2)

/-- One iteration of the tag de-duplication loop. -/
def tagStep (prior : PriorDoc) (acc : List (Nat × PEnt) × St) (newt : Nat × PEnt) :
    List (Nat × PEnt) × St :=
  match titleIndex prior.tagEntities newt.2.title with
  | some exId =>
    let merged' :=
      if acc.1.any (fun p => p.1 = exId) then
        acc.2.tasks.foldl
          (fun (m : List (Nat × PEnt)) task =>
            if task.tagIds.contains newt.1 then
              m.map fun p =>
                if p.1 = exId ∧ !p.2.taskIds.contains task.id then
                  (p.1, { p.2 with taskIds := p.2.taskIds ++ [task.id] })
                else p
            else m)
          acc.1
      else acc.1
    (merged', reassign_tasks_to_existing_tag acc.2 newt.1 exId)
  | none => (pyDictSet acc.1 newt.1 newt.2, acc.2)

/-- The project loop of the merge, run over the prepared state. -/
def mergeProjLoop (st0 : St) (prior : PriorDoc) : List (Nat × PEnt) × St :=
  ((prepare_for_merge st0).projects.map fun p => (p.2.id, projToEnt p.2)).foldl
    (projStep prior) (prior.projEntities, prepare_for_merge st0)

/-- The tag loop of the merge, run after the project loop. -/
def mergeTagLoop (st0 : St) (prior : PriorDoc) : List (Nat × PEnt) × St :=
  ((prepare_for_merge st0).tags.map fun t => (t.id, tagToEnt t)).foldl
    (tagStep prior) (prior.tagEntities, (mergeProjLoop st0 prior).2)

/-- The merge: de-duplicate projects and tags by title against the prior
document, folding new task ids into matched entries before rewriting the
tasks' foreign keys, then union the task maps. -/
def merge_with_existing_data (st0 : St) (prior : PriorDoc) (mergeNow : Int) :
    St × MergedDoc :=
  let projLoop := mergeProjLoop st0 prior
  let tagLoop := mergeTagLoop st0 prior
  let stF := tagLoop.2
  let mergedTasks := pyDictUpdate prior.taskEntities (stF.tasks.map fun t => (t.id, t))
  (stF,
   { taskIds := mergedTasks.map (·.1)
     taskEntities := mergedTasks
     projIds := projLoop.1.map (·.1)
     projEntities := projLoop.1
     tagIds := tagLoop.1.map (·.1)
     tagEntities := tagLoop.1
     lastUpdate := mergeNow
     timestamp := mergeNow })

/-! ## Aggregation-pass analysis helpers -/

/-- The parent-update closure inside calcStep, with the lets inlined
(definitionally equal to the closure the source builds). -/
def calcUpd (children : List Task) (p : Task) : Task :=
  if children.all (·.isDone) ∧ !p.isDone then
    { p with timeEstimate := (children.map (·.timeEstimate)).sum,
             timeSpent := (children.map (·.timeSpent)).sum,
             timeSpentOnDay := (children.flatMap (·.timeSpentOnDay)).foldl mergeDay [],
             isDone := true,
             doneOn := some ((children.filterMap (·.doneOn)).foldl max p.created) }
  else
    { p with timeEstimate := (children.map (·.timeEstimate)).sum,
             timeSpent := (children.map (·.timeSpent)).sum,
             timeSpentOnDay := (children.flatMap (·.timeSpentOnDay)).foldl mergeDay [] }

/-- Relation between an original task list and an evolved one: positionally,
ids and subtask lists are preserved and leaf tasks are literally unchanged. -/
abbrev shapeRel (base : List Task) (t0 t1 : Task) : Prop :=
  t0 ∈ base ∧ t1.id = t0.id ∧ t1.subTaskIds = t0.subTaskIds ∧
    (t0.subTaskIds = [] → t1 = t0)

/-- q is the id of a task of base that has subtasks. -/
abbrev isParentId (base : List Task) (q : Nat) : Prop :=
  ∃ p ∈ base, p.id = q ∧ p.subTaskIds ≠ []

/-- Any task with id q in T carries exactly the aggregate of its direct
children as currently present in T. -/
abbrev settledAt (T : List Task) (q : Nat) : Prop :=
  ∀ p ∈ T, p.id = q →
    T.filter (fun t => p.subTaskIds.contains t.id) ≠ [] →
      p.timeEstimate =
        ((T.filter (fun t => p.subTaskIds.contains t.id)).map (·.timeEstimate)).sum ∧
      p.timeSpent =
        ((T.filter (fun t => p.subTaskIds.contains t.id)).map (·.timeSpent)).sum ∧
      p.timeSpentOnDay =
        ((T.filter (fun t => p.subTaskIds.contains t.id)).flatMap
          (·.timeSpentOnDay)).foldl mergeDay [] ∧
      ((T.filter (fun t => p.subTaskIds.contains t.id)).all (·.isDone) = true →
        p.isDone = true)

/-- Concrete two-task depth-one hierarchy used as a witness input. -/
def c2wParent : Task :=
  { id := 1, title := "p", notes := none, timeEstimate := 0, timeSpent := 0,
    isDone := false, projectId := none, tagIds := [], parentId := none,
    created := 0, subTaskIds := [2], timeSpentOnDay := [], doneOn := none,
    attachments := [], dueWithTime := none, dueDay := none, modified := none }

def c2wChild : Task :=
  { id := 2, title := "c", notes := none, timeEstimate := 3600000, timeSpent := 0,
    isDone := false, projectId := none, tagIds := [], parentId := some 1,
    created := 0, subTaskIds := [], timeSpentOnDay := [], doneOn := none,
    attachments := [], dueWithTime := none, dueDay := none, modified := none }

/-- Concrete parse result used by the C9 witness. -/
def c9wInfo : TaskInfo :=
  { title := "Task", notes := "", due_date := none, due_with_time := none,
    time_estimate := 7200000, tags := [], attachments := [], time_spent := none,
    time_spent_date := none }

/-- Concrete converter state produced by the C9 witness run. -/
def c9wSt : St :=
  { tasks := [],
    projects := [("Imported Tasks",
      { id := 0, title := "Imported Tasks", taskIds := [], icon := some "📥" })],
    tags := [], currentProjectName := none, taskStack := [], nextId := 2, now := 0 }

/-- Concrete task produced by the C9 witness run. -/
def c9wTask : Task :=
  { id := 1, title := "Task", notes := none, timeEstimate := 7200000,
    timeSpent := 7200000, isDone := true, projectId := some 0, tagIds := [],
    parentId := none, created := 0, subTaskIds := [],
    timeSpentOnDay := [("1970-01-01", 7200000)], doneOn := some 0,
    attachments := [], dueWithTime := none, dueDay := none, modified := none }

/-- Concrete parse result used by the C6 witness. -/
def c6wInfo : TaskInfo :=
  { title := "T", notes := "", due_date := none, due_with_time := none,
    time_estimate := 0, tags := [], attachments := [], time_spent := none,
    time_spent_date := none }

/-- The mutual parent/child back-reference invariant of C4. -/
abbrev linkInv (tasks : List Task) : Prop :=
  ∀ c ∈ tasks, ∀ p ∈ tasks, (c.parentId = some p.id ↔ c.id ∈ p.subTaskIds)

/-- Well-formedness of a converter state: distinct ids, all referenced ids
below the fresh-id counter, and the link invariant. -/
abbrev stInv (st : St) : Prop :=
  (st.tasks.map Task.id).Nodup ∧
  (∀ t ∈ st.tasks, t.id < st.nextId ∧ (∀ i ∈ t.subTaskIds, i < st.nextId) ∧
    (∀ j, t.parentId = some j → j < st.nextId)) ∧
  linkInv st.tasks

/-- Pre-promotion state of the C4 witness (mdStage12 on a task with an
indented checkbox note). -/
def c4wTaskA : Task :=
  { id := 1, title := "A", notes := some "- [x] B", timeEstimate := 0,
    timeSpent := 0, isDone := false, projectId := some 0, tagIds := [],
    parentId := none, created := 0, subTaskIds := [], timeSpentOnDay := [],
    doneOn := none, attachments := [], dueWithTime := none, dueDay := none,
    modified := none }

def c4wTaskA2 : Task :=
  { id := 1, title := "A", notes := none, timeEstimate := 0,
    timeSpent := 0, isDone := false, projectId := some 0, tagIds := [],
    parentId := none, created := 0, subTaskIds := [2], timeSpentOnDay := [],
    doneOn := none, attachments := [], dueWithTime := none, dueDay := none,
    modified := none }

def c4wTaskB : Task :=
  { id := 2, title := "B", notes := none, timeEstimate := 0, timeSpent := 0,
    isDone := true, projectId := none, tagIds := [], parentId := some 1,
    created := 0, subTaskIds := [], timeSpentOnDay := [], doneOn := some 0,
    attachments := [], dueWithTime := none, dueDay := none, modified := none }

def c4wSt : St :=
  { tasks := [c4wTaskA],
    projects := [("Imported Tasks",
      { id := 0, title := "Imported Tasks", taskIds := [], icon := some "📥" })],
    tags := [], currentProjectName := none, taskStack := [], nextId := 2, now := 0 }

/-- Post-promotion state of the C4 witness. -/
def c4wSt2 : St :=
  { tasks := [c4wTaskA2, c4wTaskB],
    projects := [("Imported Tasks",
      { id := 0, title := "Imported Tasks", taskIds := [], icon := some "📥" })],
    tags := [], currentProjectName := none, taskStack := [], nextId := 3, now := 0 }

/-- C3 frame relation on prior entities: same key, title and payload, the
task-id list only extended by ids drawn from the given id set. -/
abbrev relExt (idset : List Nat) (e q : Nat × PEnt) : Prop :=
  q.1 = e.1 ∧ q.2.title = e.2.title ∧ q.2.rest = e.2.rest ∧
  ∃ ext, q.2.taskIds = e.2.taskIds ++ ext ∧ ∀ i ∈ ext, i ∈ idset

/-! ## C3 witness scenario -/

def c3wTask : Task :=
  { id := 10, title := "T", notes := none, timeEstimate := 0, timeSpent := 0,
    isDone := false, projectId := some 11, tagIds := [12], parentId := none,
    created := 0, subTaskIds := [], timeSpentOnDay := [], doneOn := none,
    attachments := [], dueWithTime := none, dueDay := none, modified := none }


def c3wSt : St :=
  { tasks := [c3wTask],
    projects := [("Work", { id := 11, title := "Work", taskIds := [], icon := none })],
    tags := [{ id := 12, title := "urgent", taskIds := [] }],
    currentProjectName := none, taskStack := [], nextId := 13, now := 0 }


def c3wPriorTask : Task :=
  { id := 1, title := "Old", notes := none, timeEstimate := 0, timeSpent := 0,
    isDone := false, projectId := some 2, tagIds := [3], parentId := none,
    created := 0, subTaskIds := [], timeSpentOnDay := [], doneOn := none,
    attachments := [], dueWithTime := none, dueDay := none, modified := none }


def c3wPrior : PriorDoc :=
  { taskEntities := [(1, c3wPriorTask)],
    projEntities := [(2, ⟨"Work", [1], 7⟩)],
    tagEntities := [(3, ⟨"urgent", [1], 9⟩)] }


def c3wTaskR : Task :=
  { id := 10, title := "T", notes := none, timeEstimate := 0, timeSpent := 0,
    isDone := false, projectId := some 2, tagIds := [3], parentId := none,
    created := 0, subTaskIds := [], timeSpentOnDay := [], doneOn := none,
    attachments := [], dueWithTime := none, dueDay := none, modified := none }


def c3wStF : St :=
  { tasks := [c3wTaskR],
    projects := [("Work", { id := 11, title := "Work", taskIds := [10], icon := none })],
    tags := [{ id := 12, title := "urgent", taskIds := [10] }],
    currentProjectName := none, taskStack := [], nextId := 13, now := 0 }


def c3wM : MergedDoc :=
  { taskIds := [1, 10],
    taskEntities := [(1, c3wPriorTask), (10, c3wTaskR)],
    projIds := [2],
    projEntities := [(2, ⟨"Work", [1, 10], 7⟩)],
    tagIds := [3],
    tagEntities := [(3, ⟨"urgent", [1, 10], 9⟩)],
    lastUpdate := 5, timestamp := 5 }


/-! ## C7 witness scenario -/

def c7wTaskIn : Task :=
  { id := 20, title := "In project", notes := none, timeEstimate := 0, timeSpent := 0,
    isDone := false, projectId := some 11, tagIds := [], parentId := none,
    created := 0, subTaskIds := [], timeSpentOnDay := [], doneOn := none,
    attachments := [], dueWithTime := none, dueDay := none, modified := none }


def c7wTaskOut : Task :=
  { id := 21, title := "No project", notes := none, timeEstimate := 0, timeSpent := 0,
    isDone := false, projectId := none, tagIds := [], parentId := none,
    created := 0, subTaskIds := [], timeSpentOnDay := [], doneOn := none,
    attachments := [], dueWithTime := none, dueDay := none, modified := none }


def c7wProject : Project := { id := 11, title := "Work", taskIds := [], icon := none }


def c7wSt : St :=
  { tasks := [c7wTaskIn, c7wTaskOut],
    projects := [("Work", c7wProject)],
    tags := [], currentProjectName := none, taskStack := [], nextId := 22, now := 0 }


def c7wPrior : PriorDoc :=
  { taskEntities := [],
    projEntities := [(2, ⟨"Work", [1], 7⟩), (4, ⟨"Home", [], 3⟩)],
    tagEntities := [(5, ⟨"urgent", [1], 9⟩)] }


def c7wTaskInR : Task :=
  { id := 20, title := "In project", notes := none, timeEstimate := 0, timeSpent := 0,
    isDone := false, projectId := some 2, tagIds := [], parentId := none,
    created := 0, subTaskIds := [], timeSpentOnDay := [], doneOn := none,
    attachments := [], dueWithTime := none, dueDay := none, modified := none }


def c7wStF : St :=
  { tasks := [c7wTaskInR, c7wTaskOut],
    projects := [("Work", { id := 11, title := "Work", taskIds := [20], icon := none })],
    tags := [], currentProjectName := none, taskStack := [], nextId := 22, now := 0 }


def c7wM : MergedDoc :=
  { taskIds := [20, 21],
    taskEntities := [(20, c7wTaskInR), (21, c7wTaskOut)],
    projIds := [2, 4],
    projEntities := [(2, ⟨"Work", [1, 20], 7⟩), (4, ⟨"Home", [], 3⟩)],
    tagIds := [5],
    tagEntities := [(5, ⟨"urgent", [1], 9⟩)],
    lastUpdate := 5, timestamp := 5 }


/-! ## Claim C8: CSV row with pipe-separated subtasks -/

/-- C8: parsing the single CSV row with title T and subtasks A|B yields
exactly three tasks; T's subTaskIds has length two, and each of A and B has
parentId equal to T's id, projectId equal to T's projectId, and a copy of
T's tagIds. -/
theorem c8_csv_row_subtasks :
    ((csvParse 500 [[("title", "T"), ("subtasks", "A|B")]]).1.tasks.length = 3) ∧
    (∃ tT ∈ (csvParse 500 [[("title", "T"), ("subtasks", "A|B")]]).1.tasks,
      tT.title = "T" ∧ tT.subTaskIds.length = 2 ∧
      (∀ sub ∈ (csvParse 500 [[("title", "T"), ("subtasks", "A|B")]]).1.tasks,
        (sub.title = "A" ∨ sub.title = "B") →
          sub.parentId = some tT.id ∧ sub.projectId = tT.projectId ∧
          sub.tagIds = tT.tagIds)) := by
  decide

/-! ## Claim C10: CSV rows with blank titles are skipped silently -/

/-- C10: a CSV row whose title is missing, empty or whitespace-only
produces no task at all, leaves the converter state untouched (its notes,
tags, project and subtasks columns included), and emits no warning; only
the row counter advances. -/
theorem c10_blank_title_skipped (row : Row) (st : St) (warns : List Nat) (n : Nat)
    (h : pyStrip (rowGet row "title") = "") :
    csvStep (st, warns, n) row = (st, warns, n + 1) := by
  simp only [csvStep, parse_csv_row, h]
  rfl

/-- C10 witness at a concrete whitespace-titled row carrying every other
column. -/
theorem c10_blank_title_skipped_witness :
    csvStep (initSt 500, [], 2)
      [("title", "   "), ("notes", "n"), ("project", "P"), ("tags", "a,b"),
       ("subtasks", "X|Y")] = (initSt 500, [], 3) :=
  c10_blank_title_skipped _ _ _ _ (by decide)

/-! ## Exact-range floating point lemmas (for claim C5) -/

theorem scaleUp_of_lt (f : Nat) (a b : Nat) (e : Int) (h : a < 2 ^ 53 * b) :
    scaleUp f a b e = (a, b, e) := by
  cases f with
  | zero => rfl
  | succ f =>
    simp only [scaleUp]
    rw [if_neg (by omega)]

theorem scaleDn_exact (f : Nat) :
    ∀ (v b : Nat) (e : Int), 0 < v → v < 2 ^ 53 → 0 < b → 2 ^ 52 ≤ v * 2 ^ f →
    ∃ t : Nat, scaleDn f (v * b) b e = (v * 2 ^ t * b, b, e - (t : Int)) ∧
      2 ^ 52 ≤ v * 2 ^ t ∧ v * 2 ^ t < 2 ^ 53 := by
  induction f with
  | zero =>
    intro v b e hv h53 hb hlow
    refine ⟨0, ?_, ?_, ?_⟩
    · simp [scaleDn]
    · simpa using hlow
    · simpa using h53
  | succ f ih =>
    intro v b e hv h53 hb hlow
    by_cases hbig : 2 ^ 52 ≤ v
    · refine ⟨0, ?_, by simpa using hbig, by simpa using h53⟩
      have hguard : ¬ v * b < 2 ^ 52 * b :=
        Nat.not_lt.mpr (Nat.mul_le_mul_right b hbig)
      simp only [scaleDn]
      rw [if_neg hguard]
      simp
    · push_neg at hbig
      have hguard : v * b < 2 ^ 52 * b := (Nat.mul_lt_mul_right hb).mpr hbig
      have h2v : 0 < 2 * v := by omega
      have h2v53 : 2 * v < 2 ^ 53 := by
        have h52 : v < 2 ^ 52 := hbig
        have : (2 : Nat) ^ 53 = 2 * 2 ^ 52 := by norm_num
        omega
      have h2low : 2 ^ 52 ≤ (2 * v) * 2 ^ f := by
        calc 2 ^ 52 ≤ v * 2 ^ (f + 1) := hlow
        _ = (2 * v) * 2 ^ f := by ring
      obtain ⟨t, ht, hlo, hhi⟩ := ih (2 * v) b (e - 1) h2v h2v53 hb h2low
      have h2vb : 2 * (v * b) = (2 * v) * b := by ring
      refine ⟨t + 1, ?_, ?_, ?_⟩
      · simp only [scaleDn]
        rw [if_pos hguard, h2vb, ht]
        have heq : 2 * v * 2 ^ t * b = v * 2 ^ (t + 1) * b := by ring
        have hee : e - 1 - (t : Int) = e - ((t : Nat) + 1 : Nat) := by
          push_cast
          ring
        rw [heq, hee]
      · calc 2 ^ 52 ≤ 2 * v * 2 ^ t := hlo
        _ = v * 2 ^ (t + 1) := by ring
      · calc v * 2 ^ (t + 1) = 2 * v * 2 ^ t := by ring
        _ < 2 ^ 53 := hhi

theorem roundMant_exact (v b : Nat) (h1 : 0 < v) (h2 : v < 2 ^ 53) (hb : 0 < b) :
    ∃ t : Nat, roundMant (v * b) b = (v * 2 ^ t, -(t : Int)) ∧
      v * 2 ^ t < 2 ^ 53 := by
  have hup : scaleUp 4200 (v * b) b 0 = (v * b, b, 0) :=
    scaleUp_of_lt _ _ _ _ ((Nat.mul_lt_mul_right hb).mpr h2)
  have hlow : 2 ^ 52 ≤ v * 2 ^ 4200 := by
    calc (2 : Nat) ^ 52 = 1 * 2 ^ 52 := (Nat.one_mul _).symm
    _ ≤ v * 2 ^ 4200 := Nat.mul_le_mul h1 (Nat.pow_le_pow_right (by norm_num) (by norm_num))
  obtain ⟨t, ht, hlo, hhi⟩ := scaleDn_exact 4200 v b 0 h1 h2 hb hlow
  refine ⟨t, ?_, hhi⟩
  have hdvd : (v * 2 ^ t * b) / b = v * 2 ^ t := Nat.mul_div_cancel _ hb
  have hmod : (v * 2 ^ t * b) % b = 0 := Nat.mul_mod_left _ _
  have hne : v * 2 ^ t ≠ 2 ^ 53 := Nat.ne_of_lt hhi
  have h20 : 2 * 0 < b := by omega
  simp only [roundMant, hup, ht, hdvd, hmod, if_pos h20, if_neg hne, zero_sub]

theorem mkFin_exact (s : Bool) (v b : Nat) (h1 : 0 < v) (h2 : v < 2 ^ 53) (hb : 0 < b) :
    ∃ t : Nat, mkFin s (v * b) b = Fl.fin s (v * 2 ^ t) (-(t : Int)) ∧ v * 2 ^ t < 2 ^ 53 := by
  obtain ⟨t, ht, hhi⟩ := roundMant_exact v b h1 h2 hb
  refine ⟨t, ?_, hhi⟩
  have hne : v * b ≠ 0 := by positivity
  have hguard : ¬ (971 : Int) < -(t : Int) := by
    have hnn : (0 : Int) ≤ (t : Int) := Int.ofNat_nonneg t
    omega
  simp only [mkFin, hne, if_neg hne, ht, if_neg hguard, ite_false]

theorem pyIntOfFl_negExp (s : Bool) (m : Nat) (t : Nat) :
    pyIntOfFl (Fl.fin s (m * 2 ^ t) (-(t : Int))) = .ok (if s then -((m : Int)) else (m : Int)) := by
  rcases Nat.eq_zero_or_pos t with ht | ht
  · subst ht
    simp [pyIntOfFl]
  · have hneg : ¬ (0 : Int) ≤ -(t : Int) := by omega
    have htn : (-(-(t : Int))).toNat = t := by omega
    have hdiv : m * 2 ^ t / 2 ^ t = m := Nat.mul_div_cancel _ (Nat.pos_pow_of_pos t (by norm_num))
    simp [pyIntOfFl, hneg, htn, hdiv]

/-- Multiplying an exactly-representable whole value by a constant whose
product stays below 2^53 truncates back to the exact product. -/
theorem exact_mul_trunc (v c : Nat) (hv : v < 2 ^ 53) (hc : 0 < c)
    (hp : v * c < 2 ^ 53) :
    pyIntOfFl (flMulNat (flOfDec false v 0) c) = .ok ((v * c : Nat) : Int) := by
  rcases Nat.eq_zero_or_pos v with hv0 | hv0
  · subst hv0
    simp [flOfDec, flMulNat, pyIntOfFl]
  · have hb1 : (0 : Nat) < 1 := Nat.one_pos
    obtain ⟨t, ht, hhi⟩ := mkFin_exact false v 1 hv0 hv hb1
    have hfl : flOfDec false v 0 = Fl.fin false (v * 2 ^ t) (-(t : Int)) := by
      have ht2 : mkFin false v 1 = Fl.fin false (v * 2 ^ t) (-(t : Int)) := by
        simpa using ht
      simp only [flOfDec, if_neg (Nat.ne_of_gt hv0), pow_zero]
      exact ht2
    rw [hfl]
    have hp0 : v * 2 ^ t * c ≠ 0 := by positivity
    rcases Nat.eq_zero_or_pos t with ht0 | htpos
    · subst ht0
      have h0e : (0 : Int) ≤ -((0 : Nat) : Int) := by simp
      have hvc : 0 < v * c := by positivity
      obtain ⟨t', ht', hhi'⟩ := mkFin_exact false (v * c) 1 hvc hp hb1
      have harg : v * 2 ^ 0 * c * 2 ^ ((-((0 : Nat) : Int)).toNat) = (v * c) * 1 := by
        norm_num
      simp only [flMulNat, hp0, if_false, h0e, if_true, harg, ht']
      rw [pyIntOfFl_negExp]
      simp
    · have hne : ¬ (0 : Int) ≤ -((t : Nat) : Int) := by omega
      have htn : (-(-(t : Int))).toNat = t := by omega
      have hvc : 0 < v * c := by positivity
      obtain ⟨t', ht', hhi'⟩ := mkFin_exact false (v * c) (2 ^ t) hvc hp
        (Nat.pos_pow_of_pos t (by norm_num))
      have harg : v * 2 ^ t * c = (v * c) * 2 ^ t := by ring
      have hp0' : (v * c) * 2 ^ t ≠ 0 := harg ▸ hp0
      simp only [flMulNat, harg, hp0', if_false, hne, htn, ht']
      rw [pyIntOfFl_negExp]
      simp

/-! ## Claim C5: duration parsing -/

/-- C5 counterexample: the fractional duration 4.1h parses to 14759999
milliseconds, one short of the exact product 4.1 * 3600000 = 14760000 the
claim prescribes, because the source truncates the double-precision
product. -/
theorem c5_counterexample_fractional :
    parse_time_estimate "4.1h" = .ok 14759999 ∧
      (14759999 : Int) ≠ (41 * 3600000) / 10 := by
  constructor
  · rfl
  · decide

/-- C5 amended: for whole-number figures (below 2^31, where double
arithmetic is exact) the parser returns N*3600000 + M*60000 for the h, m
and combined shapes, and a bare whole number is interpreted as minutes;
fractional figures can truncate below the exact value. -/
theorem c5_whole_number_durations (s : String) (N M : Nat)
    (hN : N < 2 ^ 31) (hM : M < 2 ^ 31) (hne : stripL s.data ≠ []) :
    (searchNumUnit 'h' (lowerL (stripL s.data)) = some (N, 0) →
      searchNumUnit 'm' (lowerL (stripL s.data)) = some (M, 0) →
      parse_time_estimate s = .ok ((N * 3600000 + M * 60000 : Nat) : Int)) ∧
    (searchNumUnit 'h' (lowerL (stripL s.data)) = some (N, 0) →
      searchNumUnit 'm' (lowerL (stripL s.data)) = none →
      parse_time_estimate s = .ok ((N * 3600000 : Nat) : Int)) ∧
    (searchNumUnit 'h' (lowerL (stripL s.data)) = none →
      searchNumUnit 'm' (lowerL (stripL s.data)) = some (M, 0) →
      parse_time_estimate s = .ok ((M * 60000 : Nat) : Int)) ∧
    (searchNumUnit 'h' (lowerL (stripL s.data)) = none →
      searchNumUnit 'm' (lowerL (stripL s.data)) = none →
      pyFloatLit ⟨lowerL (stripL s.data)⟩ = some (flOfDec false M 0) →
      parse_time_estimate s = .ok ((M * 60000 : Nat) : Int)) := by
  have h53 : (2 : Nat) ^ 31 < 2 ^ 53 := by norm_num
  have hNh : N * 3600000 < 2 ^ 53 := by
    calc N * 3600000 < 2 ^ 31 * 3600000 :=
          (Nat.mul_lt_mul_right (by norm_num)).mpr hN
    _ < 2 ^ 53 := by norm_num
  have hMm : M * 60000 < 2 ^ 53 := by
    calc M * 60000 < 2 ^ 31 * 60000 :=
          (Nat.mul_lt_mul_right (by norm_num)).mpr hM
    _ < 2 ^ 53 := by norm_num
  have hNlt : N < 2 ^ 53 := lt_trans hN h53
  have hMlt : M < 2 ^ 53 := lt_trans hM h53
  have hH := exact_mul_trunc N 3600000 hNlt (by norm_num) hNh
  have hMth := exact_mul_trunc M 60000 hMlt (by norm_num) hMm
  refine ⟨?_, ?_, ?_, ?_⟩
  · intro hh hm
    simp only [parse_time_estimate, if_neg hne, hh, hm, hH, hMth]
    show Except.ok (((N * 3600000 : Nat) : Int) + ((M * 60000 : Nat) : Int)) = _
    congr 1
  · intro hh hm
    simp only [parse_time_estimate, if_neg hne, hh, hm, hH]
  · intro hh hm
    simp only [parse_time_estimate, if_neg hne, hh, hm, hMth]
  · intro hh hm hf
    simp only [parse_time_estimate, if_neg hne, hh, hm, hf, hMth]

/-- C5 witness: the claim's own examples, 2h 30m giving 9000000 ms and the
bare 45 giving 2700000 ms. -/
theorem c5_whole_number_durations_witness :
    parse_time_estimate "2h 30m" = .ok 9000000 ∧
      parse_time_estimate "45" = .ok 2700000 := by
  constructor
  · have h := (c5_whole_number_durations "2h 30m" 2 30 (by norm_num) (by norm_num)
      (by decide)).1 (by decide) (by decide)
    simpa using h
  · have h := (c5_whole_number_durations "45" 0 45 (by norm_num) (by norm_num)
      (by decide)).2.2.2 (by decide) (by decide) (by decide)
    simpa using h

/-! ## Scan transparency lemmas (for claim C1) -/

theorem scanRep_trans (m : List Char → Option (Nat × α × List Char))
    (P : Char → Prop) (hm : ∀ c rest, P c → m (c :: rest) = none) :
    ∀ t rest, (∀ c ∈ t, P c) →
      scanRep m (t ++ rest) = ((scanRep m rest).1, t ++ (scanRep m rest).2) := by
  intro t
  induction t with
  | nil => intro rest _; simp
  | cons c t ih =>
    intro rest ht
    have hc := ht c (by simp)
    have hrec := ih rest (fun x hx => ht x (by simp [hx]))
    rw [List.cons_append, scanRep_cons_none m c (t ++ rest) (hm _ _ hc), hrec]
    simp

theorem scanRep_all_none (m : List Char → Option (Nat × α × List Char))
    (P : Char → Prop) (hm : ∀ c rest, P c → m (c :: rest) = none) :
    ∀ cs, (∀ c ∈ cs, P c) → scanRep m cs = ([], cs) := by
  intro cs h
  have h2 := scanRep_trans m P hm cs [] h
  have h0 : scanRep m ([] : List Char) = ([], []) := rfl
  rw [h0] at h2
  simpa using h2

theorem searchFirst_append (m : List Char → Option α)
    (P : Char → Prop) (hm : ∀ c rest, P c → m (c :: rest) = none) :
    ∀ t rest, (∀ c ∈ t, P c) →
      searchFirst m (t ++ rest) = searchFirst m rest := by
  intro t
  induction t with
  | nil => intro rest _; simp
  | cons c t ih =>
    intro rest ht
    have hc := ht c (by simp)
    have hrec := ih rest (fun x hx => ht x (by simp [hx]))
    simp only [List.cons_append, searchFirst, hm _ _ hc]
    simpa using hrec

theorem searchFirst_all_none (m : List Char → Option α)
    (P : Char → Prop) (hm : ∀ c rest, P c → m (c :: rest) = none) :
    ∀ cs, (∀ c ∈ cs, P c) → searchFirst m cs = none := by
  intro cs h
  have := searchFirst_append m P hm cs [] h
  simpa [searchFirst] using this

/-! Head-character lemmas for the individual matchers. -/

theorem timeParenAt_nohead (c : Char) (rest : List Char) (h : c ≠ '(') :
    timeParenAt (c :: rest) = none := by
  unfold timeParenAt
  split
  · rename_i heq
    injection heq with h1 h2
    exact absurd h1 h
  · rfl

theorem tagAt_nohead (c : Char) (rest : List Char) (h : c ≠ '#') :
    tagAt (c :: rest) = none := by
  unfold tagAt
  split
  · rename_i heq
    injection heq with h1 h2
    exact absurd h1 h
  · rfl

theorem boldAt_nohead (c : Char) (rest : List Char) (h : c ≠ '*') :
    boldAt (c :: rest) = none := by
  unfold boldAt
  split
  · rename_i heq
    injection heq with h1 h2
    exact absurd h1 h
  · rfl

theorem spent1At_nohead (c : Char) (rest : List Char) (h : c ≠ '@') :
    spent1At (c :: rest) = none := by
  unfold spent1At
  split
  · rename_i heq
    injection heq with h1 h2
    exact absurd h1 h
  · rfl

theorem due1At_nohead (c : Char) (rest : List Char) (h : c ≠ '@') :
    due1At (c :: rest) = none := by
  unfold due1At
  split
  · rename_i heq
    injection heq with h1 h2
    exact absurd h1 h
  · rfl

theorem attachAt_nohead (kw : List Char) (c : Char) (rest : List Char) (h : c ≠ '@') :
    attachAt kw (c :: rest) = none := by
  unfold attachAt
  split
  · rename_i heq
    injection heq with h1 h2
    exact absurd h1 h
  · rfl

theorem spent2DatedAt_nohead (kw : List Char) (c : Char) (rest : List Char) (h : c ≠ '@') :
    spent2DatedAt kw (c :: rest) = none := by
  unfold spent2DatedAt
  split
  · rename_i heq
    injection heq with h1 h2
    exact absurd h1 h
  · rfl

theorem spent2PlainAt_nohead (kw : List Char) (c : Char) (rest : List Char) (h : c ≠ '@') :
    spent2PlainAt kw (c :: rest) = none := by
  unfold spent2PlainAt
  split
  · rename_i heq
    injection heq with h1 h2
    exact absurd h1 h
  · rfl

/-! ## Claim C1: failed-value due patterns -/

theorem dropWhile_none (p : Char → Bool) (l : List Char) (h : ∀ c ∈ l, p c = false) :
    l.dropWhile p = l := by
  cases l with
  | nil => rfl
  | cons c rest => simp [List.dropWhile, h c (by simp)]

theorem stripL_of_nospace (w : List Char) (h : ∀ c ∈ w, pyIsSpace c = false) :
    stripL w = w := by
  unfold stripL lstripL rstripL
  rw [dropWhile_none _ _ h]
  rw [dropWhile_none _ _ (fun c hc => h c (List.mem_reverse.mp hc))]
  exact List.reverse_reverse w

theorem matchYear_nodigit (c : Char) (rest : List Char) (h : pyIsDigit c = false) :
    matchYear (c :: rest) = none := by
  unfold matchYear
  split
  · rename_i heq
    injection heq with h1 h2
    subst h1
    simp [h]
  · rfl

theorem pyIsDigit_span (c lo hi : Char) (h : pyIsDigit c = false)
    (hlo : pyIsDigit lo = true) (hhi : pyIsDigit hi = true) :
    ¬(lo ≤ c ∧ c ≤ hi) := by
  intro hc
  have h' : ¬('0' ≤ c ∧ c ≤ '9') := by
    intro hcc
    rw [show pyIsDigit c = true by
      simp only [pyIsDigit, Bool.and_eq_true, decide_eq_true_eq]
      exact hcc] at h
    exact absurd h (by decide)
  simp only [pyIsDigit, Bool.and_eq_true, decide_eq_true_eq] at hlo hhi
  exact h' ⟨le_trans hlo.1 hc.1, le_trans hc.2 hhi.2⟩

theorem matchMonth_nodigit (c : Char) (rest : List Char) (h : pyIsDigit c = false) :
    matchMonth (c :: rest) = none := by
  have h19 := pyIsDigit_span c '1' '9' h (by decide) (by decide)
  unfold matchMonth
  cases rest with
  | nil =>
    simp only []
    rw [if_neg (by intro hc; exact h19 ⟨hc.1, hc.2⟩)]
  | cons c2 r2 =>
    have h1c : ¬(c = '1' ∧ '0' ≤ c2 ∧ c2 ≤ '2') := by
      intro hc
      rw [hc.1] at h
      exact absurd h (by decide)
    have h0c : ¬(c = '0' ∧ '1' ≤ c2 ∧ c2 ≤ '9') := by
      intro hc
      rw [hc.1] at h
      exact absurd h (by decide)
    simp only []
    rw [if_neg h1c, if_neg h0c, if_neg (by intro hc; exact h19 ⟨hc.1, hc.2⟩)]

theorem matchDay_nodigit (c : Char) (rest : List Char) (h : pyIsDigit c = false) :
    matchDay (c :: rest) = none := by
  have h19 := pyIsDigit_span c '1' '9' h (by decide) (by decide)
  have h12 := pyIsDigit_span c '1' '2' h (by decide) (by decide)
  unfold matchDay
  cases rest with
  | nil =>
    simp only []
    rw [if_neg (by intro hc; exact h19 ⟨hc.1, hc.2⟩)]
  | cons c2 r2 =>
    have h3c : ¬(c = '3' ∧ '0' ≤ c2 ∧ c2 ≤ '1') := by
      intro hc
      rw [hc.1] at h
      exact absurd h (by decide)
    have h0c : ¬(c = '0' ∧ '1' ≤ c2 ∧ c2 ≤ '9') := by
      intro hc
      rw [hc.1] at h
      exact absurd h (by decide)
    simp only []
    rw [if_neg h3c, if_neg (by intro hc; exact h12 ⟨hc.1.1, hc.1.2⟩),
        if_neg h0c, if_neg (by intro hc; exact h19 ⟨hc.1, hc.2⟩)]

/-- Every strptime format the converter uses starts with a date directive,
so a value with a digit-free head never parses. -/
theorem pyStrptime_nodigit (fmt : List FTok) (c : Char) (rest : List Char)
    (hfmt : fmt.head? = some FTok.yr ∨ fmt.head? = some FTok.mon ∨ fmt.head? = some FTok.day)
    (h : pyIsDigit c = false) :
    pyStrptime fmt (c :: rest) = none := by
  cases fmt with
  | nil => simp at hfmt
  | cons tok ts =>
    have htok : tok = FTok.yr ∨ tok = FTok.mon ∨ tok = FTok.day := by
      rcases hfmt with h1 | h1 | h1 <;> simp at h1 <;> simp [h1]
    unfold pyStrptime runFmt
    rcases htok with h1 | h1 | h1 <;> subst h1
    · simp [runFTok, matchYear_nodigit c rest h]
    · simp [runFTok, matchMonth_nodigit c rest h]
    · simp [runFTok, matchDay_nodigit c rest h]

theorem parse_date_nodigit (c : Char) (rest : List Char)
    (hns : ∀ x ∈ c :: rest, pyIsSpace x = false)
    (hnd : pyIsDigit c = false) :
    parse_date ⟨c :: rest⟩ = none := by
  have hstr : stripL (String.mk (c :: rest)).data = c :: rest :=
    stripL_of_nospace _ hns
  have hy := pyStrptime_nodigit fmtYmd c rest (by simp [fmtYmd]) hnd
  have hm := pyStrptime_nodigit fmtMdy c rest (by simp [fmtMdy]) hnd
  have hd := pyStrptime_nodigit fmtDmy c rest (by simp [fmtDmy]) hnd
  have hy2 := pyStrptime_nodigit (fmtYmd ++ fmtHms) c rest (by simp [fmtYmd, fmtHms]) hnd
  have hm2 := pyStrptime_nodigit (fmtMdy ++ fmtHms) c rest (by simp [fmtMdy, fmtHms]) hnd
  have hd2 := pyStrptime_nodigit (fmtDmy ++ fmtHms) c rest (by simp [fmtDmy, fmtHms]) hnd
  simp [parse_date, hstr, List.firstM, hy, hm, hd, hy2, hm2, hd2]
  rfl

theorem parse_date_with_time_nodigit (c : Char) (rest : List Char)
    (hnd : pyIsDigit c = false) :
    parse_date_with_time ⟨c :: rest⟩ = none := by
  have h1 : ∀ fmt : List FTok,
      (fmt.head? = some FTok.yr ∨ fmt.head? = some FTok.mon ∨ fmt.head? = some FTok.day) →
      pyStrptime fmt (String.mk (c :: rest)).data = none := by
    intro fmt hf
    exact pyStrptime_nodigit fmt c rest hf hnd
  simp only [parse_date_with_time, List.firstM]
  rw [h1 _ (by simp), h1 _ (by simp), h1 _ (by simp), h1 _ (by simp),
      h1 _ (by simp), h1 _ (by simp), h1 _ (by simp), h1 _ (by simp)]
  rfl

theorem searchFirst_cons_some (m : List Char → Option α)
    (c : Char) (rest : List Char) (a : α) (h : m (c :: rest) = some a) :
    searchFirst m (c :: rest) = some a := by
  simp [searchFirst, h]

/-- C1 counterexample: for the unparseable date in the content string
"Task @due:notadate" the matched raw text IS stripped from the title
(the title comes back as plain "Task"), contradicting the claim that the
text causing the failure remains visible; the date fields stay absent. -/
theorem c1_counterexample_stripped :
    parse_task_content "Task @due:notadate" =
      .ok { title := "Task", notes := "", due_date := none, due_with_time := none,
            time_estimate := 0, tags := [], attachments := [], time_spent := none,
            time_spent_date := none } := by
  rfl

theorem exceptOk_bind {e a b : Type} (x : a) (f : a → Except e b) :
    ((Except.ok x : Except e a) >>= f) = f x := rfl

/-- C1 amended: a due pattern whose captured value fails to parse (here,
any digit-free value, which no date format accepts) still counts as a
consumed match: no extraction step raises, the due fields silently stay
absent, and the matched text is stripped from the title rather than
remaining visible. -/
theorem c1_failed_due_value_stripped (t w : List Char)
    (ht : ∀ c ∈ t, c ≠ '(' ∧ c ≠ '#' ∧ c ≠ '@' ∧ c ≠ '*')
    (hw : ∀ c ∈ w, pyIsSpace c = false ∧ pyIsDigit c = false ∧ c ≠ '@' ∧ c ≠ '(' ∧
      c ≠ '#' ∧ c ≠ '*')
    (hwne : w ≠ []) :
    parse_task_content ⟨t ++ '@' :: 'd' :: 'u' :: 'e' :: ':' :: w⟩ =
      .ok { title := clean_text ⟨t⟩, notes := "", due_date := none, due_with_time := none,
            time_estimate := 0, tags := [], attachments := [], time_spent := none,
            time_spent_date := none } := by
  set R : List Char := '@' :: 'd' :: 'u' :: 'e' :: ':' :: w with hR
  have hwmem : ∀ c ∈ w, c ≠ '@' := fun c hc => (hw c hc).2.2.1
  have hCnoparen : ∀ c ∈ t ++ R, c ≠ '(' := by
    intro c hc
    rcases List.mem_append.mp hc with h | h
    · exact (ht c h).1
    · rw [hR] at h
      simp only [List.mem_cons] at h
      rcases h with h | h | h | h | h | h
      · subst h; decide
      · subst h; decide
      · subst h; decide
      · subst h; decide
      · subst h; decide
      · exact (hw c h).2.2.2.1
  have hCnohash : ∀ c ∈ t ++ R, c ≠ '#' := by
    intro c hc
    rcases List.mem_append.mp hc with h | h
    · exact (ht c h).2.1
    · rw [hR] at h
      simp only [List.mem_cons] at h
      rcases h with h | h | h | h | h | h
      · subst h; decide
      · subst h; decide
      · subst h; decide
      · subst h; decide
      · subst h; decide
      · exact (hw c h).2.2.2.2.1
  have h_time : scanRep timeParenAt (t ++ R) = ([], t ++ R) :=
    scanRep_all_none _ (fun c => c ≠ '(') timeParenAt_nohead _ hCnoparen
  have h_tag : scanRep tagAt (t ++ R) = ([], t ++ R) :=
    scanRep_all_none _ (fun c => c ≠ '#') tagAt_nohead _ hCnohash
  have h_sp1_head : spent1At R = none := by
    rw [hR]
    simp [spent1At, kwAt, List.isPrefixOf,
      show pyToLower 'd' = 'd' from by decide]
  have h_sp1_tail : scanRep spent1At ('d' :: 'u' :: 'e' :: ':' :: w) =
      ([], 'd' :: 'u' :: 'e' :: ':' :: w) := by
    apply scanRep_all_none _ (fun c => c ≠ '@') spent1At_nohead
    intro c hc
    simp only [List.mem_cons] at hc
    rcases hc with h | h | h | h | h
    · subst h; decide
    · subst h; decide
    · subst h; decide
    · subst h; decide
    · exact hwmem c h
  have h_sp1 : scanRep spent1At (t ++ R) = ([], t ++ R) := by
    have htrans := scanRep_trans spent1At (fun c => c ≠ '@') spent1At_nohead t R
      (fun c hc => (ht c hc).2.2.1)
    have hstep : scanRep spent1At R = ([], R) := by
      rw [hR]
      rw [scanRep_cons_none _ _ _ (hR ▸ h_sp1_head), h_sp1_tail]
    rw [htrans, hstep]
  have h_due1_region : due1At R = some (5 + w.length, w, []) := by
    rw [hR]
    have htw : w.takeWhile (fun c => !pyIsSpace c) = w :=
      List.takeWhile_eq_self_iff.mpr (by
        intro c hc
        simp [(hw c hc).1])
    simp only [due1At, kwAt]
    have htake : List.take (['d', 'u', 'e', ':'] : List Char).length
        ('d' :: 'u' :: 'e' :: ':' :: w) = ['d', 'u', 'e', ':'] := by simp
    have hpre : (['d', 'u', 'e', ':'] : List Char).isPrefixOf
        (lowerL (List.take (['d', 'u', 'e', ':'] : List Char).length
          ('d' :: 'u' :: 'e' :: ':' :: w))) = true := by
      rw [htake]
      decide
    have hlen : (['d', 'u', 'e', ':'] : List Char).length ≤
        ('d' :: 'u' :: 'e' :: ':' :: w).length := by
      simp only [List.length_cons, List.length_nil]
      omega
    rw [if_pos ⟨hpre, hlen⟩]
    rw [show List.drop (['d', 'u', 'e', ':'] : List Char).length
        ('d' :: 'u' :: 'e' :: ':' :: w) = w by simp]
    simp only [Option.bind_eq_bind, Option.some_bind, htw]
    rw [if_neg (by simpa using hwne)]
  have h_due_search :
      searchFirst (fun cs => (due1At cs).map (fun p => p.2.1)) (t ++ R) = some w := by
    rw [searchFirst_append _ (fun c => c ≠ '@')
      (fun c rest h => by rw [due1At_nohead c rest h]; rfl) t R
      (fun c hc => (ht c hc).2.2.1)]
    rw [hR]
    apply searchFirst_cons_some
    have h1 : due1At ('@' :: 'd' :: 'u' :: 'e' :: ':' :: w) = some (5 + w.length, w, []) :=
      h_due1_region
    rw [h1]
    rfl
  have hdrop : List.drop (max (5 + w.length) 1) R = [] := by
    rw [hR]
    have hm : max (5 + w.length) 1 = 5 + w.length := by omega
    rw [hm]
    apply List.drop_eq_nil_of_le
    simp only [List.length_cons]
    omega
  have h_due_scan : scanRep due1At (t ++ R) = ([w], t) := by
    rw [scanRep_trans due1At (fun c => c ≠ '@') due1At_nohead t R
      (fun c hc => (ht c hc).2.2.1)]
    have hstep : scanRep due1At R = ([w], []) := by
      rw [hR]
      rw [scanRep_cons_some _ _ _ _ _ _ (hR ▸ h_due1_region)]
      rw [show ('@' :: 'd' :: 'u' :: 'e' :: ':' :: w).drop (max (5 + w.length) 1) = [] from hR ▸ hdrop]
      rfl
    rw [hstep]
    simp
  have h_w_parse_fails_t : ('T' ∈ w ∨ ':' ∈ w) → parse_date_with_time ⟨w⟩ = none := by
    intro _
    obtain ⟨c0, w', hw'⟩ : ∃ c0 w', w = c0 :: w' := by
      cases w with
      | nil => exact absurd rfl hwne
      | cons a b => exact ⟨a, b, rfl⟩
    rw [hw']
    exact parse_date_with_time_nodigit c0 w' (hw c0 (by rw [hw']; simp)).2.1
  have h_w_parse_fails : ¬('T' ∈ w ∨ ':' ∈ w) → parse_date ⟨w⟩ = none := by
    intro _
    obtain ⟨c0, w', hw'⟩ : ∃ c0 w', w = c0 :: w' := by
      cases w with
      | nil => exact absurd rfl hwne
      | cons a b => exact ⟨a, b, rfl⟩
    rw [hw']
    exact parse_date_nodigit c0 w'
      (by
        intro x hx
        exact (hw x (by rw [hw']; exact hx)).1)
      (hw c0 (by rw [hw']; simp)).2.1
  have h_dueStage : dueStage (t ++ R) = (none, none, t) := by
    simp only [dueStage, List.firstM, h_due_search, Option.map_some']
    by_cases hTc : ('T' ∈ w ∨ ':' ∈ w)
    · simp only [Option.some_orElse]
      rw [if_pos hTc, h_w_parse_fails_t hTc, h_due_scan]
    · simp only [Option.some_orElse]
      rw [if_neg hTc, h_w_parse_fails hTc, h_due_scan]
  have h_t_noat : ∀ c ∈ t, c ≠ '@' := fun c hc => (ht c hc).2.2.1
  have h_attach : ∀ kw ty, attachKind kw ty t = ([], t) := by
    intro kw ty
    have hs : scanRep (attachAt kw) t = ([], t) :=
      scanRep_all_none _ (fun c => c ≠ '@') (attachAt_nohead kw) _ h_t_noat
    simp [attachKind, hs]
  have h_sp2 : spent2Stage t = .ok (none, t) := by
    have hd : ∀ kw : List Char, searchFirst (spent2DatedAt kw) t = none := fun kw =>
      searchFirst_all_none _ (fun c => c ≠ '@') (spent2DatedAt_nohead kw) _ h_t_noat
    have hp : ∀ kw : List Char, searchFirst (spent2PlainAt kw) t = none := fun kw =>
      searchFirst_all_none _ (fun c => c ≠ '@') (spent2PlainAt_nohead kw) _ h_t_noat
    simp [spent2Stage, List.firstM, hd, hp]
  have h_bold : scanRep boldAt t = ([], t) := by
    apply scanRep_all_none _ (fun c => c ≠ '*') boldAt_nohead
    intro c hc
    exact (ht c hc).2.2.2
  show parse_task_content ⟨t ++ R⟩ = _
  simp only [parse_task_content, String.data]
  rw [h_time]
  simp only [sumEstimates, List.foldlM]
  show (do
    let tg := scanRep tagAt (t ++ R)
    let tags := tg.1.map fun wd => (⟨wd⟩ : String)
    let c2 := tg.2
    let sp1 ← spent1Loop (scanRep spent1At c2).1
    let afterSp1 : Option Int × Option String × List Char :=
      match sp1 with
      | some (ms, num, u, dt) =>
        (some ms, dt.map (⟨·⟩), (scanRep (spent1RemAt num u dt) c2).2)
      | none => (none, none, c2)
    let c3 := afterSp1.2.2
    let due := dueStage c3
    let c4 := due.2.2
    let al := attachKind "link".data "LINK" c4
    let af := attachKind "file".data "FILE" al.2
    let ai := attachKind "img".data "IMG" af.2
    let c5 := ai.2
    let sp2 ← spent2Stage c5
    let c6 := sp2.2
    let bd := scanRep boldAt c6
    let notes := if bd.1 = [] then "" else
      (⟨joinSep ['\n'] (bd.1.map fun x => '*' :: '*' :: x ++ ['*', '*'])⟩ : String)
    let c7 := bd.2
    let tspent : Option Int :=
      match sp2.1 with
      | some (ms, _) => some ms
      | none => afterSp1.1
    let tsdate : Option String :=
      match sp2.1 with
      | some (_, dt) => dt
      | none => afterSp1.2.1
    Except.ok ({ title := clean_text ⟨c7⟩
                 notes := notes
                 due_date := due.1
                 due_with_time := due.2.1
                 time_estimate := 0
                 tags := tags
                 attachments := al.1 ++ af.1 ++ ai.1
                 time_spent := tspent
                 time_spent_date := tsdate } : TaskInfo)) = _
  rw [h_tag]
  simp only []
  rw [h_sp1]
  simp only [spent1Loop]
  rw [exceptOk_bind]
  simp only []
  rw [h_dueStage]
  simp only []
  rw [h_attach "link".data "LINK"]
  simp only []
  rw [h_attach "file".data "FILE"]
  simp only []
  rw [h_attach "img".data "IMG"]
  simp only []
  rw [h_sp2]
  rw [exceptOk_bind]
  simp only []
  rw [h_bold]
  simp only [List.map_nil]
  rfl

/-- C1 witness: the concrete content Task with the unparseable value
notadate, instantiating the amended theorem. -/
theorem c1_failed_due_value_stripped_witness :
    parse_task_content ⟨"Task ".data ++ '@' :: 'd' :: 'u' :: 'e' :: ':' :: "notadate".data⟩ =
      .ok { title := clean_text ⟨"Task ".data⟩, notes := "", due_date := none,
            due_with_time := none, time_estimate := 0, tags := [], attachments := [],
            time_spent := none, time_spent_date := none } :=
  c1_failed_due_value_stripped "Task ".data "notadate".data (by decide) (by decide) (by decide)

/-! ## C2: aggregation idempotence analysis -/

theorem calcUpd_id (C : List Task) (p : Task) : (calcUpd C p).id = p.id := by
  unfold calcUpd; split <;> rfl

theorem calcUpd_subTaskIds (C : List Task) (p : Task) :
    (calcUpd C p).subTaskIds = p.subTaskIds := by
  unfold calcUpd; split <;> rfl

theorem calcUpd_timeEstimate (C : List Task) (p : Task) :
    (calcUpd C p).timeEstimate = (C.map (·.timeEstimate)).sum := by
  unfold calcUpd; split <;> rfl

theorem calcUpd_timeSpent (C : List Task) (p : Task) :
    (calcUpd C p).timeSpent = (C.map (·.timeSpent)).sum := by
  unfold calcUpd; split <;> rfl

theorem calcUpd_timeSpentOnDay (C : List Task) (p : Task) :
    (calcUpd C p).timeSpentOnDay = (C.flatMap (·.timeSpentOnDay)).foldl mergeDay [] := by
  unfold calcUpd; split <;> rfl

theorem calcUpd_isDone_of_all (C : List Task) (p : Task)
    (h : C.all (·.isDone) = true) : (calcUpd C p).isDone = true := by
  unfold calcUpd
  split
  · rfl
  · next hcond =>
      show p.isDone = true
      cases hpd : p.isDone with
      | true => rfl
      | false => exact absurd ⟨h, by simp [hpd]⟩ hcond

theorem calcUpd_fix (C : List Task) (p : Task)
    (h1 : p.timeEstimate = (C.map (·.timeEstimate)).sum)
    (h2 : p.timeSpent = (C.map (·.timeSpent)).sum)
    (h3 : p.timeSpentOnDay = (C.flatMap (·.timeSpentOnDay)).foldl mergeDay [])
    (h4 : C.all (·.isDone) = true → p.isDone = true) :
    calcUpd C p = p := by
  unfold calcUpd
  split
  · next hcond =>
      exfalso
      have hd := h4 hcond.1
      have hc2 := hcond.2
      rw [hd] at hc2
      exact absurd hc2 (by decide)
  · rw [← h1, ← h2, ← h3]

theorem calcStep_none (T : List Task) (q : Nat)
    (h : T.find? (fun t => t.id = q) = none) : calcStep T q = T := by
  unfold calcStep; rw [h]

theorem calcStep_some_nil (T : List Task) (q : Nat) (parent : Task)
    (h : T.find? (fun t => t.id = q) = some parent)
    (h2 : T.filter (fun t => parent.subTaskIds.contains t.id) = []) :
    calcStep T q = T := by
  unfold calcStep
  rw [h]
  simp only [h2, if_true]

theorem calcStep_some (T : List Task) (q : Nat) (parent : Task)
    (h : T.find? (fun t => t.id = q) = some parent)
    (h2 : T.filter (fun t => parent.subTaskIds.contains t.id) ≠ []) :
    calcStep T q =
      updTask T q (calcUpd (T.filter (fun t => parent.subTaskIds.contains t.id))) := by
  unfold calcStep
  rw [h]
  simp only []
  rw [if_neg h2]
  rfl

theorem foldl_fix {a b : Type} (f : b → a → b) (x : b) :
    ∀ (l : List a), (∀ y ∈ l, f x y = x) → l.foldl f x = x
  | [], _ => rfl
  | y :: ys, h => by
      rw [List.foldl_cons, h y (by simp)]
      exact foldl_fix f x ys (fun z hz => h z (by simp [hz]))

theorem map_fix {a : Type} (f : a → a) :
    ∀ (l : List a), (∀ x ∈ l, f x = x) → l.map f = l
  | [], _ => rfl
  | x :: xs, h => by
      rw [List.map_cons, h x (by simp), map_fix f xs (fun y hy => h y (by simp [hy]))]

theorem filter_map_fix {a : Type} (g : a → a) (pred : a → Bool)
    (hpred : ∀ t, pred (g t) = pred t) (hfix : ∀ t, pred t = true → g t = t) :
    ∀ (l : List a), (l.map g).filter pred = l.filter pred
  | [] => rfl
  | x :: xs => by
      have ih := filter_map_fix g pred hpred hfix xs
      cases hx : pred x with
      | true => simp [List.filter_cons, hpred x, hx, hfix x hx, ih]
      | false => simp [List.filter_cons, hpred x, hx, ih]

theorem forall2_exists_left {a b : Type} {R : a → b → Prop} :
    ∀ {l0 : List a} {l1 : List b}, List.Forall₂ R l0 l1 → ∀ y ∈ l1, ∃ x ∈ l0, R x y := by
  intro l0 l1 h
  induction h with
  | nil => intro y hy; simp at hy
  | cons h1 _ ih =>
      intro y hy
      rcases List.mem_cons.mp hy with rfl | hy2
      · exact ⟨_, by simp, h1⟩
      · obtain ⟨x, hx, hr⟩ := ih y hy2
        exact ⟨x, by simp [hx], hr⟩

theorem shape_map_id {base : List Task} :
    ∀ {l0 l1 : List Task}, List.Forall₂ (shapeRel base) l0 l1 →
      l1.map Task.id = l0.map Task.id := by
  intro l0 l1 h
  induction h with
  | nil => rfl
  | cons h1 _ ih => simp only [List.map_cons, h1.2.1, ih]

theorem shape_parents {base : List Task} :
    ∀ {l0 l1 : List Task}, List.Forall₂ (shapeRel base) l0 l1 →
      (l1.filter (fun t => t.subTaskIds ≠ [])).map (·.id) =
        (l0.filter (fun t => t.subTaskIds ≠ [])).map (·.id) := by
  intro l0 l1 h
  induction h with
  | nil => rfl
  | cons h1 _ ih =>
      rename_i a y l0t l1t hf
      simp only [List.filter_cons]
      rw [h1.2.2.1]
      by_cases hb : a.subTaskIds = []
      · simp [hb]
        simpa using ih
      · simp [hb, h1.2.1]
        simpa using ih

theorem uniqueById {T : List Task} (hnd : (T.map Task.id).Nodup)
    {t t' : Task} (ht : t ∈ T) (ht' : t' ∈ T) (h : t.id = t'.id) : t = t' :=
  List.inj_on_of_nodup_map hnd ht ht' h

theorem parent_id_not_leaf {base : List Task} (hnd : (base.map Task.id).Nodup)
    {q : Nat} (hq : isParentId base q) :
    ∀ t0 ∈ base, t0.subTaskIds = [] → t0.id ≠ q := by
  intro t0 h0 hleaf heq
  obtain ⟨p, hp, hpid, hpne⟩ := hq
  have h01 : t0 = p := uniqueById hnd h0 hp (by rw [heq, hpid])
  exact hpne (h01 ▸ hleaf)

theorem calcStep_shape {base T : List Task} {q : Nat}
    (hqne : ∀ t0 ∈ base, t0.subTaskIds = [] → t0.id ≠ q)
    (hF : List.Forall₂ (shapeRel base) base T) :
    List.Forall₂ (shapeRel base) base (calcStep T q) := by
  cases hfind : T.find? (fun t => t.id = q) with
  | none => rw [calcStep_none T q hfind]; exact hF
  | some parent =>
    by_cases hch : T.filter (fun t => parent.subTaskIds.contains t.id) = []
    · rw [calcStep_some_nil T q parent hfind hch]; exact hF
    · rw [calcStep_some T q parent hfind hch]
      simp only [updTask]
      rw [List.forall₂_map_right_iff]
      refine hF.imp (fun a b hab => ?_)
      by_cases hid : b.id = q
      · rw [if_pos hid]
        refine ⟨hab.1, ?_, ?_, ?_⟩
        · rw [calcUpd_id]; exact hab.2.1
        · rw [calcUpd_subTaskIds]; exact hab.2.2.1
        · intro hleaf
          have haq : a.id = q := by rw [← hab.2.1]; exact hid
          exact absurd haq (hqne a hab.1 hleaf)
      · rw [if_neg hid]; exact hab

theorem calcStep_settles {base T : List Task} {q : Nat}
    (hnd : (base.map Task.id).Nodup)
    (hdepth : ∀ p ∈ base, p.subTaskIds ≠ [] → ∀ c ∈ base, c.id ∈ p.subTaskIds →
      c.subTaskIds = [])
    (hF : List.Forall₂ (shapeRel base) base T) :
    settledAt (calcStep T q) q := by
  have hndT : (T.map Task.id).Nodup := by rw [shape_map_id hF]; exact hnd
  cases hfind : T.find? (fun t => t.id = q) with
  | none =>
    rw [calcStep_none T q hfind]
    intro p hp hpid
    have hno := List.find?_eq_none.mp hfind p hp
    simp [hpid] at hno
  | some parent =>
    have hparmem : parent ∈ T := List.mem_of_find?_eq_some hfind
    have hparid : parent.id = q := by simpa using List.find?_some hfind
    by_cases hch : T.filter (fun t => parent.subTaskIds.contains t.id) = []
    · rw [calcStep_some_nil T q parent hfind hch]
      intro p hp hpid hne
      have hpp : p = parent := uniqueById hndT hp hparmem (by rw [hpid, hparid])
      rw [hpp] at hne
      exact absurd hch hne
    · rw [calcStep_some T q parent hfind hch]
      obtain ⟨t0, ht0mem, ht0rel⟩ := forall2_exists_left hF parent hparmem
      have hsubeq : parent.subTaskIds = t0.subTaskIds := ht0rel.2.2.1
      have hsubne : t0.subTaskIds ≠ [] := by
        obtain ⟨c, hc⟩ := List.exists_mem_of_ne_nil _ hch
        have hc2 := (List.mem_filter.mp hc).2
        intro hnil
        rw [hsubeq, hnil] at hc2
        simp at hc2
      have hqnotin : q ∉ parent.subTaskIds := by
        intro hin
        have ht0q : t0.id = q := by rw [← ht0rel.2.1, hparid]
        have h1 : t0.id ∈ t0.subTaskIds := by rw [ht0q, ← hsubeq]; exact hin
        exact hsubne (hdepth t0 ht0mem hsubne t0 ht0mem h1)
      simp only [updTask]
      intro p hp hpid
      obtain ⟨t, htmem, hteq⟩ := List.mem_map.mp hp
      have hgid : ∀ s : Task,
          (if s.id = q
            then calcUpd (T.filter (fun u => parent.subTaskIds.contains u.id)) s
            else s).id = s.id := by
        intro s
        by_cases hs : s.id = q
        · simp only [if_pos hs, calcUpd_id]
        · simp only [if_neg hs]
      have htid : t.id = q := by
        by_cases hs : t.id = q
        · exact hs
        · rw [if_neg hs] at hteq
          exact absurd (by rw [hteq]; exact hpid) hs
      have htpar : t = parent := uniqueById hndT htmem hparmem (by rw [htid, hparid])
      have hpval : p = calcUpd (T.filter (fun u => parent.subTaskIds.contains u.id))
          parent := by
        rw [← hteq, htpar, if_pos hparid]
      have hgfix : ∀ s : Task, (parent.subTaskIds.contains s.id) = true →
          (if s.id = q
            then calcUpd (T.filter (fun u => parent.subTaskIds.contains u.id)) s
            else s) = s := by
        intro s hsc
        have hsq : s.id ≠ q := by
          intro he
          rw [he] at hsc
          exact hqnotin (List.elem_iff.mp hsc)
        simp only [if_neg hsq]
      have hpsub : p.subTaskIds = parent.subTaskIds := by
        rw [hpval, calcUpd_subTaskIds]
      have hfilt : (T.map (fun s : Task => if s.id = q
          then calcUpd (T.filter (fun u => parent.subTaskIds.contains u.id)) s
          else s)).filter (fun s => p.subTaskIds.contains s.id) =
          T.filter (fun u => parent.subTaskIds.contains u.id) := by
        rw [hpsub]
        exact filter_map_fix _ _ (fun s => by rw [hgid]) hgfix T
      rw [hfilt]
      intro _
      refine ⟨?_, ?_, ?_, ?_⟩
      · rw [hpval, calcUpd_timeEstimate]
      · rw [hpval, calcUpd_timeSpent]
      · rw [hpval, calcUpd_timeSpentOnDay]
      · intro hall
        rw [hpval]
        exact calcUpd_isDone_of_all _ _ hall

theorem calcStep_preserves_settled {base T : List Task} {q q' : Nat}
    (hnd : (base.map Task.id).Nodup)
    (hdepth : ∀ p ∈ base, p.subTaskIds ≠ [] → ∀ c ∈ base, c.id ∈ p.subTaskIds →
      c.subTaskIds = [])
    (hF : List.Forall₂ (shapeRel base) base T)
    (hq' : isParentId base q') (hne : q' ≠ q)
    (hs : settledAt T q) : settledAt (calcStep T q') q := by
  cases hfind : T.find? (fun t => t.id = q') with
  | none => rw [calcStep_none T q' hfind]; exact hs
  | some parent =>
    by_cases hch : T.filter (fun t => parent.subTaskIds.contains t.id) = []
    · rw [calcStep_some_nil T q' parent hfind hch]; exact hs
    · rw [calcStep_some T q' parent hfind hch]
      simp only [updTask]
      intro p hp hpid
      obtain ⟨t, htmem, hteq⟩ := List.mem_map.mp hp
      have htid : t.id ≠ q' := by
        intro he
        rw [if_pos he] at hteq
        have hpid2 : p.id = t.id := by rw [← hteq, calcUpd_id]
        exact hne (by rw [← he, ← hpid2, hpid])
      have hpt : p = t := by rw [← hteq, if_neg htid]
      obtain ⟨t0, ht0mem, ht0rel⟩ := forall2_exists_left hF t htmem
      obtain ⟨p0, hp0mem, hp0id, hp0ne⟩ := hq'
      have hq'notin : q' ∉ t.subTaskIds := by
        intro hin
        rw [ht0rel.2.2.1] at hin
        have hsubne : t0.subTaskIds ≠ [] := by
          intro hnil
          rw [hnil] at hin
          simp at hin
        have hp0in : p0.id ∈ t0.subTaskIds := by rw [hp0id]; exact hin
        exact hp0ne (hdepth t0 ht0mem hsubne p0 hp0mem hp0in)
      have hgid : ∀ s : Task,
          (if s.id = q'
            then calcUpd (T.filter (fun u => parent.subTaskIds.contains u.id)) s
            else s).id = s.id := by
        intro s
        by_cases hs2 : s.id = q'
        · simp only [if_pos hs2, calcUpd_id]
        · simp only [if_neg hs2]
      have hgfix : ∀ s : Task, (t.subTaskIds.contains s.id) = true →
          (if s.id = q'
            then calcUpd (T.filter (fun u => parent.subTaskIds.contains u.id)) s
            else s) = s := by
        intro s hsc
        have hsq : s.id ≠ q' := by
          intro he
          rw [he] at hsc
          exact hq'notin (List.elem_iff.mp hsc)
        simp only [if_neg hsq]
      have hfilt : (T.map (fun s : Task => if s.id = q'
          then calcUpd (T.filter (fun u => parent.subTaskIds.contains u.id)) s
          else s)).filter (fun s => p.subTaskIds.contains s.id) =
          T.filter (fun s => t.subTaskIds.contains s.id) := by
        rw [hpt]
        exact filter_map_fix _ _ (fun s => by rw [hgid]) hgfix T
      rw [hfilt, hpt]
      exact hs t htmem (by rw [← hpt]; exact hpid)

theorem fold_shape {base : List Task} (hnd : (base.map Task.id).Nodup) :
    ∀ (Q : List Nat) (T : List Task), (∀ x ∈ Q, isParentId base x) →
      List.Forall₂ (shapeRel base) base T →
      List.Forall₂ (shapeRel base) base (Q.foldl calcStep T)
  | [], _, _, hF => hF
  | x :: Qt, T, hQ, hF => by
      rw [List.foldl_cons]
      exact fold_shape hnd Qt (calcStep T x) (fun y hy => hQ y (by simp [hy]))
        (calcStep_shape (parent_id_not_leaf hnd (hQ x (by simp))) hF)

theorem fold_preserves_settled {base : List Task} {q : Nat}
    (hnd : (base.map Task.id).Nodup)
    (hdepth : ∀ p ∈ base, p.subTaskIds ≠ [] → ∀ c ∈ base, c.id ∈ p.subTaskIds →
      c.subTaskIds = []) :
    ∀ (Q : List Nat) (T : List Task),
      (∀ x ∈ Q, isParentId base x ∧ x ≠ q) →
      List.Forall₂ (shapeRel base) base T →
      settledAt T q → settledAt (Q.foldl calcStep T) q
  | [], _, _, _, hs => hs
  | x :: Qt, T, hQ, hF, hs => by
      rw [List.foldl_cons]
      exact fold_preserves_settled hnd hdepth Qt (calcStep T x)
        (fun y hy => hQ y (by simp [hy]))
        (calcStep_shape (parent_id_not_leaf hnd (hQ x (by simp)).1) hF)
        (calcStep_preserves_settled hnd hdepth hF (hQ x (by simp)).1
          (hQ x (by simp)).2 hs)

theorem run1_settles {base : List Task}
    (hnd : (base.map Task.id).Nodup)
    (hdepth : ∀ p ∈ base, p.subTaskIds ≠ [] → ∀ c ∈ base, c.id ∈ p.subTaskIds →
      c.subTaskIds = []) :
    ∀ (Q : List Nat) (T : List Task), Q.Nodup → (∀ x ∈ Q, isParentId base x) →
      List.Forall₂ (shapeRel base) base T →
      ∀ q ∈ Q, settledAt (Q.foldl calcStep T) q
  | [], _, _, _, _ => by
      intro q hq
      simp at hq
  | x :: Qt, T, hQnd, hQ, hF => by
      intro q hq
      rw [List.foldl_cons]
      rcases List.mem_cons.mp hq with rfl | hq2
      · exact fold_preserves_settled hnd hdepth Qt (calcStep T q)
          (fun y hy => ⟨hQ y (by simp [hy]),
            fun he => (List.nodup_cons.mp hQnd).1 (he ▸ hy)⟩)
          (calcStep_shape (parent_id_not_leaf hnd (hQ q (by simp))) hF)
          (calcStep_settles hnd hdepth hF)
      · exact run1_settles hnd hdepth Qt (calcStep T x) (List.nodup_cons.mp hQnd).2
          (fun y hy => hQ y (by simp [hy]))
          (calcStep_shape (parent_id_not_leaf hnd (hQ x (by simp))) hF)
          q hq2

theorem settled_fix {T : List Task} {q : Nat}
    (hndT : (T.map Task.id).Nodup) (hs : settledAt T q) : calcStep T q = T := by
  cases hfind : T.find? (fun t => t.id = q) with
  | none => exact calcStep_none T q hfind
  | some parent =>
    have hparmem : parent ∈ T := List.mem_of_find?_eq_some hfind
    have hparid : parent.id = q := by simpa using List.find?_some hfind
    by_cases hch : T.filter (fun t => parent.subTaskIds.contains t.id) = []
    · exact calcStep_some_nil T q parent hfind hch
    · rw [calcStep_some T q parent hfind hch]
      simp only [updTask]
      apply map_fix
      intro t htmem
      by_cases hid : t.id = q
      · have htp : t = parent := uniqueById hndT htmem hparmem (by rw [hid, hparid])
        rw [if_pos hid, htp]
        obtain ⟨h1, h2, h3, h4⟩ := hs parent hparmem hparid hch
        exact calcUpd_fix _ _ h1 h2 h3 h4
      · rw [if_neg hid]

set_option maxRecDepth 4000 in
/-- C2 counterexample: with two levels of nesting (A has subtask B, B has
subtask C), one aggregation pass (included in mdParse) leaves A with B's
pre-aggregation estimate, and a second run of the pass changes A's
timeEstimate from 7200000 to 10800000; the pass is not idempotent. -/
theorem c2_counterexample_deep_nesting :
    (mdParse 0 ["  - [ ] A (1h)", "    - [ ] B (2h)", "      - [ ] C (3h)"]).map
        (fun st => (st.tasks.map Task.timeEstimate,
          (calculate_parent_task_times st.tasks).map Task.timeEstimate)) =
      Except.ok ([7200000, 10800000, 10800000], [10800000, 10800000, 10800000]) ∧
    ([7200000, 10800000, 10800000] : List Int) ≠
      [10800000, 10800000, 10800000] :=
  ⟨rfl, by decide⟩

/-- C2 amended: the aggregation pass is idempotent on task sets whose
parent/child links nest at most one level deep, i.e. when the ids are
distinct and no direct child of a parent has subtasks of its own; with
deeper nesting a second run can change ancestors (see the counterexample). -/
theorem c2_aggregation_depth_one_idempotent (tasks : List Task)
    (hnd : (tasks.map Task.id).Nodup)
    (hdepth : ∀ p ∈ tasks, p.subTaskIds ≠ [] → ∀ c ∈ tasks, c.id ∈ p.subTaskIds →
      c.subTaskIds = []) :
    calculate_parent_task_times (calculate_parent_task_times tasks) =
      calculate_parent_task_times tasks := by
  have hF0 : List.Forall₂ (shapeRel tasks) tasks tasks :=
    List.forall₂_same.mpr (fun t ht => ⟨ht, rfl, rfl, fun _ => rfl⟩)
  have hPsub : ∀ x ∈ (tasks.filter (fun t => t.subTaskIds ≠ [])).map (·.id),
      isParentId tasks x := by
    intro x hx
    obtain ⟨t, ht, rfl⟩ := List.mem_map.mp hx
    obtain ⟨htm, htp⟩ := List.mem_filter.mp ht
    exact ⟨t, htm, rfl, by simpa using htp⟩
  have hPnd : ((tasks.filter (fun t => t.subTaskIds ≠ [])).map (·.id)).Nodup :=
    List.Nodup.sublist (List.Sublist.map Task.id (List.filter_sublist tasks)) hnd
  have hT1F : List.Forall₂ (shapeRel tasks) tasks
      (((tasks.filter (fun t => t.subTaskIds ≠ [])).map (·.id)).foldl calcStep tasks) :=
    fold_shape hnd _ tasks hPsub hF0
  have hndT1 : (((((tasks.filter (fun t => t.subTaskIds ≠ [])).map (·.id)).foldl
      calcStep tasks)).map Task.id).Nodup := by
    rw [shape_map_id hT1F]; exact hnd
  have hsettled : ∀ q ∈ (tasks.filter (fun t => t.subTaskIds ≠ [])).map (·.id),
      settledAt (((tasks.filter (fun t => t.subTaskIds ≠ [])).map (·.id)).foldl
        calcStep tasks) q :=
    run1_settles hnd hdepth _ tasks hPnd hPsub hF0
  show calculate_parent_task_times
      (((tasks.filter (fun t => t.subTaskIds ≠ [])).map (·.id)).foldl calcStep tasks) =
    ((tasks.filter (fun t => t.subTaskIds ≠ [])).map (·.id)).foldl calcStep tasks
  simp only [calculate_parent_task_times]
  rw [shape_parents hT1F]
  apply foldl_fix
  intro x hx
  exact settled_fix hndT1 (hsettled x hx)

/-- C2 witness: the two-task parent/child input instantiating the amended
idempotence theorem. -/
theorem c2_aggregation_depth_one_idempotent_witness :
    (([c2wParent, c2wChild].map Task.id).Nodup ∧
      (∀ p ∈ [c2wParent, c2wChild], p.subTaskIds ≠ [] →
        ∀ c ∈ [c2wParent, c2wChild], c.id ∈ p.subTaskIds → c.subTaskIds = [])) ∧
    calculate_parent_task_times (calculate_parent_task_times [c2wParent, c2wChild]) =
      calculate_parent_task_times [c2wParent, c2wChild] :=
  ⟨⟨by decide, by decide⟩,
    c2_aggregation_depth_one_idempotent [c2wParent, c2wChild] (by decide) (by decide)⟩

/-! ## C9: completion-time roll-in for done tasks -/

theorem foldl_preserve {a b : Type} (P : b → Prop) (f : b → a → b)
    (hf : ∀ x y, P x → P (f x y)) : ∀ (l : List a) (x : b), P x → P (l.foldl f x)
  | [], _, h => h
  | y :: ys, x, h => by
      rw [List.foldl_cons]
      exact foldl_preserve P f hf ys (f x y) (hf x y h)

theorem pyOrMs_self (x : Int) : pyOrMs (some x) x = x := by
  show (if x = 0 then x else x) = x
  split <;> rfl

theorem hth_snd_core (st : St) (ind : Nat) (t : Task) :
    (handle_task_hierarchy st ind t).2.timeSpent = t.timeSpent ∧
    (handle_task_hierarchy st ind t).2.timeSpentOnDay = t.timeSpentOnDay ∧
    (handle_task_hierarchy st ind t).2.timeEstimate = t.timeEstimate ∧
    (handle_task_hierarchy st ind t).2.isDone = t.isDone ∧
    (handle_task_hierarchy st ind t).2.created = t.created := by
  unfold handle_task_hierarchy
  cases hstack : st.taskStack.dropWhile (fun p => ind ≤ p.1) with
  | nil => exact ⟨rfl, rfl, rfl, rfl, rfl⟩
  | cons head tail =>
    obtain ⟨a, pid⟩ := head
    dsimp only
    cases hfind : st.tasks.find? (fun t => t.id = pid) with
    | none => exact ⟨rfl, rfl, rfl, rfl, rfl⟩
    | some parent => exact ⟨rfl, rfl, rfl, rfl, rfl⟩

theorem handle_explicit_none (info : TaskInfo) (h : info.time_spent = none) :
    ∀ (t : Task) (now : Int), handle_explicit_time_spent t info now = t := by
  intro t now
  unfold handle_explicit_time_spent
  rw [h]

theorem add_time_zero (t : Task) (h : t.timeEstimate = 0) :
    add_time_spent_for_completed_task t = t := by
  unfold add_time_spent_for_completed_task
  rw [if_pos (by simp [h])]

theorem add_time_go (t : Task) (hd : t.isDone = true) (he : ¬ t.timeEstimate = 0) :
    add_time_spent_for_completed_task t =
      { t with timeSpent := t.timeEstimate,
               timeSpentOnDay :=
                 [(dateStrOfMs (pyOrMs t.doneOn t.created), t.timeEstimate)] } := by
  unfold add_time_spent_for_completed_task
  rw [if_neg (by simp [hd, he])]

theorem finishDone_true (t : Task) (hday : t.timeSpentOnDay = []) :
    finishDone true t =
      add_time_spent_for_completed_task { t with doneOn := some t.created } := by
  unfold finishDone
  rw [if_pos rfl, if_pos hday]

theorem addTagStep_core (acc : Task × St) (name : String) :
    (addTagStep acc name).1.timeSpent = acc.1.timeSpent ∧
    (addTagStep acc name).1.timeSpentOnDay = acc.1.timeSpentOnDay ∧
    (addTagStep acc name).1.timeEstimate = acc.1.timeEstimate ∧
    (addTagStep acc name).1.isDone = acc.1.isDone ∧
    (addTagStep acc name).1.created = acc.1.created := by
  unfold addTagStep
  cases hgoc : get_or_create_tag name acc.2 with
  | mk tagOpt stt =>
    cases tagOpt with
    | some tag => exact ⟨rfl, rfl, rfl, rfl, rfl⟩
    | none => exact ⟨rfl, rfl, rfl, rfl, rfl⟩

theorem assignProject_fst_core (p : Option Nat) (t : Task) (s : St) :
    (assignProject p t s).1.timeSpent = t.timeSpent ∧
    (assignProject p t s).1.timeSpentOnDay = t.timeSpentOnDay ∧
    (assignProject p t s).1.timeEstimate = t.timeEstimate ∧
    (assignProject p t s).1.isDone = t.isDone ∧
    (assignProject p t s).1.created = t.created := by
  unfold assignProject
  split
  · cases hg : get_or_create_project (pyOrStr s.currentProjectName "Imported Tasks") s with
    | mk proj stp => exact ⟨rfl, rfl, rfl, rfl, rfl⟩
  · exact ⟨rfl, rfl, rfl, rfl, rfl⟩

theorem attachToParent_snd_core (p : Option Nat) (ind : Nat) (s : St) (t : Task) :
    (attachToParent p ind s t).2.timeSpent = t.timeSpent ∧
    (attachToParent p ind s t).2.timeSpentOnDay = t.timeSpentOnDay ∧
    (attachToParent p ind s t).2.timeEstimate = t.timeEstimate ∧
    (attachToParent p ind s t).2.isDone = t.isDone ∧
    (attachToParent p ind s t).2.created = t.created := by
  unfold attachToParent
  cases p with
  | none =>
    dsimp only
    split
    · exact hth_snd_core s ind t
    · exact ⟨rfl, rfl, rfl, rfl, rfl⟩
  | some pid =>
    dsimp only
    cases hf : s.tasks.find? (fun x => x.id = pid) with
    | some parent => exact ⟨rfl, rfl, rfl, rfl, rfl⟩
    | none => exact ⟨rfl, rfl, rfl, rfl, rfl⟩

/-- C9: a checkbox task created as done with no explicit spent annotation
gets timeSpent equal to its estimate and a single timeSpentOnDay entry for
the completion date derived from its created timestamp; with a zero
estimate no time is rolled in and the day map stays empty. -/
theorem c9_done_task_time_spent
    (content : String) (checkbox notes : Option String)
    (parentTaskId : Option Nat) (indentLevel : Nat) (st : St)
    (info : TaskInfo) (stout : St) (task : Task)
    (hinfo : parse_task_content content = .ok info)
    (hns : info.time_spent = none)
    (hcb : checkbox = some "[x]" ∨ checkbox = some "[X]")
    (hr : create_task content checkbox notes parentTaskId indentLevel st =
      .ok (stout, task)) :
    task.isDone = true ∧ task.timeEstimate = info.time_estimate ∧
    (info.time_estimate ≠ 0 →
      task.timeSpent = info.time_estimate ∧
      task.timeSpentOnDay = [(dateStrOfMs task.created, info.time_estimate)]) ∧
    (info.time_estimate = 0 → task.timeSpent = 0 ∧ task.timeSpentOnDay = []) := by
  have hcbd : checkboxDone checkbox = true := by
    rcases hcb with rfl | rfl <;> decide
  unfold create_task at hr
  rw [hinfo, exceptOk_bind] at hr
  obtain ⟨attIds, st1, hgen⟩ : ∃ a b, genIds info.attachments.length st = (a, b) :=
    ⟨_, _, rfl⟩
  rw [hgen] at hr
  dsimp only at hr
  obtain ⟨tid, st2, hgid⟩ : ∃ a b, genId st1 = (a, b) := ⟨_, _, rfl⟩
  rw [hgid] at hr
  dsimp only at hr
  rw [handle_explicit_none info hns, hcbd] at hr
  obtain ⟨task4, st3, hassign⟩ : ∃ a b,
      assignProject parentTaskId (withAttachments attIds info
        (finishDone true (mkBaseTask info notes checkbox tid st2.now))) st2 = (a, b) :=
    ⟨_, _, rfl⟩
  rw [hassign] at hr
  dsimp only at hr
  obtain ⟨task5, st4, hfold⟩ : ∃ a b,
      info.tags.foldl addTagStep (task4, st3) = (a, b) := ⟨_, _, rfl⟩
  rw [hfold] at hr
  dsimp only at hr
  injection hr with h1
  have htask : (attachToParent parentTaskId indentLevel st4 task5).2 = task :=
    congrArg Prod.snd h1
  obtain ⟨hc1, hc2, hc3, hc4, hc5⟩ :=
    attachToParent_snd_core parentTaskId indentLevel st4 task5
  rw [htask] at hc1 hc2 hc3 hc4 hc5
  have hP : task5.timeSpent = task4.timeSpent ∧
      task5.timeSpentOnDay = task4.timeSpentOnDay ∧
      task5.timeEstimate = task4.timeEstimate ∧ task5.isDone = task4.isDone ∧
      task5.created = task4.created := by
    have hp := foldl_preserve
      (fun acc : Task × St => acc.1.timeSpent = task4.timeSpent ∧
        acc.1.timeSpentOnDay = task4.timeSpentOnDay ∧
        acc.1.timeEstimate = task4.timeEstimate ∧ acc.1.isDone = task4.isDone ∧
        acc.1.created = task4.created)
      addTagStep
      (fun x y hx => by
        obtain ⟨a1, a2, a3, a4, a5⟩ := addTagStep_core x y
        exact ⟨a1.trans hx.1, a2.trans hx.2.1, a3.trans hx.2.2.1,
          a4.trans hx.2.2.2.1, a5.trans hx.2.2.2.2⟩)
      info.tags (task4, st3) ⟨rfl, rfl, rfl, rfl, rfl⟩
    rw [hfold] at hp
    exact hp
  obtain ⟨hq1, hq2, hq3, hq4, hq5⟩ := assignProject_fst_core parentTaskId
    (withAttachments attIds info
      (finishDone true (mkBaseTask info notes checkbox tid st2.now))) st2
  rw [hassign] at hq1 hq2 hq3 hq4 hq5
  dsimp only at hq1 hq2 hq3 hq4 hq5
  have hfin : finishDone true (mkBaseTask info notes checkbox tid st2.now) =
      add_time_spent_for_completed_task
        { mkBaseTask info notes checkbox tid st2.now with
          doneOn := some (mkBaseTask info notes checkbox tid st2.now).created } :=
    finishDone_true _ rfl
  have hiso : task.isDone = true := by
    rw [hc4, hP.2.2.2.1, hq4]
    show (finishDone true (mkBaseTask info notes checkbox tid st2.now)).isDone = true
    by_cases hze : info.time_estimate = 0
    · rw [hfin, add_time_zero _ hze]
      exact hcbd
    · rw [hfin, add_time_go _ hcbd hze]
      exact hcbd
  have hest : task.timeEstimate = info.time_estimate := by
    rw [hc3, hP.2.2.1, hq3]
    show (finishDone true (mkBaseTask info notes checkbox tid st2.now)).timeEstimate =
      info.time_estimate
    by_cases hze : info.time_estimate = 0
    · rw [hfin, add_time_zero _ hze]
      rfl
    · rw [hfin, add_time_go _ hcbd hze]
      rfl
  have hcreated : task.created = st2.now := by
    rw [hc5, hP.2.2.2.2, hq5]
    show (finishDone true (mkBaseTask info notes checkbox tid st2.now)).created = st2.now
    by_cases hze : info.time_estimate = 0
    · rw [hfin, add_time_zero _ hze]
      rfl
    · rw [hfin, add_time_go _ hcbd hze]
      rfl
  refine ⟨hiso, hest, ?_, ?_⟩
  · intro hze
    constructor
    · rw [hc1, hP.1, hq1]
      show (finishDone true (mkBaseTask info notes checkbox tid st2.now)).timeSpent =
        info.time_estimate
      rw [hfin, add_time_go _ hcbd hze]
      rfl
    · rw [hc2, hP.2.1, hq2, hcreated]
      show (finishDone true (mkBaseTask info notes checkbox tid st2.now)).timeSpentOnDay =
        [(dateStrOfMs st2.now, info.time_estimate)]
      rw [hfin, add_time_go _ hcbd hze]
      show [(dateStrOfMs (pyOrMs (some st2.now) st2.now), info.time_estimate)] = _
      rw [pyOrMs_self]
  · intro hze
    constructor
    · rw [hc1, hP.1, hq1]
      show (finishDone true (mkBaseTask info notes checkbox tid st2.now)).timeSpent = 0
      rw [hfin, add_time_zero _ hze]
      rfl
    · rw [hc2, hP.2.1, hq2]
      show (finishDone true (mkBaseTask info notes checkbox tid st2.now)).timeSpentOnDay = []
      rw [hfin, add_time_zero _ hze]
      rfl

/-- C9 witness: the done two-hour task, instantiating the theorem. -/
theorem c9_done_task_time_spent_witness :
    (parse_task_content "Task (2h)" = .ok c9wInfo ∧
     c9wInfo.time_spent = none ∧
     create_task "Task (2h)" (some "[x]") none none 0 (initSt 0) =
       .ok (c9wSt, c9wTask)) ∧
    (c9wTask.isDone = true ∧ c9wTask.timeEstimate = c9wInfo.time_estimate ∧
     (c9wInfo.time_estimate ≠ 0 →
       c9wTask.timeSpent = c9wInfo.time_estimate ∧
       c9wTask.timeSpentOnDay = [(dateStrOfMs c9wTask.created, c9wInfo.time_estimate)]) ∧
     (c9wInfo.time_estimate = 0 →
       c9wTask.timeSpent = 0 ∧ c9wTask.timeSpentOnDay = [])) :=
  ⟨⟨rfl, rfl, rfl⟩,
    c9_done_task_time_spent "Task (2h)" (some "[x]") none none 0 (initSt 0)
      c9wInfo c9wSt c9wTask rfl rfl (Or.inl rfl) rfl⟩

/-! ## C6: one task per checkbox line -/

theorem exceptPure_bind {e a b : Type} (x : a) (f : a → Except e b) :
    ((pure x : Except e a) >>= f) = f x := rfl

theorem add_time_isDone (t : Task) :
    (add_time_spent_for_completed_task t).isDone = t.isDone := by
  unfold add_time_spent_for_completed_task
  split <;> rfl

theorem handle_explicit_isDone (t : Task) (i : TaskInfo) (n : Int) :
    (handle_explicit_time_spent t i n).isDone = t.isDone := by
  unfold handle_explicit_time_spent
  split
  · split <;> rfl
  · rfl

theorem finishDone_isDone (b : Bool) (t : Task) :
    (finishDone b t).isDone = t.isDone := by
  unfold finishDone
  split
  · dsimp only
    split
    · rw [add_time_isDone]
    · rfl
  · rfl

theorem genIds_tasks (n : Nat) : ∀ st : St, (genIds n st).2.tasks = st.tasks := by
  induction n with
  | zero => intro st; rfl
  | succ k ih => intro st; exact ih _

theorem gocp_tasks (name : String) (s : St) :
    (get_or_create_project name s).2.tasks = s.tasks := by
  unfold get_or_create_project
  dsimp only
  split <;> rfl

theorem gocg_tasks (name : String) (s : St) :
    (get_or_create_tag name s).2.tasks = s.tasks := by
  unfold get_or_create_tag
  split
  · rfl
  · dsimp only
    cases hf : s.tags.find? (fun t => t.title = name) with
    | some t => rfl
    | none => rfl

theorem assignProject_snd_tasks (p : Option Nat) (t : Task) (s : St) :
    (assignProject p t s).2.tasks = s.tasks := by
  unfold assignProject
  split
  · exact gocp_tasks _ s
  · rfl

theorem addTagStep_snd_tasks (acc : Task × St) (name : String) :
    (addTagStep acc name).2.tasks = acc.2.tasks := by
  unfold addTagStep
  cases hg : get_or_create_tag name acc.2 with
  | mk tagOpt stt =>
    have h2 : stt.tasks = acc.2.tasks := by
      have h3 := gocg_tasks name acc.2
      rw [hg] at h3
      exact h3
    cases tagOpt with
    | some tag => exact h2
    | none => exact h2

theorem attachToParent_none_zero (s : St) (t : Task) :
    attachToParent none 0 s t = (s, t) := rfl

set_option maxRecDepth 4000 in
/-- C6 counterexample: the aggregation pass marks an unchecked zero-indent
parent done once all its promoted children are done, so after a full parse
isDone is not equivalent to the bracket containing x/X: the unchecked
checkbox A ends up done. -/
theorem c6_counterexample_checkbox_mismatch :
    (mdParse 0 ["- [ ] A", "  - [x] B"]).map
        (fun st => st.tasks.map (fun t => (t.title, t.isDone))) =
      .ok [("A", true), ("B", true)] :=
  rfl

/-- C6 amended: a line matching the task pattern whose content parses
without raising appends exactly one task to the collection, and that
task's isDone is checkboxDone of the captured bracket, which is true on
[x] and [X] (after strip and lower) and false on [ ] or a missing
bracket.  A raising line is skipped entirely, and the later promotion and
aggregation passes can add tasks and set an unchecked parent done. -/
theorem c6_task_line_single_task (st : St) (line : String) (notes : String)
    (ws : List Char) (cb : Option (List Char)) (content : List Char)
    (info : TaskInfo)
    (hm : matchTaskLine line.data = some (ws, cb, content))
    (hp : parse_task_content ⟨content⟩ = .ok info) :
    (∃ st1 task, parse_markdown_line_with_notes st line notes = .ok st1 ∧
      st1.tasks = st.tasks ++ [task] ∧
      task.isDone = checkboxDone (cb.map (⟨·⟩))) ∧
    checkboxDone (some "[ ]") = false ∧ checkboxDone (some "[x]") = true ∧
    checkboxDone (some "[X]") = true ∧ checkboxDone none = false := by
  refine ⟨?_, by decide, by decide, by decide, rfl⟩
  unfold parse_markdown_line_with_notes handle_task_item_with_notes
  rw [hm]
  dsimp only
  rw [hp, exceptOk_bind]
  unfold create_task
  rw [hp, exceptOk_bind]
  obtain ⟨attIds, st1, hgen⟩ : ∃ a b, genIds info.attachments.length st = (a, b) :=
    ⟨_, _, rfl⟩
  rw [hgen]
  dsimp only
  obtain ⟨tid, st2, hgid⟩ : ∃ a b, genId st1 = (a, b) := ⟨_, _, rfl⟩
  rw [hgid]
  dsimp only
  obtain ⟨task4, st3, hassign⟩ : ∃ a b,
      assignProject none (withAttachments attIds info
        (finishDone (checkboxDone (cb.map (⟨·⟩)))
          (handle_explicit_time_spent
            (mkBaseTask info (some notes) (cb.map (⟨·⟩)) tid st2.now) info st2.now)))
        st2 = (a, b) := ⟨_, _, rfl⟩
  rw [hassign]
  dsimp only
  obtain ⟨task5, st4, hfold⟩ : ∃ a b,
      info.tags.foldl addTagStep (task4, st3) = (a, b) := ⟨_, _, rfl⟩
  rw [hfold]
  dsimp only
  rw [attachToParent_none_zero]
  rw [exceptPure_bind]
  dsimp only
  refine ⟨_, task5, rfl, ?_, ?_⟩
  · show st4.tasks ++ [task5] = st.tasks ++ [task5]
    have h1 : st1.tasks = st.tasks := by
      have h0 := genIds_tasks info.attachments.length st
      rw [hgen] at h0
      exact h0
    have h2 : st2.tasks = st1.tasks := by
      have h0 : (genId st1).2.tasks = st1.tasks := rfl
      rw [hgid] at h0
      exact h0
    have h3 : st3.tasks = st2.tasks := by
      have h0 := assignProject_snd_tasks none (withAttachments attIds info
        (finishDone (checkboxDone (cb.map (⟨·⟩)))
          (handle_explicit_time_spent
            (mkBaseTask info (some notes) (cb.map (⟨·⟩)) tid st2.now) info st2.now)))
        st2
      rw [hassign] at h0
      exact h0
    have h4 : st4.tasks = st3.tasks := by
      have h0 := foldl_preserve (fun acc : Task × St => acc.2.tasks = st3.tasks)
        addTagStep
        (fun x y hx => (addTagStep_snd_tasks x y).trans hx)
        info.tags (task4, st3) rfl
      rw [hfold] at h0
      exact h0
    rw [h4, h3, h2, h1]
  · have h5 : task5.isDone = task4.isDone := by
      have h0 := foldl_preserve (fun acc : Task × St => acc.1.isDone = task4.isDone)
        addTagStep
        (fun x y hx => ((addTagStep_core x y).2.2.2.1).trans hx)
        info.tags (task4, st3) rfl
      rw [hfold] at h0
      exact h0
    have h6 : task4.isDone = checkboxDone (cb.map (⟨·⟩)) := by
      have h0 := (assignProject_fst_core none (withAttachments attIds info
        (finishDone (checkboxDone (cb.map (⟨·⟩)))
          (handle_explicit_time_spent
            (mkBaseTask info (some notes) (cb.map (⟨·⟩)) tid st2.now) info st2.now)))
        st2).2.2.2.1
      rw [hassign] at h0
      dsimp only at h0
      rw [h0]
      show (finishDone (checkboxDone (cb.map (⟨·⟩)))
        (handle_explicit_time_spent
          (mkBaseTask info (some notes) (cb.map (⟨·⟩)) tid st2.now) info st2.now)).isDone =
        checkboxDone (cb.map (⟨·⟩))
      rw [finishDone_isDone, handle_explicit_isDone]
      rfl
    rw [h5, h6]

/-- C6 witness: the line - [x] T on the initial state, instantiating the
amended theorem. -/
theorem c6_task_line_single_task_witness :
    (matchTaskLine "- [x] T".data = some ([], some ['[', 'x', ']'], ['T']) ∧
     parse_task_content ⟨['T']⟩ = .ok c6wInfo) ∧
    ((∃ st1 task, parse_markdown_line_with_notes (initSt 0) "- [x] T" "" = .ok st1 ∧
        st1.tasks = (initSt 0).tasks ++ [task] ∧
        task.isDone = checkboxDone ((some ['[', 'x', ']']).map (⟨·⟩))) ∧
     checkboxDone (some "[ ]") = false ∧ checkboxDone (some "[x]") = true ∧
     checkboxDone (some "[X]") = true ∧ checkboxDone none = false) :=
  ⟨⟨rfl, rfl⟩,
    c6_task_line_single_task (initSt 0) "- [x] T" "" [] (some ['[', 'x', ']'])
      ['T'] c6wInfo rfl rfl⟩

/-! ## C4: link invariant through the promotion pass -/

theorem exceptErr_bind {e a b : Type} (x : e) (f : a → Except e b) :
    ((Except.error x : Except e a) >>= f) = Except.error x := rfl

theorem exceptFoldlM_inv {a b : Type} (P : b → Prop) (f : b → a → Except PyErr b)
    (hstep : ∀ x y r, P x → f x y = .ok r → P r) :
    ∀ (l : List a) (x : b) (r : b), P x → l.foldlM f x = .ok r → P r
  | [], x, r, hx, hok => by
      injection hok with h
      rw [← h]
      exact hx
  | y :: ys, x, r, hx, hok => by
      rw [List.foldlM_cons] at hok
      cases hfy : f x y with
      | error err =>
          rw [hfy, exceptErr_bind] at hok
          exact absurd hok (by intro h; injection h)
      | ok x2 =>
          rw [hfy, exceptOk_bind] at hok
          exact exceptFoldlM_inv P f hstep ys x2 r (hstep x y x2 hx hfy) hok

theorem genIds_nextId (n : Nat) : ∀ s : St, (genIds n s).2.nextId = s.nextId + n := by
  induction n with
  | zero => intro s; rfl
  | succ k ih =>
      intro s
      show (genIds k { s with nextId := s.nextId + 1 }).2.nextId = s.nextId + (k + 1)
      rw [ih]
      show s.nextId + 1 + k = s.nextId + (k + 1)
      omega

theorem gocg_nextId_mono (name : String) (s : St) :
    s.nextId ≤ (get_or_create_tag name s).2.nextId := by
  unfold get_or_create_tag
  split
  · exact Nat.le_refl _
  · dsimp only
    cases hf : s.tags.find? (fun t => t.title = name) with
    | some t => exact Nat.le_refl _
    | none => exact Nat.le_succ _

theorem addTagStep_nextId_mono (acc : Task × St) (name : String) :
    acc.2.nextId ≤ (addTagStep acc name).2.nextId := by
  unfold addTagStep
  cases hg : get_or_create_tag name acc.2 with
  | mk tagOpt stt =>
    have h2 : acc.2.nextId ≤ stt.nextId := by
      have h3 := gocg_nextId_mono name acc.2
      rw [hg] at h3
      exact h3
    cases tagOpt with
    | some tag => exact h2
    | none => exact h2

theorem add_time_link (t : Task) :
    (add_time_spent_for_completed_task t).id = t.id ∧
    (add_time_spent_for_completed_task t).parentId = t.parentId ∧
    (add_time_spent_for_completed_task t).subTaskIds = t.subTaskIds := by
  unfold add_time_spent_for_completed_task
  split <;> exact ⟨rfl, rfl, rfl⟩

theorem handle_explicit_link (t : Task) (i : TaskInfo) (n : Int) :
    (handle_explicit_time_spent t i n).id = t.id ∧
    (handle_explicit_time_spent t i n).parentId = t.parentId ∧
    (handle_explicit_time_spent t i n).subTaskIds = t.subTaskIds := by
  unfold handle_explicit_time_spent
  split
  · split <;> exact ⟨rfl, rfl, rfl⟩
  · exact ⟨rfl, rfl, rfl⟩

theorem finishDone_link (b : Bool) (t : Task) :
    (finishDone b t).id = t.id ∧ (finishDone b t).parentId = t.parentId ∧
    (finishDone b t).subTaskIds = t.subTaskIds := by
  unfold finishDone
  split
  · dsimp only
    split
    · exact ⟨(add_time_link _).1, (add_time_link _).2.1, (add_time_link _).2.2⟩
    · exact ⟨rfl, rfl, rfl⟩
  · exact ⟨rfl, rfl, rfl⟩

theorem addTagStep_link (acc : Task × St) (name : String) :
    (addTagStep acc name).1.id = acc.1.id ∧
    (addTagStep acc name).1.parentId = acc.1.parentId ∧
    (addTagStep acc name).1.subTaskIds = acc.1.subTaskIds := by
  unfold addTagStep
  cases hg : get_or_create_tag name acc.2 with
  | mk tagOpt stt =>
    cases tagOpt with
    | some tag => exact ⟨rfl, rfl, rfl⟩
    | none => exact ⟨rfl, rfl, rfl⟩

theorem assignProject_some (pid : Nat) (t : Task) (s : St) :
    assignProject (some pid) t s = (t, s) := rfl

theorem attachToParent_some (pid : Nat) (ind : Nat) (s : St) (t : Task) :
    attachToParent (some pid) ind s t =
      match s.tasks.find? (fun x => x.id = pid) with
      | some parent =>
        ({ s with
            tasks := (updTask s.tasks pid
              (fun _ => (establish_parent_child_relationship parent t).1)) },
          (establish_parent_child_relationship parent t).2)
      | none => (s, t) := rfl

theorem create_task_subtask_spec (content : String) (cb notes : Option String)
    (pid : Nat) (st : St) (info : TaskInfo) (st1 : St) (c : Task)
    (hp : parse_task_content content = .ok info)
    (hr : create_task content cb notes (some pid) 0 st = .ok (st1, c)) :
    st.nextId ≤ c.id ∧ c.id < st1.nextId ∧ c.subTaskIds = [] ∧
    ((∃ parent, st.tasks.find? (fun t => t.id = pid) = some parent ∧
        c.parentId = some parent.id ∧
        st1.tasks = st.tasks.map (fun q => if q.id = pid
          then { parent with subTaskIds := parent.subTaskIds ++ [c.id] } else q)) ∨
      (st.tasks.find? (fun t => t.id = pid) = none ∧ c.parentId = none ∧
        st1.tasks = st.tasks)) := by
  unfold create_task at hr
  rw [hp, exceptOk_bind] at hr
  obtain ⟨attIds, sta, hgen⟩ : ∃ a b, genIds info.attachments.length st = (a, b) :=
    ⟨_, _, rfl⟩
  rw [hgen] at hr
  dsimp only at hr
  obtain ⟨tid, st2, hgid⟩ : ∃ a b, genId sta = (a, b) := ⟨_, _, rfl⟩
  rw [hgid] at hr
  dsimp only at hr
  rw [assignProject_some] at hr
  dsimp only at hr
  obtain ⟨task5, st4, hfold⟩ : ∃ a b,
      info.tags.foldl addTagStep
        (withAttachments attIds info
          (finishDone (checkboxDone cb)
            (handle_explicit_time_spent (mkBaseTask info notes cb tid st2.now)
              info st2.now)), st2) = (a, b) := ⟨_, _, rfl⟩
  rw [hfold] at hr
  dsimp only at hr
  rw [attachToParent_some] at hr
  -- shared facts
  have hsta_tasks : sta.tasks = st.tasks := by
    have h0 := genIds_tasks info.attachments.length st
    rw [hgen] at h0
    exact h0
  have hsta_next : sta.nextId = st.nextId + info.attachments.length := by
    have h0 := genIds_nextId info.attachments.length st
    rw [hgen] at h0
    exact h0
  have htid : tid = sta.nextId := by
    have h0 : (genId sta).1 = sta.nextId := rfl
    rw [hgid] at h0
    dsimp only at h0
    exact h0
  have hst2_next : st2.nextId = sta.nextId + 1 := by
    have h0 : (genId sta).2.nextId = sta.nextId + 1 := rfl
    rw [hgid] at h0
    dsimp only at h0
    exact h0
  have hst2_tasks : st2.tasks = sta.tasks := by
    have h0 : (genId sta).2.tasks = sta.tasks := rfl
    rw [hgid] at h0
    dsimp only at h0
    exact h0
  have hst4_tasks : st4.tasks = st.tasks := by
    have h0 := foldl_preserve (fun acc : Task × St => acc.2.tasks = st.tasks)
      addTagStep
      (fun x y hx => (addTagStep_snd_tasks x y).trans hx)
      info.tags (withAttachments attIds info
          (finishDone (checkboxDone cb)
            (handle_explicit_time_spent (mkBaseTask info notes cb tid st2.now)
              info st2.now)), st2)
      (by show st2.tasks = st.tasks; rw [hst2_tasks, hsta_tasks])
    rw [hfold] at h0
    exact h0
  have hst4_next : st2.nextId ≤ st4.nextId := by
    have h0 := foldl_preserve (fun acc : Task × St => st2.nextId ≤ acc.2.nextId)
      addTagStep
      (fun x y hx => Nat.le_trans hx (addTagStep_nextId_mono x y))
      info.tags (withAttachments attIds info
          (finishDone (checkboxDone cb)
            (handle_explicit_time_spent (mkBaseTask info notes cb tid st2.now)
              info st2.now)), st2)
      (Nat.le_refl _)
    rw [hfold] at h0
    exact h0
  have h5 : task5.id = tid ∧ task5.parentId = none ∧ task5.subTaskIds = [] := by
    have h0 := foldl_preserve (fun acc : Task × St =>
        acc.1.id = tid ∧ acc.1.parentId = none ∧ acc.1.subTaskIds = [])
      addTagStep
      (fun x y hx => ⟨((addTagStep_link x y).1).trans hx.1,
        ((addTagStep_link x y).2.1).trans hx.2.1,
        ((addTagStep_link x y).2.2).trans hx.2.2⟩)
      info.tags (withAttachments attIds info
          (finishDone (checkboxDone cb)
            (handle_explicit_time_spent (mkBaseTask info notes cb tid st2.now)
              info st2.now)), st2)
      (by
        refine ⟨?_, ?_, ?_⟩
        · show (finishDone (checkboxDone cb)
            (handle_explicit_time_spent (mkBaseTask info notes cb tid st2.now)
              info st2.now)).id = tid
          rw [(finishDone_link _ _).1, (handle_explicit_link _ _ _).1]
          rfl
        · show (finishDone (checkboxDone cb)
            (handle_explicit_time_spent (mkBaseTask info notes cb tid st2.now)
              info st2.now)).parentId = none
          rw [(finishDone_link _ _).2.1, (handle_explicit_link _ _ _).2.1]
          rfl
        · show (finishDone (checkboxDone cb)
            (handle_explicit_time_spent (mkBaseTask info notes cb tid st2.now)
              info st2.now)).subTaskIds = []
          rw [(finishDone_link _ _).2.2, (handle_explicit_link _ _ _).2.2]
          rfl)
    rw [hfold] at h0
    exact h0
  cases hfind : st.tasks.find? (fun t => t.id = pid) with
  | some parent =>
    rw [hst4_tasks, hfind] at hr
    dsimp only at hr
    injection hr with h1
    have hst1 : ({ st4 with
        tasks := (updTask st.tasks pid
          (fun _ => (establish_parent_child_relationship parent task5).1)) } : St) =
        st1 :=
      congrArg Prod.fst h1
    have htask : (establish_parent_child_relationship parent task5).2 = c :=
      congrArg Prod.snd h1
    have hcid : c.id = task5.id := by rw [← htask]; rfl
    have hcpar : c.parentId = some parent.id := by rw [← htask]; rfl
    have hcsub : c.subTaskIds = task5.subTaskIds := by rw [← htask]; rfl
    have hn1 : st1.nextId = st4.nextId := by rw [← hst1]
    refine ⟨?_, ?_, ?_, Or.inl ⟨parent, rfl, hcpar, ?_⟩⟩
    · rw [hcid, h5.1, htid, hsta_next]
      omega
    · rw [hcid, h5.1, hn1, htid]
      omega
    · rw [hcsub, h5.2.2]
    · rw [hcid]
      rw [← hst1]
      show updTask st.tasks pid
        (fun _ => (establish_parent_child_relationship parent task5).1) = _
      rfl
  | none =>
    rw [hst4_tasks, hfind] at hr
    dsimp only at hr
    injection hr with h1
    have hst1 : st4 = st1 := congrArg Prod.fst h1
    have htask : task5 = c := congrArg Prod.snd h1
    refine ⟨?_, ?_, ?_, Or.inr ⟨rfl, ?_, ?_⟩⟩
    · rw [← htask, h5.1, htid, hsta_next]
      omega
    · rw [← htask, h5.1, ← hst1, htid]
      omega
    · rw [← htask, h5.2.2]
    · rw [← htask, h5.2.1]
    · rw [← hst1, hst4_tasks]

theorem map_map_eq {a b : Type} (g : a → a) (f : a → b) (h : ∀ x, f (g x) = f x) :
    ∀ l : List a, (l.map g).map f = l.map f
  | [] => rfl
  | x :: xs => by rw [List.map_cons, List.map_cons, List.map_cons, h x,
      map_map_eq g f h xs]

theorem inv_attach (L : List Task) (n n' : Nat) (parent : Task) (pid : Nat) (c : Task)
    (hnd : (L.map Task.id).Nodup)
    (hb : ∀ t ∈ L, t.id < n ∧ (∀ i ∈ t.subTaskIds, i < n) ∧
      (∀ j, t.parentId = some j → j < n))
    (hli : linkInv L)
    (hpar : parent ∈ L) (hpid : parent.id = pid)
    (hcid : n ≤ c.id) (hcid2 : c.id < n') (hn : n ≤ n')
    (hcsub : c.subTaskIds = []) (hcpar : c.parentId = some pid) :
    (((L.map (fun q => if q.id = pid then
        { parent with subTaskIds := parent.subTaskIds ++ [c.id] } else q) ++ [c]).map
      Task.id).Nodup) ∧
    (∀ t ∈ L.map (fun q => if q.id = pid then
        { parent with subTaskIds := parent.subTaskIds ++ [c.id] } else q) ++ [c],
      t.id < n' ∧ (∀ i ∈ t.subTaskIds, i < n') ∧
      (∀ j, t.parentId = some j → j < n')) ∧
    linkInv (L.map (fun q => if q.id = pid then
        { parent with subTaskIds := parent.subTaskIds ++ [c.id] } else q) ++ [c]) := by
  have hgid : ∀ q : Task, (if q.id = pid then
      { parent with subTaskIds := parent.subTaskIds ++ [c.id] } else q).id = q.id := by
    intro q
    by_cases h : q.id = pid
    · rw [if_pos h]
      show parent.id = q.id
      rw [hpid, h]
    · rw [if_neg h]
  have hgpar : ∀ q ∈ L, (if q.id = pid then
      { parent with subTaskIds := parent.subTaskIds ++ [c.id] } else q).parentId =
      q.parentId := by
    intro q hq
    by_cases h : q.id = pid
    · have hqp : q = parent :=
        List.inj_on_of_nodup_map hnd hq hpar (by rw [h, hpid])
      rw [if_pos h, hqp]
    · rw [if_neg h]
  have hgsub : ∀ q ∈ L, (if q.id = pid then
      { parent with subTaskIds := parent.subTaskIds ++ [c.id] } else q).subTaskIds =
        q.subTaskIds ∨
      ((if q.id = pid then
        { parent with subTaskIds := parent.subTaskIds ++ [c.id] } else q).subTaskIds =
        q.subTaskIds ++ [c.id] ∧ q = parent) := by
    intro q hq
    by_cases h : q.id = pid
    · have hqp : q = parent :=
        List.inj_on_of_nodup_map hnd hq hpar (by rw [h, hpid])
      right
      rw [if_pos h, hqp]
      exact ⟨rfl, rfl⟩
    · left
      rw [if_neg h]
  have hLid : ((L.map (fun q : Task => if q.id = pid then
      { parent with subTaskIds := parent.subTaskIds ++ [c.id] } else q)).map Task.id) =
      L.map Task.id := map_map_eq _ _ hgid L
  have hmem : ∀ q' ∈ L.map (fun q : Task => if q.id = pid then
      { parent with subTaskIds := parent.subTaskIds ++ [c.id] } else q) ++ [c],
      q' = c ∨ ∃ q ∈ L, (if q.id = pid then
        { parent with subTaskIds := parent.subTaskIds ++ [c.id] } else q) = q' := by
    intro q' hq'
    rcases List.mem_append.mp hq' with h | h
    · obtain ⟨q, hq, hqe⟩ := List.mem_map.mp h
      exact Or.inr ⟨q, hq, hqe⟩
    · simp at h
      exact Or.inl h
  refine ⟨?_, ?_, ?_⟩
  · rw [List.map_append, hLid]
    rw [List.nodup_append]
    refine ⟨hnd, by simp, ?_⟩
    intro a ha hac
    simp at hac
    obtain ⟨t, ht, hte⟩ := List.mem_map.mp ha
    have := (hb t ht).1
    omega
  · intro t ht
    rcases hmem t ht with heq | ⟨q, hq, rfl⟩
    · rw [heq]
      refine ⟨hcid2, ?_, ?_⟩
      · rw [hcsub]; intro i hi; simp at hi
      · rw [hcpar]
        intro j hj
        injection hj with hj2
        have := (hb parent hpar).1
        omega
    · by_cases h : q.id = pid
      · rw [if_pos h]
        refine ⟨?_, ?_, ?_⟩
        · show parent.id < n'
          have := (hb parent hpar).1
          omega
        · intro i hi
          show i < n'
          rcases List.mem_append.mp hi with h2 | h2
          · have := (hb parent hpar).2.1 i h2
            omega
          · simp at h2
            omega
        · intro j hj
          have := (hb parent hpar).2.2 j hj
          omega
      · rw [if_neg h]
        have h2 := hb q hq
        exact ⟨by omega, fun i hi => by have := h2.2.1 i hi; omega,
          fun j hj => by have := h2.2.2 j hj; omega⟩
  · intro c0 hc0 p0 hp0
    rcases hmem c0 hc0 with heq0 | ⟨q0, hq0, rfl⟩
    · rw [heq0]
      rcases hmem p0 hp0 with heq1 | ⟨q1, hq1, rfl⟩
      · rw [heq1]
        rw [hcpar, hcsub]
        constructor
        · intro h
          injection h with h2
          have := (hb parent hpar).1
          rw [hpid] at this
          omega
        · intro h
          simp at h
      · rw [hcpar, hgid q1]
        by_cases h : q1.id = pid
        · have hqp : q1 = parent :=
            List.inj_on_of_nodup_map hnd hq1 hpar (by rw [h, hpid])
          rw [if_pos h, hqp]
          constructor
          · intro _
            show c.id ∈ parent.subTaskIds ++ [c.id]
            simp
          · intro _
            rw [hpid]
        · rw [if_neg h]
          constructor
          · intro h2
            injection h2 with h3
            exact absurd h3.symm h
          · intro h2
            have := (hb q1 hq1).2.1 c.id h2
            omega
    · rcases hmem p0 hp0 with heq1 | ⟨q1, hq1, rfl⟩
      · rw [heq1]
        rw [hgpar q0 hq0, hgid q0, hcsub]
        constructor
        · intro h
          have := (hb q0 hq0).2.2 c.id h
          omega
        · intro h
          simp at h
      · rw [hgpar q0 hq0, hgid q0, hgid q1]
        rcases hgsub q1 hq1 with h | ⟨h, hqp⟩
        · rw [h]
          exact hli q0 hq0 q1 hq1
        · rw [h]
          constructor
          · intro h2
            exact List.mem_append_left _ ((hli q0 hq0 q1 hq1).mp h2)
          · intro h2
            rcases List.mem_append.mp h2 with h3 | h3
            · exact (hli q0 hq0 q1 hq1).mpr h3
            · simp at h3
              have := (hb q0 hq0).1
              omega

theorem inv_append_orphan (L : List Task) (n n' : Nat) (c : Task)
    (hnd : (L.map Task.id).Nodup)
    (hb : ∀ t ∈ L, t.id < n ∧ (∀ i ∈ t.subTaskIds, i < n) ∧
      (∀ j, t.parentId = some j → j < n))
    (hli : linkInv L)
    (hcid : n ≤ c.id) (hcid2 : c.id < n') (hn : n ≤ n')
    (hcsub : c.subTaskIds = []) (hcpar : c.parentId = none) :
    (((L ++ [c]).map Task.id).Nodup) ∧
    (∀ t ∈ L ++ [c], t.id < n' ∧ (∀ i ∈ t.subTaskIds, i < n') ∧
      (∀ j, t.parentId = some j → j < n')) ∧
    linkInv (L ++ [c]) := by
  refine ⟨?_, ?_, ?_⟩
  · rw [List.map_append, List.nodup_append]
    refine ⟨hnd, by simp, ?_⟩
    intro a ha hac
    simp at hac
    obtain ⟨t, ht, hte⟩ := List.mem_map.mp ha
    have := (hb t ht).1
    omega
  · intro t ht
    rcases List.mem_append.mp ht with h | h
    · have h2 := hb t h
      exact ⟨by omega, fun i hi => by have := h2.2.1 i hi; omega,
        fun j hj => by have := h2.2.2 j hj; omega⟩
    · simp at h
      rw [h]
      refine ⟨hcid2, ?_, ?_⟩
      · rw [hcsub]; intro i hi; simp at hi
      · rw [hcpar]; intro j hj; injection hj
  · intro c0 hc0 p0 hp0
    rcases List.mem_append.mp hc0 with h0 | h0
    · rcases List.mem_append.mp hp0 with h1 | h1
      · exact hli c0 h0 p0 h1
      · simp at h1
        rw [h1, hcsub]
        constructor
        · intro h
          have := (hb c0 h0).2.2 c.id h
          omega
        · intro h
          simp at h
    · simp at h0
      rw [h0, hcpar]
      rcases List.mem_append.mp hp0 with h1 | h1
      · constructor
        · intro h
          injection h
        · intro h
          have := (hb p0 h1).2.1 c.id h
          omega
      · simp at h1
        rw [h1, hcsub]
        constructor
        · intro h
          injection h
        · intro h
          simp at h

theorem exceptBind_ok {e a b : Type} (m : Except e a) (f : a → Except e b) (r : b)
    (h : (m >>= f) = .ok r) : ∃ v, m = .ok v ∧ f v = .ok r := by
  cases m with
  | error err =>
      rw [exceptErr_bind] at h
      exact absurd h (by intro h2; injection h2)
  | ok v => exact ⟨v, rfl, by rw [exceptOk_bind] at h; exact h⟩

theorem create_task_parse_ok (content : String) (cb notes : Option String)
    (p : Option Nat) (i : Nat) (st : St) (r : St × Task)
    (h : create_task content cb notes p i st = .ok r) :
    ∃ info, parse_task_content content = .ok info := by
  unfold create_task at h
  obtain ⟨info, hinfo, _⟩ := exceptBind_ok _ _ _ h
  exact ⟨info, hinfo⟩

theorem subtask_block_step (b : List String) (pid : Nat) (st : St)
    (pending : List Task) (st' : St) (sub : Option Task)
    (hI : stInv { st with tasks := st.tasks ++ pending })
    (hok : create_subtask_from_lines b pid st = .ok (st', sub)) :
    (sub = none ∧ st' = st) ∨
    (∃ x, sub = some x ∧
      stInv { st' with tasks := st'.tasks ++ (pending ++ [x]) }) := by
  unfold create_subtask_from_lines at hok
  cases b with
  | nil =>
      dsimp only at hok
      injection hok with h
      injection h with h1 h2
      exact Or.inl ⟨h2.symm, h1.symm⟩
  | cons first rest =>
      dsimp only at hok
      split at hok
      case h_2 =>
          injection hok with h
          injection h with h1 h2
          exact Or.inl ⟨h2.symm, h1.symm⟩
      case h_1 ws cb content =>
          obtain ⟨⟨stx, c⟩, hct, hret⟩ := exceptBind_ok _ _ _ hok
          dsimp only at hret
          injection hret with h
          injection h with h1 h2
          obtain ⟨info, hinfo⟩ := create_task_parse_ok _ _ _ _ _ _ _ hct
          obtain ⟨hcid, hcid2, hcsub, hrest⟩ :=
            create_task_subtask_spec _ _ _ _ _ _ _ _ hinfo hct
          obtain ⟨hnd, hb, hli⟩ := hI
          have hnd2 : ((st.tasks ++ pending).map Task.id).Nodup := hnd
          have hb2 : ∀ t ∈ st.tasks ++ pending, t.id < st.nextId ∧
              (∀ i ∈ t.subTaskIds, t.id < st.nextId → True) ∧ True := fun t ht =>
            ⟨(hb t ht).1, fun i hi _ => trivial, trivial⟩
          refine Or.inr ⟨c, h2.symm, ?_⟩
          rw [← h1]
          have hn : st.nextId ≤ stx.nextId := Nat.le_trans hcid (Nat.le_of_lt hcid2)
          rcases hrest with ⟨parent, hfind, hcpar, htasks⟩ | ⟨hfindn, hcparn, htasks⟩
          · have hparmem : parent ∈ st.tasks := List.mem_of_find?_eq_some hfind
            have hpid : parent.id = pid := by simpa using List.find?_some hfind
            have hpendfix : pending.map (fun q : Task => if q.id = pid then
                { parent with subTaskIds := parent.subTaskIds ++ [c.id] } else q) =
                pending := by
              apply map_fix
              intro p0 hp0
              have hne : p0.id ≠ pid := by
                intro he
                have hp0L : p0 ∈ st.tasks ++ pending := List.mem_append_right _ hp0
                have hparL : parent ∈ st.tasks ++ pending :=
                  List.mem_append_left _ hparmem
                have : p0 = parent :=
                  List.inj_on_of_nodup_map hnd hp0L hparL (by rw [he, hpid])
                rw [List.map_append, List.nodup_append] at hnd
                exact hnd.2.2 (List.mem_map_of_mem Task.id hparmem)
                  (by rw [← this]; exact List.mem_map_of_mem Task.id hp0)
              rw [if_neg hne]
            have hattach := inv_attach (st.tasks ++ pending) st.nextId stx.nextId
              parent pid c hnd (fun t ht => hb t ht) hli
              (List.mem_append_left _ hparmem) hpid hcid hcid2 hn hcsub
              (by rw [hcpar, hpid])
            have hlist : (st.tasks ++ pending).map (fun q : Task => if q.id = pid then
                { parent with subTaskIds := parent.subTaskIds ++ [c.id] } else q) ++ [c] =
                stx.tasks ++ (pending ++ [c]) := by
              rw [List.map_append, hpendfix, htasks, List.append_assoc]
            rw [hlist] at hattach
            exact ⟨hattach.1, hattach.2.1, hattach.2.2⟩
          · have happ := inv_append_orphan (st.tasks ++ pending) st.nextId stx.nextId
              c hnd (fun t ht => hb t ht) hli hcid hcid2 hn hcsub hcparn
            have hlist : (st.tasks ++ pending) ++ [c] = stx.tasks ++ (pending ++ [c]) := by
              rw [htasks, List.append_assoc]
            rw [hlist] at happ
            exact ⟨happ.1, happ.2.1, happ.2.2⟩

theorem stInv_map_pres (s : St) (g : Task → Task)
    (hg : ∀ t, (g t).id = t.id ∧ (g t).parentId = t.parentId ∧
      (g t).subTaskIds = t.subTaskIds)
    (h : stInv s) : stInv { s with tasks := s.tasks.map g } := by
  obtain ⟨hnd, hb, hli⟩ := h
  refine ⟨?_, ?_, ?_⟩
  · show ((s.tasks.map g).map Task.id).Nodup
    rw [map_map_eq g Task.id (fun t => (hg t).1)]
    exact hnd
  · intro t ht
    obtain ⟨q, hq, rfl⟩ := List.mem_map.mp ht
    have h2 := hb q hq
    rw [(hg q).1, (hg q).2.1, (hg q).2.2]
    exact h2
  · intro c0 hc0 p0 hp0
    obtain ⟨q0, hq0, rfl⟩ := List.mem_map.mp hc0
    obtain ⟨q1, hq1, rfl⟩ := List.mem_map.mp hp0
    rw [(hg q0).1, (hg q0).2.1, (hg q1).1, (hg q1).2.2]
    exact hli q0 hq0 q1 hq1

theorem processOneTask_inv (st : St) (tid : Nat) (st' : St)
    (hI : stInv st) (hok : processOneTask st tid = .ok st') : stInv st' := by
  unfold processOneTask at hok
  cases hfind : st.tasks.find? (fun t => t.id = tid) with
  | none =>
      rw [hfind] at hok
      dsimp only at hok
      injection hok with h
      rw [← h]
      exact hI
  | some t =>
      rw [hfind] at hok
      dsimp only at hok
      by_cases hnt : notesTruthy t.notes = true
      · rw [if_pos hnt] at hok
        obtain ⟨r, hfoldok, hrest⟩ := exceptBind_ok _ _ _ hok
        have hP0 : stInv { st with tasks := st.tasks ++ ([] : List Task) } := by
          rw [List.append_nil]
          exact hI
        have hPr : stInv { r.1 with tasks := r.1.tasks ++ r.2 } := by
          have h0 := exceptFoldlM_inv
            (fun acc : St × List Task => stInv { acc.1 with tasks := acc.1.tasks ++ acc.2 })
            _
            (fun acc b r2 hacc hstep => by
              obtain ⟨⟨stx, sub⟩, hcs, hret⟩ := exceptBind_ok _ _ _ hstep
              rcases subtask_block_step b tid acc.1 acc.2 stx sub hacc hcs with
                ⟨hs1, hs2⟩ | ⟨x, hs1, hs2⟩
              · rw [hs1] at hret
                dsimp only at hret
                injection hret with h
                rw [← h, hs2]
                exact hacc
              · rw [hs1] at hret
                dsimp only at hret
                injection hret with h
                rw [← h]
                exact hs2)
            _ (st, ([] : List Task)) r hP0 hfoldok
          exact h0
        by_cases hr2 : r.2 ≠ []
        · rw [if_pos hr2] at hrest
          injection hrest with h
          rw [← h]
          exact stInv_map_pres _ _
            (fun tk => by
              by_cases he : tk.id = tid
              · rw [if_pos he]; exact ⟨rfl, rfl, rfl⟩
              · rw [if_neg he]; exact ⟨rfl, rfl, rfl⟩)
            hPr
        · rw [if_neg hr2] at hrest
          injection hrest with h
          rw [← h]
          push_neg at hr2
          rw [hr2, List.append_nil] at hPr
          exact hPr
      · rw [if_neg hnt] at hok
        injection hok with h
        rw [← h]
        exact hI

/-- C4: on a well-formed state, the promotion pass preserves the mutual
parent/child back-reference: in its output, a task's parentId points at a
task exactly when its id is in that task's subtask list, and the parent
with the back-reference is unique. -/
theorem c4_promotion_link_invariant (st st' : St)
    (hI : stInv st) (hok : process_notes_for_subtasks st = .ok st') :
    (∀ c ∈ st'.tasks, ∀ p ∈ st'.tasks,
      (c.parentId = some p.id ↔ c.id ∈ p.subTaskIds)) ∧
    (∀ c ∈ st'.tasks, ∀ p ∈ st'.tasks, ∀ q ∈ st'.tasks,
      c.id ∈ p.subTaskIds → c.id ∈ q.subTaskIds → p = q) := by
  have hI2 : stInv st' := by
    unfold process_notes_for_subtasks at hok
    exact exceptFoldlM_inv stInv processOneTask
      (fun x y r hx hr => processOneTask_inv x y r hx hr)
      (st.tasks.map (·.id)) st st' hI hok
  obtain ⟨hnd, hb, hli⟩ := hI2
  refine ⟨hli, ?_⟩
  intro c hc p hp q hq hcp hcq
  have h1 : c.parentId = some p.id := (hli c hc p hp).mpr hcp
  have h2 : c.parentId = some q.id := (hli c hc q hq).mpr hcq
  rw [h1] at h2
  injection h2 with h3
  exact List.inj_on_of_nodup_map hnd hp hq h3

/-- C4 witness: the promoted-subtask scenario (task A whose notes hold the
checkbox line B), instantiating the invariant theorem. -/
theorem c4_promotion_link_invariant_witness :
    (stInv c4wSt ∧ process_notes_for_subtasks c4wSt = .ok c4wSt2) ∧
    ((∀ c ∈ c4wSt2.tasks, ∀ p ∈ c4wSt2.tasks,
        (c.parentId = some p.id ↔ c.id ∈ p.subTaskIds)) ∧
      (∀ c ∈ c4wSt2.tasks, ∀ p ∈ c4wSt2.tasks, ∀ q ∈ c4wSt2.tasks,
        c.id ∈ p.subTaskIds → c.id ∈ q.subTaskIds → p = q)) :=
  ⟨⟨by decide, rfl⟩, c4_promotion_link_invariant c4wSt c4wSt2 (by decide) rfl⟩

/-! ## C3 and C7: merge machinery -/

theorem relExt_refl (s : List Nat) (e : Nat × PEnt) : relExt s e e :=
  ⟨rfl, rfl, rfl, [], (List.append_nil _).symm, fun i hi => absurd hi (by simp)⟩

theorem relExt_trans (s : List Nat) (a b c : Nat × PEnt)
    (h1 : relExt s a b) (h2 : relExt s b c) : relExt s a c := by
  obtain ⟨hk1, ht1, hr1, e1, he1, hm1⟩ := h1
  obtain ⟨hk2, ht2, hr2, e2, he2, hm2⟩ := h2
  refine ⟨hk2.trans hk1, ht2.trans ht1, hr2.trans hr1, e1 ++ e2, ?_, ?_⟩
  · rw [he2, he1, List.append_assoc]
  · intro i hi
    rcases List.mem_append.mp hi with h | h
    · exact hm1 i h
    · exact hm2 i h

theorem forall2_trans {a : Type} {R : a → a → Prop}
    (hT : ∀ x y z, R x y → R y z → R x z) :
    ∀ {l1 l2 : List a}, List.Forall₂ R l1 l2 → ∀ {l3 : List a},
      List.Forall₂ R l2 l3 → List.Forall₂ R l1 l3 := by
  intro l1 l2 h12
  induction h12 with
  | nil =>
      intro l3 h23
      cases h23
      exact List.Forall₂.nil
  | cons hab h2 ih =>
      intro l3 h23
      cases h23 with
      | cons hbc h3 => exact List.Forall₂.cons (hT _ _ _ hab hbc) (ih h3)

theorem forall2_map_self {a : Type} {R : a → a → Prop} (g : a → a)
    (l : List a) (h : ∀ x ∈ l, R x (g x)) : List.Forall₂ R l (l.map g) := by
  rw [List.forall₂_map_right_iff]
  exact List.forall₂_same.mpr h

theorem forall2_keys_eq {s : List Nat} :
    ∀ {l1 l2 : List (Nat × PEnt)}, List.Forall₂ (relExt s) l1 l2 →
      l2.map (·.1) = l1.map (·.1) := by
  intro l1 l2 h
  induction h with
  | nil => rfl
  | cons hab _ ih => simp only [List.map_cons, hab.1, ih]

theorem forall2_append_split {a : Type} {R : a → a → Prop} :
    ∀ {l1 l2 : List a} {l : List a}, List.Forall₂ R (l1 ++ l2) l →
      ∃ m1 m2, l = m1 ++ m2 ∧ List.Forall₂ R l1 m1 ∧ List.Forall₂ R l2 m2 := by
  intro l1
  induction l1 with
  | nil =>
      intro l2 l h
      exact ⟨[], l, rfl, List.Forall₂.nil, h⟩
  | cons x xs ih =>
      intro l2 l h
      cases h with
      | cons hx h2 =>
          obtain ⟨m1, m2, rfl, ha, hb⟩ := ih h2
          exact ⟨_ :: m1, m2, rfl, List.Forall₂.cons hx ha, hb⟩

theorem titleIndex_mem (ents : List (Nat × PEnt)) (title : String) :
    ∀ (acc : Option Nat) (k : Nat),
      ents.foldl (fun acc e => if e.2.title = title then some e.1 else acc) acc =
        some k →
      (∃ e ∈ ents, e.1 = k ∧ e.2.title = title) ∨ acc = some k := by
  induction ents with
  | nil =>
      intro acc k h
      exact Or.inr h
  | cons e es ih =>
      intro acc k h
      rw [List.foldl_cons] at h
      rcases ih _ k h with ⟨e2, he2, hk, ht⟩ | hacc
      · exact Or.inl ⟨e2, by simp [he2], hk, ht⟩
      · by_cases he : e.2.title = title
        · rw [if_pos he] at hacc
          injection hacc with h2
          exact Or.inl ⟨e, by simp, h2, he⟩
        · rw [if_neg he] at hacc
          exact Or.inr hacc

theorem titleIndex_mem_main (ents : List (Nat × PEnt)) (title : String) (k : Nat)
    (h : titleIndex ents title = some k) : ∃ e ∈ ents, e.1 = k ∧ e.2.title = title := by
  rcases titleIndex_mem ents title none k h with h2 | h2
  · exact h2
  · exact absurd h2 (by intro h3; injection h3)

theorem pyDictUpdate_base_mem {b : Type} (base upd : List (Nat × b)) (e : Nat × b)
    (hmem : e ∈ base) (hnone : upd.find? (fun q => q.1 = e.1) = none) :
    e ∈ pyDictUpdate base upd := by
  unfold pyDictUpdate
  apply List.mem_append_left
  apply List.mem_map.mpr
  refine ⟨e, hmem, ?_⟩
  dsimp only
  rw [hnone]

theorem pyDictUpdate_key_base {b : Type} (base upd : List (Nat × b)) (k : Nat)
    (hk : k ∈ base.map (·.1)) : k ∈ (pyDictUpdate base upd).map (·.1) := by
  unfold pyDictUpdate
  rw [List.map_append, List.map_map]
  apply List.mem_append_left
  obtain ⟨e, he, rfl⟩ := List.mem_map.mp hk
  apply List.mem_map.mpr
  refine ⟨e, he, ?_⟩
  dsimp only [Function.comp]
  cases hf : upd.find? (fun q => q.1 = e.1) with
  | some q => rfl
  | none => rfl

theorem pyDictUpdate_key_upd {b : Type} (base upd : List (Nat × b)) (k : Nat)
    (hk : k ∈ upd.map (·.1)) : k ∈ (pyDictUpdate base upd).map (·.1) := by
  by_cases hb2 : base.any (fun p => p.1 = k) = true
  · obtain ⟨e, he, hke⟩ := List.any_eq_true.mp hb2
    have hke2 : e.1 = k := by simpa using hke
    rw [← hke2]
    exact pyDictUpdate_key_base base upd e.1 (List.mem_map_of_mem _ he)
  · unfold pyDictUpdate
    rw [List.map_append]
    apply List.mem_append_right
    obtain ⟨q, hq, hq1⟩ := List.mem_map.mp hk
    rw [← hq1]
    apply List.mem_map_of_mem
    apply List.mem_filter.mpr
    refine ⟨hq, ?_⟩
    rw [hq1]
    cases hb : base.any (fun p => p.1 = k) with
    | true => exact absurd hb hb2
    | false => rfl

theorem prepare_tasks (st : St) : (prepare_for_merge st).tasks = st.tasks := by
  unfold prepare_for_merge
  apply foldl_preserve (fun acc : St => acc.tasks = st.tasks)
  · intro x task hx
    refine foldl_preserve (fun acc2 : St => acc2.tasks = st.tasks) _ ?_ task.tagIds x hx
    intro y tagId hy
    exact hy
  · apply foldl_preserve (fun acc : St => acc.tasks = st.tasks)
    · intro x task hx
      cases task.projectId with
      | some pid => exact hx
      | none => exact hx
    · rfl


theorem prepare_proj_idtitle (st : St) :
    List.Forall₂ (fun p q : String × Project => q.2.id = p.2.id ∧ q.2.title = p.2.title)
      st.projects (prepare_for_merge st).projects := by
  unfold prepare_for_merge
  apply foldl_preserve (fun acc : St =>
    List.Forall₂ (fun p q : String × Project => q.2.id = p.2.id ∧ q.2.title = p.2.title)
      st.projects acc.projects)
  · intro x task hx
    refine foldl_preserve (fun acc : St =>
      List.Forall₂ (fun p q : String × Project => q.2.id = p.2.id ∧ q.2.title = p.2.title)
        st.projects acc.projects) _ ?_ task.tagIds x hx
    intro y tagId hy
    exact hy
  · apply foldl_preserve (fun acc : St =>
      List.Forall₂ (fun p q : String × Project => q.2.id = p.2.id ∧ q.2.title = p.2.title)
        st.projects acc.projects)
    · intro x task hx
      cases task.projectId with
      | some pid =>
          refine forall2_trans (fun a b c h1 h2 => ⟨h2.1.trans h1.1, h2.2.trans h1.2⟩) hx ?_
          apply forall2_map_self
          intro p _
          by_cases hc : p.2.id = pid ∧ !p.2.taskIds.contains task.id
          · rw [if_pos hc]
            exact ⟨rfl, rfl⟩
          · rw [if_neg hc]
            exact ⟨rfl, rfl⟩
      | none => exact hx
    · exact List.forall₂_same.mpr (fun p _ => ⟨rfl, rfl⟩)


theorem prepare_tag_idtitle (st : St) :
    List.Forall₂ (fun t u : Tag => u.id = t.id ∧ u.title = t.title)
      st.tags (prepare_for_merge st).tags := by
  unfold prepare_for_merge
  apply foldl_preserve (fun acc : St =>
    List.Forall₂ (fun t u : Tag => u.id = t.id ∧ u.title = t.title) st.tags acc.tags)
  · intro x task hx
    refine foldl_preserve (fun acc : St =>
      List.Forall₂ (fun t u : Tag => u.id = t.id ∧ u.title = t.title)
        st.tags acc.tags) _ ?_ task.tagIds x hx
    intro y tagId hy
    refine forall2_trans (fun a b c h1 h2 => ⟨h2.1.trans h1.1, h2.2.trans h1.2⟩) hy ?_
    apply forall2_map_self
    intro t _
    by_cases hc : t.id = tagId ∧ !t.taskIds.contains task.id
    · rw [if_pos hc]
      exact ⟨rfl, rfl⟩
    · rw [if_neg hc]
      exact ⟨rfl, rfl⟩
  · apply foldl_preserve (fun acc : St =>
      List.Forall₂ (fun t u : Tag => u.id = t.id ∧ u.title = t.title) st.tags acc.tags)
    · intro x task hx
      cases task.projectId with
      | some pid => exact hx
      | none => exact hx
    · exact List.forall₂_same.mpr (fun t _ => ⟨rfl, rfl⟩)


theorem reassign_proj_ids (st : St) (o n : Nat) :
    (reassign_tasks_to_existing_project st o n).tasks.map (fun t => t.id) =
      st.tasks.map (fun t => t.id) := by
  unfold reassign_tasks_to_existing_project
  dsimp only
  rw [List.map_map]
  apply List.map_congr_left
  intro t _
  by_cases hc : t.projectId = some o
  · rw [Function.comp_apply, if_pos hc]
  · rw [Function.comp_apply, if_neg hc]


theorem reassign_tag_ids (st : St) (o n : Nat) :
    (reassign_tasks_to_existing_tag st o n).tasks.map (fun t => t.id) =
      st.tasks.map (fun t => t.id) := by
  unfold reassign_tasks_to_existing_tag
  dsimp only
  rw [List.map_map]
  apply List.map_congr_left
  intro t _
  by_cases hc : t.tagIds.contains o
  · rw [Function.comp_apply, if_pos hc]
  · rw [Function.comp_apply, if_neg hc]


theorem foldl_forall2_relax (s : List Nat) {a : Type}
    (f : List (Nat × PEnt) → a → List (Nat × PEnt)) :
    ∀ (l : List a),
      (∀ m, ∀ x ∈ l, List.Forall₂ (relExt s) m (f m x)) →
      ∀ (m0 : List (Nat × PEnt)), List.Forall₂ (relExt s) m0 (l.foldl f m0) := by
  intro l
  induction l with
  | nil =>
      intro _ m0
      exact List.forall₂_same.mpr (fun x _ => relExt_refl s x)
  | cons x xs ih =>
      intro hstep m0
      rw [List.foldl_cons]
      refine forall2_trans (fun a b c h1 h2 => relExt_trans s a b c h1 h2)
        (hstep m0 x (by simp)) ?_
      exact ih (fun m y hy => hstep m y (by simp [hy])) (f m0 x)



theorem projStep_dec (prior : PriorDoc) (s : List Nat) (acc : List (Nat × PEnt) × St)
    (newp : Nat × PEnt)
    (htasks : ∀ t ∈ acc.2.tasks, t.id ∈ s)
    (hfresh : ∀ e ∈ acc.1, newp.1 ≠ e.1) :
    ∃ mid d,
      (projStep prior acc newp).1 = mid ++ d ∧
      List.Forall₂ (relExt s) acc.1 mid ∧
      (∀ e ∈ d, e.1 = newp.1) ∧
      (projStep prior acc newp).2.tasks.map (fun t => t.id) =
        acc.2.tasks.map (fun t => t.id) := by
  unfold projStep
  cases htx : titleIndex prior.projEntities newp.2.title with
  | some exId =>
      dsimp only
      refine ⟨_, [], (List.append_nil _).symm, ?_, by simp, ?_⟩
      · by_cases ha : acc.1.any (fun p => p.1 = exId)
        · rw [if_pos ha]
          apply foldl_forall2_relax s _ acc.2.tasks ?_ acc.1
          intro m task hmem
          by_cases hc : task.projectId = some newp.1
          · rw [if_pos hc]
            apply forall2_map_self
            intro p _
            by_cases hpc : p.1 = exId ∧ !p.2.taskIds.contains task.id
            · rw [if_pos hpc]
              refine ⟨rfl, rfl, rfl, [task.id], rfl, fun i hi => ?_⟩
              rcases List.mem_singleton.mp hi with rfl
              exact htasks task hmem
            · rw [if_neg hpc]
              exact relExt_refl s p
          · rw [if_neg hc]
            exact List.forall₂_same.mpr (fun x _ => relExt_refl s x)
        · rw [if_neg ha]
          exact List.forall₂_same.mpr (fun x _ => relExt_refl s x)
      · exact reassign_proj_ids acc.2 newp.1 exId
  | none =>
      dsimp only
      have ha : acc.1.any (fun p => p.1 = newp.1) = false := by
        by_contra hcon
        obtain ⟨e, he, hke⟩ := List.any_eq_true.mp (Bool.of_not_eq_false hcon)
        have hke2 : e.1 = newp.1 := by simpa using hke
        exact hfresh e he hke2.symm
      refine ⟨acc.1, [(newp.1, newp.2)], ?_,
        List.forall₂_same.mpr (fun x _ => relExt_refl s x), ?_, rfl⟩
      · show pyDictSet acc.1 newp.1 newp.2 = _
        unfold pyDictSet
        rw [if_neg (by simp [ha])]
      · intro e he
        rcases List.mem_singleton.mp he with rfl
        rfl


theorem projLoop_frame (prior : PriorDoc) (s : List Nat) :
    ∀ (news : List (Nat × PEnt)) (acc : List (Nat × PEnt) × St)
      (core extra : List (Nat × PEnt)),
      acc.1 = core ++ extra →
      List.Forall₂ (relExt s) prior.projEntities core →
      (∀ t ∈ acc.2.tasks, t.id ∈ s) →
      (∀ q ∈ news, ∀ e ∈ acc.1, q.1 ≠ e.1) →
      (news.map (fun q => q.1)).Nodup →
      ∃ core2 extra2,
        (news.foldl (projStep prior) acc).1 = core2 ++ extra2 ∧
        List.Forall₂ (relExt s) prior.projEntities core2 ∧
        (news.foldl (projStep prior) acc).2.tasks.map (fun t => t.id) =
          acc.2.tasks.map (fun t => t.id) := by
  intro news
  induction news with
  | nil =>
      intro acc core extra hdec hcore htasks hdisj hnd
      exact ⟨core, extra, hdec, hcore, rfl⟩
  | cons newp news ih =>
      intro acc core extra hdec hcore htasks hdisj hnd
      rw [List.foldl_cons]
      rw [List.map_cons] at hnd
      obtain ⟨mid, d, hs1, hrel, hdk, hsids⟩ :=
        projStep_dec prior s acc newp htasks (fun e he => hdisj newp (by simp) e he)
      rw [hdec] at hrel
      obtain ⟨c2, e2, hmid, hc2, he2⟩ := forall2_append_split hrel
      have hkeys : mid.map (fun e => e.1) = (core ++ extra).map (fun e => e.1) :=
        forall2_keys_eq hrel
      have hdisj2 : ∀ q ∈ news, ∀ e ∈ (projStep prior acc newp).1, q.1 ≠ e.1 := by
        intro q hq e he
        rw [hs1] at he
        rcases List.mem_append.mp he with hm | hm
        · have hkm : e.1 ∈ (core ++ extra).map (fun e => e.1) := by
            rw [← hkeys]
            exact List.mem_map_of_mem _ hm
          obtain ⟨e0, he0, hke⟩ := List.mem_map.mp hkm
          rw [← hke]
          exact hdisj q (by simp [hq]) e0 (by rw [hdec]; exact he0)
        · rw [hdk e hm]
          intro hqk
          exact (List.nodup_cons.mp hnd).1 (hqk ▸ List.mem_map_of_mem _ hq)
      have htasks2 : ∀ t ∈ (projStep prior acc newp).2.tasks, t.id ∈ s := by
        intro t ht
        have hmem : t.id ∈ (projStep prior acc newp).2.tasks.map (fun t => t.id) :=
          List.mem_map_of_mem _ ht
        rw [hsids] at hmem
        obtain ⟨t0, ht0, hid⟩ := List.mem_map.mp hmem
        rw [← hid]
        exact htasks t0 ht0
      have hdec2 : (projStep prior acc newp).1 = c2 ++ (e2 ++ d) := by
        rw [hs1, hmid, List.append_assoc]
      have hcoreC : List.Forall₂ (relExt s) prior.projEntities c2 :=
        forall2_trans (fun a b c h1 h2 => relExt_trans s a b c h1 h2) hcore hc2
      obtain ⟨core2, extra2, hres, hcore2, hids2⟩ :=
        ih (projStep prior acc newp) c2 (e2 ++ d) hdec2 hcoreC htasks2 hdisj2
          (List.nodup_cons.mp hnd).2
      exact ⟨core2, extra2, hres, hcore2, by rw [hids2, hsids]⟩



theorem tagStep_dec (prior : PriorDoc) (s : List Nat) (acc : List (Nat × PEnt) × St)
    (newt : Nat × PEnt)
    (htasks : ∀ t ∈ acc.2.tasks, t.id ∈ s)
    (hfresh : ∀ e ∈ acc.1, newt.1 ≠ e.1) :
    ∃ mid d,
      (tagStep prior acc newt).1 = mid ++ d ∧
      List.Forall₂ (relExt s) acc.1 mid ∧
      (∀ e ∈ d, e.1 = newt.1) ∧
      (tagStep prior acc newt).2.tasks.map (fun t => t.id) =
        acc.2.tasks.map (fun t => t.id) := by
  unfold tagStep
  cases htx : titleIndex prior.tagEntities newt.2.title with
  | some exId =>
      dsimp only
      refine ⟨_, [], (List.append_nil _).symm, ?_, by simp, ?_⟩
      · by_cases ha : acc.1.any (fun p => p.1 = exId)
        · rw [if_pos ha]
          apply foldl_forall2_relax s _ acc.2.tasks ?_ acc.1
          intro m task hmem
          by_cases hc : task.tagIds.contains newt.1
          · rw [if_pos hc]
            apply forall2_map_self
            intro p _
            by_cases hpc : p.1 = exId ∧ !p.2.taskIds.contains task.id
            · rw [if_pos hpc]
              refine ⟨rfl, rfl, rfl, [task.id], rfl, fun i hi => ?_⟩
              rcases List.mem_singleton.mp hi with rfl
              exact htasks task hmem
            · rw [if_neg hpc]
              exact relExt_refl s p
          · rw [if_neg hc]
            exact List.forall₂_same.mpr (fun x _ => relExt_refl s x)
        · rw [if_neg ha]
          exact List.forall₂_same.mpr (fun x _ => relExt_refl s x)
      · exact reassign_tag_ids acc.2 newt.1 exId
  | none =>
      dsimp only
      have ha : acc.1.any (fun p => p.1 = newt.1) = false := by
        by_contra hcon
        obtain ⟨e, he, hke⟩ := List.any_eq_true.mp (Bool.of_not_eq_false hcon)
        have hke2 : e.1 = newt.1 := by simpa using hke
        exact hfresh e he hke2.symm
      refine ⟨acc.1, [(newt.1, newt.2)], ?_,
        List.forall₂_same.mpr (fun x _ => relExt_refl s x), ?_, rfl⟩
      · show pyDictSet acc.1 newt.1 newt.2 = _
        unfold pyDictSet
        rw [if_neg (by simp [ha])]
      · intro e he
        rcases List.mem_singleton.mp he with rfl
        rfl


theorem tagLoop_frame (prior : PriorDoc) (s : List Nat) :
    ∀ (news : List (Nat × PEnt)) (acc : List (Nat × PEnt) × St)
      (core extra : List (Nat × PEnt)),
      acc.1 = core ++ extra →
      List.Forall₂ (relExt s) prior.tagEntities core →
      (∀ t ∈ acc.2.tasks, t.id ∈ s) →
      (∀ q ∈ news, ∀ e ∈ acc.1, q.1 ≠ e.1) →
      (news.map (fun q => q.1)).Nodup →
      ∃ core2 extra2,
        (news.foldl (tagStep prior) acc).1 = core2 ++ extra2 ∧
        List.Forall₂ (relExt s) prior.tagEntities core2 ∧
        (news.foldl (tagStep prior) acc).2.tasks.map (fun t => t.id) =
          acc.2.tasks.map (fun t => t.id) := by
  intro news
  induction news with
  | nil =>
      intro acc core extra hdec hcore htasks hdisj hnd
      exact ⟨core, extra, hdec, hcore, rfl⟩
  | cons newt news ih =>
      intro acc core extra hdec hcore htasks hdisj hnd
      rw [List.foldl_cons]
      rw [List.map_cons] at hnd
      obtain ⟨mid, d, hs1, hrel, hdk, hsids⟩ :=
        tagStep_dec prior s acc newt htasks (fun e he => hdisj newt (by simp) e he)
      rw [hdec] at hrel
      obtain ⟨c2, e2, hmid, hc2, he2⟩ := forall2_append_split hrel
      have hkeys : mid.map (fun e => e.1) = (core ++ extra).map (fun e => e.1) :=
        forall2_keys_eq hrel
      have hdisj2 : ∀ q ∈ news, ∀ e ∈ (tagStep prior acc newt).1, q.1 ≠ e.1 := by
        intro q hq e he
        rw [hs1] at he
        rcases List.mem_append.mp he with hm | hm
        · have hkm : e.1 ∈ (core ++ extra).map (fun e => e.1) := by
            rw [← hkeys]
            exact List.mem_map_of_mem _ hm
          obtain ⟨e0, he0, hke⟩ := List.mem_map.mp hkm
          rw [← hke]
          exact hdisj q (by simp [hq]) e0 (by rw [hdec]; exact he0)
        · rw [hdk e hm]
          intro hqk
          exact (List.nodup_cons.mp hnd).1 (hqk ▸ List.mem_map_of_mem _ hq)
      have htasks2 : ∀ t ∈ (tagStep prior acc newt).2.tasks, t.id ∈ s := by
        intro t ht
        have hmem : t.id ∈ (tagStep prior acc newt).2.tasks.map (fun t => t.id) :=
          List.mem_map_of_mem _ ht
        rw [hsids] at hmem
        obtain ⟨t0, ht0, hid⟩ := List.mem_map.mp hmem
        rw [← hid]
        exact htasks t0 ht0
      have hdec2 : (tagStep prior acc newt).1 = c2 ++ (e2 ++ d) := by
        rw [hs1, hmid, List.append_assoc]
      have hcoreC : List.Forall₂ (relExt s) prior.tagEntities c2 :=
        forall2_trans (fun a b c h1 h2 => relExt_trans s a b c h1 h2) hcore hc2
      obtain ⟨core2, extra2, hres, hcore2, hids2⟩ :=
        ih (tagStep prior acc newt) c2 (e2 ++ d) hdec2 hcoreC htasks2 hdisj2
          (List.nodup_cons.mp hnd).2
      exact ⟨core2, extra2, hres, hcore2, by rw [hids2, hsids]⟩



theorem forall2_map_eq {a b c : Type} {R : a → b → Prop} (f : a → c) (g : b → c)
    (hR : ∀ x y, R x y → g y = f x) :
    ∀ {l1 : List a} {l2 : List b}, List.Forall₂ R l1 l2 → l2.map g = l1.map f := by
  intro l1 l2 h
  induction h with
  | nil => rfl
  | cons hxy _ ih => simp only [List.map_cons, hR _ _ hxy, ih]


/-- C3: the merged document keeps every prior and every new task id, leaves
prior task entities untouched when ids are fresh, and alters prior project
and tag entities only by appending new-task ids to their taskIds lists. -/
theorem c3_merge_frame (st0 : St) (prior : PriorDoc) (mergeNow : Int)
    (stF : St) (M : MergedDoc)
    (hrun : merge_with_existing_data st0 prior mergeNow = (stF, M))
    (hTaskFresh : ∀ t ∈ st0.tasks, ∀ e ∈ prior.taskEntities, t.id ≠ e.1)
    (hProjFresh : ∀ p ∈ st0.projects, ∀ e ∈ prior.projEntities, p.2.id ≠ e.1)
    (hProjNodup : (st0.projects.map (fun p => p.2.id)).Nodup)
    (hTagFresh : ∀ g ∈ st0.tags, ∀ e ∈ prior.tagEntities, g.id ≠ e.1)
    (hTagNodup : (st0.tags.map (fun t => t.id)).Nodup) :
    (∀ e ∈ prior.taskEntities, e.1 ∈ M.taskIds) ∧
    (∀ t ∈ st0.tasks, t.id ∈ M.taskIds) ∧
    (∀ e ∈ prior.taskEntities, e ∈ M.taskEntities) ∧
    (∃ core extra, M.projEntities = core ++ extra ∧
      List.Forall₂ (relExt (st0.tasks.map (fun t => t.id))) prior.projEntities core) ∧
    (∃ core extra, M.tagEntities = core ++ extra ∧
      List.Forall₂ (relExt (st0.tasks.map (fun t => t.id))) prior.tagEntities core) := by
  have hstF : stF = (mergeTagLoop st0 prior).2 := (congrArg Prod.fst hrun).symm
  have hMtaskIds : M.taskIds = (pyDictUpdate prior.taskEntities
      ((mergeTagLoop st0 prior).2.tasks.map fun t => (t.id, t))).map (fun q => q.1) :=
    (congrArg (fun x : St × MergedDoc => x.2.taskIds) hrun).symm
  have hMtaskEnts : M.taskEntities = pyDictUpdate prior.taskEntities
      ((mergeTagLoop st0 prior).2.tasks.map fun t => (t.id, t)) :=
    (congrArg (fun x : St × MergedDoc => x.2.taskEntities) hrun).symm
  have hMproj : M.projEntities = (mergeProjLoop st0 prior).1 :=
    (congrArg (fun x : St × MergedDoc => x.2.projEntities) hrun).symm
  have hMtag : M.tagEntities = (mergeTagLoop st0 prior).1 :=
    (congrArg (fun x : St × MergedDoc => x.2.tagEntities) hrun).symm
  have hprep : (prepare_for_merge st0).tasks = st0.tasks := prepare_tasks st0
  have hpids : (prepare_for_merge st0).projects.map (fun p => p.2.id) =
      st0.projects.map (fun p => p.2.id) :=
    forall2_map_eq (fun p => p.2.id) (fun p => p.2.id) (fun x y h => h.1)
      (prepare_proj_idtitle st0)
  have hgids : (prepare_for_merge st0).tags.map (fun t => t.id) =
      st0.tags.map (fun t => t.id) :=
    forall2_map_eq (fun t => t.id) (fun t => t.id) (fun x y h => h.1)
      (prepare_tag_idtitle st0)
  have hnewsP : (((prepare_for_merge st0).projects.map
      fun p => (p.2.id, projToEnt p.2)).map (fun q => q.1)) =
      st0.projects.map (fun p => p.2.id) := by
    rw [List.map_map, ← hpids]
    rfl
  have hnewsT : (((prepare_for_merge st0).tags.map
      fun t => (t.id, tagToEnt t)).map (fun q => q.1)) =
      st0.tags.map (fun t => t.id) := by
    rw [List.map_map, ← hgids]
    rfl
  obtain ⟨coreP, extraP, hP1, hP2, hPids⟩ :=
    projLoop_frame prior (st0.tasks.map (fun t => t.id))
      ((prepare_for_merge st0).projects.map fun p => (p.2.id, projToEnt p.2))
      (prior.projEntities, prepare_for_merge st0) prior.projEntities []
      (List.append_nil _).symm
      (List.forall₂_same.mpr (fun e _ => relExt_refl _ e))
      (by intro t ht
          have ht2 : t ∈ st0.tasks := by
            rw [← hprep]
            exact ht
          exact List.mem_map_of_mem _ ht2)
      (by intro q hq e he
          have h1 : q.1 ∈ (((prepare_for_merge st0).projects.map
              fun p => (p.2.id, projToEnt p.2)).map (fun q => q.1)) :=
            List.mem_map_of_mem _ hq
          rw [hnewsP] at h1
          obtain ⟨p0, hp0, hpk⟩ := List.mem_map.mp h1
          rw [← hpk]
          exact hProjFresh p0 hp0 e he)
      (by rw [hnewsP]
          exact hProjNodup)
  have hProjTasks : (mergeProjLoop st0 prior).2.tasks.map (fun t => t.id) =
      st0.tasks.map (fun t => t.id) := by
    calc (mergeProjLoop st0 prior).2.tasks.map (fun t => t.id)
        = (prepare_for_merge st0).tasks.map (fun t => t.id) := hPids
      _ = st0.tasks.map (fun t => t.id) := by rw [hprep]
  obtain ⟨coreT, extraT, hT1, hT2, hTids⟩ :=
    tagLoop_frame prior (st0.tasks.map (fun t => t.id))
      ((prepare_for_merge st0).tags.map fun t => (t.id, tagToEnt t))
      (prior.tagEntities, (mergeProjLoop st0 prior).2) prior.tagEntities []
      (List.append_nil _).symm
      (List.forall₂_same.mpr (fun e _ => relExt_refl _ e))
      (by intro t ht
          have hmem : t.id ∈ (mergeProjLoop st0 prior).2.tasks.map (fun t => t.id) :=
            List.mem_map_of_mem _ ht
          rw [hProjTasks] at hmem
          exact hmem)
      (by intro q hq e he
          have h1 : q.1 ∈ (((prepare_for_merge st0).tags.map
              fun t => (t.id, tagToEnt t)).map (fun q => q.1)) :=
            List.mem_map_of_mem _ hq
          rw [hnewsT] at h1
          obtain ⟨g0, hg0, hgk⟩ := List.mem_map.mp h1
          rw [← hgk]
          exact hTagFresh g0 hg0 e he)
      (by rw [hnewsT]
          exact hTagNodup)
  have hTagTasks : (mergeTagLoop st0 prior).2.tasks.map (fun t => t.id) =
      st0.tasks.map (fun t => t.id) := by
    calc (mergeTagLoop st0 prior).2.tasks.map (fun t => t.id)
        = (mergeProjLoop st0 prior).2.tasks.map (fun t => t.id) := hTids
      _ = st0.tasks.map (fun t => t.id) := hProjTasks
  refine ⟨?_, ?_, ?_, ?_, ?_⟩
  · intro e he
    rw [hMtaskIds]
    exact pyDictUpdate_key_base _ _ _ (List.mem_map_of_mem _ he)
  · intro t ht
    rw [hMtaskIds]
    apply pyDictUpdate_key_upd
    have hupd : (((mergeTagLoop st0 prior).2.tasks.map fun t => (t.id, t)).map
        (fun q => q.1)) = st0.tasks.map (fun t => t.id) := by
      rw [List.map_map]
      exact hTagTasks
    rw [hupd]
    exact List.mem_map_of_mem _ ht
  · intro e he
    rw [hMtaskEnts]
    apply pyDictUpdate_base_mem _ _ _ he
    apply List.find?_eq_none.mpr
    intro x hx
    obtain ⟨t, ht, rfl⟩ := List.mem_map.mp hx
    have hmem : t.id ∈ (mergeTagLoop st0 prior).2.tasks.map (fun t => t.id) :=
      List.mem_map_of_mem _ ht
    rw [hTagTasks] at hmem
    obtain ⟨t0, ht0, hid⟩ := List.mem_map.mp hmem
    have hne : t.id ≠ e.1 := by
      rw [← hid]
      exact hTaskFresh t0 ht0 e he
    simpa using hne
  · refine ⟨coreP, extraP, ?_, hP2⟩
    rw [hMproj]
    exact hP1
  · refine ⟨coreT, extraT, ?_, hT2⟩
    rw [hMtag]
    exact hT1


theorem c3_merge_frame_witness :
    (∀ e ∈ c3wPrior.taskEntities, e.1 ∈ c3wM.taskIds) ∧
    (∀ t ∈ c3wSt.tasks, t.id ∈ c3wM.taskIds) ∧
    (∀ e ∈ c3wPrior.taskEntities, e ∈ c3wM.taskEntities) ∧
    (∃ core extra, c3wM.projEntities = core ++ extra ∧
      List.Forall₂ (relExt (c3wSt.tasks.map (fun t => t.id)))
        c3wPrior.projEntities core) ∧
    (∃ core extra, c3wM.tagEntities = core ++ extra ∧
      List.Forall₂ (relExt (c3wSt.tasks.map (fun t => t.id)))
        c3wPrior.tagEntities core) :=
  c3_merge_frame c3wSt c3wPrior 5 c3wStF c3wM (by decide) (by decide) (by decide)
    (by decide) (by decide) (by decide)

theorem forall2_singleton_right {a b : Type} {R : a → b → Prop} {x : a} {l : List b}
    (h : List.Forall₂ R [x] l) : ∃ y, l = [y] ∧ R x y := by
  cases h with
  | cons h1 h2 =>
      cases h2
      exact ⟨_, rfl, h1⟩


theorem forall2_nil_right {a b : Type} {R : a → b → Prop} {l : List b}
    (h : List.Forall₂ R [] l) : l = [] := by
  cases h
  rfl


theorem extendFoldExact (exId pid : Nat) :
    ∀ (tasks : List Task) (m0 : List (Nat × PEnt)),
      (∀ t ∈ tasks, t.projectId = some pid → ∀ p ∈ m0, t.id ∉ p.2.taskIds) →
      ((tasks.filter (fun t => t.projectId = some pid)).map (fun t => t.id)).Nodup →
      tasks.foldl
        (fun (m : List (Nat × PEnt)) task =>
          if task.projectId = some pid then
            m.map fun p =>
              if p.1 = exId ∧ !p.2.taskIds.contains task.id then
                (p.1, { p.2 with taskIds := p.2.taskIds ++ [task.id] })
              else p
          else m) m0 =
      m0.map (fun p => if p.1 = exId then
        (p.1, { p.2 with taskIds := p.2.taskIds ++
          ((tasks.filter (fun t => t.projectId = some pid)).map (fun t => t.id)) })
        else p) := by
  intro tasks
  induction tasks with
  | nil =>
      intro m0 _ _
      rw [List.foldl_nil, List.filter_nil, List.map_nil]
      symm
      apply map_fix
      intro p _
      by_cases hp : p.1 = exId
      · rw [if_pos hp, List.append_nil]
      · rw [if_neg hp]
  | cons t ts ih =>
      intro m0 hfresh hnd
      have hsel : (t :: ts).filter (fun x => x.projectId = some pid) =
          (if t.projectId = some pid
            then t :: ts.filter (fun x => x.projectId = some pid)
            else ts.filter (fun x => x.projectId = some pid)) := by
        rw [List.filter_cons]
        by_cases hc : t.projectId = some pid
        · rw [if_pos (by simpa using hc), if_pos hc]
        · rw [if_neg (by simpa using hc), if_neg hc]
      rw [List.foldl_cons]
      by_cases hc : t.projectId = some pid
      · rw [if_pos hc]
        have hm1 : m0.map (fun p =>
            if p.1 = exId ∧ !p.2.taskIds.contains t.id then
              (p.1, { p.2 with taskIds := p.2.taskIds ++ [t.id] })
            else p) =
          m0.map (fun p => if p.1 = exId then
              (p.1, { p.2 with taskIds := p.2.taskIds ++ [t.id] })
            else p) := by
          apply List.map_congr_left
          intro p hp
          by_cases hpe : p.1 = exId
          · rw [if_pos ⟨hpe, by
              have hni := hfresh t (by simp) hc p hp
              simpa using hni⟩, if_pos hpe]
          · rw [if_neg (fun h => hpe h.1), if_neg hpe]
        rw [hsel, if_pos hc] at hnd ⊢
        rw [List.map_cons, List.nodup_cons] at hnd
        rw [hm1]
        rw [ih _ ?hf hnd.2]
        case hf =>
          intro u hu hup p hp
          obtain ⟨p0, hp0, hgp⟩ := List.mem_map.mp hp
          rw [← hgp]
          by_cases hpe : p0.1 = exId
          · rw [if_pos hpe]
            intro hmem
            rcases List.mem_append.mp hmem with hmem | hmem
            · exact hfresh u (by simp [hu]) hup p0 hp0 hmem
            · have huid : u.id = t.id := by simpa using hmem
              apply hnd.1
              rw [← huid]
              apply List.mem_map_of_mem
              apply List.mem_filter.mpr
              exact ⟨hu, by simpa using hup⟩
          · rw [if_neg hpe]
            exact hfresh u (by simp [hu]) hup p0 hp0
        rw [List.map_map]
        apply List.map_congr_left
        intro p hp
        by_cases hpe : p.1 = exId
        · dsimp only [Function.comp]
          rw [if_pos hpe]
          have hfst : ((p.1, { p.2 with taskIds := p.2.taskIds ++ [t.id] }) :
              Nat × PEnt).1 = exId := hpe
          rw [if_pos hfst, if_pos hpe]
          show (p.1, { p.2 with taskIds := (p.2.taskIds ++ [t.id]) ++
            ((ts.filter (fun x : Task => x.projectId = some pid)).map
              (fun u : Task => u.id)) }) =
            (p.1, { p.2 with taskIds := p.2.taskIds ++ (t.id ::
              ((ts.filter (fun x : Task => x.projectId = some pid)).map
                (fun u : Task => u.id))) })
          rw [List.append_assoc, List.singleton_append]
        · dsimp only [Function.comp]
          rw [if_neg hpe, if_neg hpe, if_neg hpe]
      · rw [if_neg hc]
        rw [hsel, if_neg hc] at hnd ⊢
        exact ih m0 (fun u hu hup p hp => hfresh u (by simp [hu]) hup p hp) hnd



/-- C7: merging a single new project whose title matches an existing one
folds the new tasks into the existing entry and rewrites foreign keys. -/
theorem c7_title_matched_project_merge (st0 : St) (prior : PriorDoc) (mergeNow : Int)
    (stF : St) (M : MergedDoc) (pname : String) (P : Project) (exId : Nat)
    (hproj : st0.projects = [(pname, P)])
    (htags : st0.tags = [])
    (htitle : titleIndex prior.projEntities P.title = some exId)
    (hfresh : ∀ t ∈ st0.tasks, ∀ e ∈ prior.projEntities, t.id ∉ e.2.taskIds)
    (hnd : (st0.tasks.map (fun t => t.id)).Nodup)
    (hrun : merge_with_existing_data st0 prior mergeNow = (stF, M)) :
    M.projEntities = prior.projEntities.map (fun e =>
      if e.1 = exId then
        (e.1, { e.2 with taskIds := e.2.taskIds ++
          ((st0.tasks.filter (fun t => t.projectId = some P.id)).map
            (fun t => t.id)) })
      else e) ∧
    M.projIds = prior.projEntities.map (fun e => e.1) ∧
    M.projEntities.map (fun e => e.2.title) =
      prior.projEntities.map (fun e => e.2.title) ∧
    stF.tasks = st0.tasks.map (fun t =>
      if t.projectId = some P.id then { t with projectId := some exId } else t) := by
  have hq0 := prepare_proj_idtitle st0
  rw [hproj] at hq0
  obtain ⟨q, hqeq, hqid0, hqtitle0⟩ := forall2_singleton_right hq0
  have hqid : q.2.id = P.id := hqid0
  have hqtitle : q.2.title = P.title := hqtitle0
  have htg0 := prepare_tag_idtitle st0
  rw [htags] at htg0
  have htgeq : (prepare_for_merge st0).tags = [] := forall2_nil_right htg0
  have hprept : (prepare_for_merge st0).tasks = st0.tasks := prepare_tasks st0
  have hany : prior.projEntities.any (fun p => p.1 = exId) = true := by
    obtain ⟨e, he, hk, _⟩ := titleIndex_mem_main prior.projEntities P.title exId htitle
    exact List.any_eq_true.mpr ⟨e, he, by simp [hk]⟩
  have hPL1 : mergeProjLoop st0 prior =
      projStep prior (prior.projEntities, prepare_for_merge st0)
        (q.2.id, projToEnt q.2) := by
    unfold mergeProjLoop
    rw [hqeq]
    rfl
  have hti : titleIndex prior.projEntities
      ((q.2.id, projToEnt q.2) : Nat × PEnt).2.title = some exId := by
    show titleIndex prior.projEntities q.2.title = some exId
    rw [hqtitle]
    exact htitle
  have hfr : ∀ t ∈ st0.tasks, t.projectId = some P.id →
      ∀ p ∈ prior.projEntities, t.id ∉ p.2.taskIds :=
    fun t ht _ p hp => hfresh t ht p hp
  have hnd2 : ((st0.tasks.filter (fun t => t.projectId = some P.id)).map
      (fun t => t.id)).Nodup :=
    List.Nodup.sublist (List.Sublist.map _ (List.filter_sublist _)) hnd
  have hPLfst : (mergeProjLoop st0 prior).1 =
      prior.projEntities.map (fun e =>
        if e.1 = exId then
          (e.1, { e.2 with taskIds := e.2.taskIds ++
            ((st0.tasks.filter (fun t => t.projectId = some P.id)).map
              (fun t => t.id)) })
        else e) := by
    rw [hPL1]
    unfold projStep
    rw [hti]
    dsimp only
    rw [if_pos hany, hprept, hqid]
    exact extendFoldExact exId P.id st0.tasks prior.projEntities hfr hnd2
  have hPLsnd : (mergeProjLoop st0 prior).2 =
      reassign_tasks_to_existing_project (prepare_for_merge st0) q.2.id exId := by
    rw [hPL1]
    unfold projStep
    rw [hti]
  have hTL : mergeTagLoop st0 prior = (prior.tagEntities, (mergeProjLoop st0 prior).2) := by
    unfold mergeTagLoop
    rw [htgeq]
    rfl
  have hMproj : M.projEntities = (mergeProjLoop st0 prior).1 :=
    (congrArg (fun x : St × MergedDoc => x.2.projEntities) hrun).symm
  have hMprojIds : M.projIds = (mergeProjLoop st0 prior).1.map (fun e => e.1) :=
    (congrArg (fun x : St × MergedDoc => x.2.projIds) hrun).symm
  have hstF : stF = (mergeTagLoop st0 prior).2 := (congrArg Prod.fst hrun).symm
  refine ⟨?_, ?_, ?_, ?_⟩
  · rw [hMproj, hPLfst]
  · rw [hMprojIds, hPLfst, List.map_map]
    apply List.map_congr_left
    intro e _
    by_cases he : e.1 = exId
    · dsimp only [Function.comp]
      rw [if_pos he]
    · dsimp only [Function.comp]
      rw [if_neg he]
  · rw [hMproj, hPLfst, List.map_map]
    apply List.map_congr_left
    intro e _
    by_cases he : e.1 = exId
    · dsimp only [Function.comp]
      rw [if_pos he]
    · dsimp only [Function.comp]
      rw [if_neg he]
  · rw [hstF, hTL]
    show (mergeProjLoop st0 prior).2.tasks = _
    rw [hPLsnd]
    unfold reassign_tasks_to_existing_project
    dsimp only
    rw [hprept, hqid]
    


theorem c7_title_matched_project_merge_witness :
    c7wM.projEntities = c7wPrior.projEntities.map (fun e =>
      if e.1 = 2 then
        (e.1, { e.2 with taskIds := e.2.taskIds ++
          ((c7wSt.tasks.filter (fun t => t.projectId = some c7wProject.id)).map
            (fun t => t.id)) })
      else e) ∧
    c7wM.projIds = c7wPrior.projEntities.map (fun e => e.1) ∧
    c7wM.projEntities.map (fun e => e.2.title) =
      c7wPrior.projEntities.map (fun e => e.2.title) ∧
    c7wStF.tasks = c7wSt.tasks.map (fun t =>
      if t.projectId = some c7wProject.id then { t with projectId := some 2 } else t) :=
  c7_title_matched_project_merge c7wSt c7wPrior 5 c7wStF c7wM "Work" c7wProject 2
    (by decide) (by decide) (by decide) (by decide) (by decide) (by decide)

end TodoConv
